import Mathlib

/-!
# Workday calendar: shallow embedding and verified properties

Embedding of `lib/src/gregoriancalendar.cpp` and `lib/src/workdaycalendar.cpp`.

Conventions of the embedding.

* `std::chrono::minutes`, `std::chrono::days` and `time_point<system_clock, minutes>` are
  tick counts and are embedded as `Int` (minutes, days, minutes since 1970-01-01 00:00).
  Their 64-bit representation is taken as unbounded.
* Two types of the source are narrower than the numbers they stand for: `float`
  (binary32) and the year of a date (`std::chrono::year` holds a 16-bit value). Each
  function of `workdaycalendar.cpp` that computes with one of them is embedded twice.
  Under the name of the source function, `float incrementWorkdays` is the rational number
  the binary32 value denotes, its arithmetic is exact, and the year is an unbounded
  integer. Under the same name prefixed by `Machine.`, every `float` operation rounds to
  binary32 and `Date{floor<days>(timePoint)}` stores the year modulo 2^16, as the compiled
  code does. The two agree for whole-day increments up to 2^24 as long as the dates stay
  within -32768-01-01 .. 32767-12-31 (`machine_of_exact_intCast`); the results about
  fractional increments and about dates near the two ends of that range are stated on the
  `Machine.` functions.
* The two `while` loops of `workdaycalendar.cpp` need not terminate (every day of the year
  can be a recurring holiday), so they take a bound on the number of iterations and return
  `none` when the bound is exhausted.
-/

namespace WorkdayCalendarSpec

/-! ## `std::chrono` value types used by the repository -/

/-- Embedding of `std::chrono::year_month_day` (`Date` in `commoncalendar.h`): the three
stored fields, of which `month` and `day` are `unsigned char` values. A `Date` need not be a
valid calendar date. -/
structure Date where
  year : Int
  month : Nat
  day : Nat
  deriving DecidableEq

/-- Embedding of `std::chrono::hh_mm_ss<minutes>` (`Time` in `commoncalendar.h`). The C++
object stores `is_negative`, `hours`, `minutes` of the absolute value of the duration it was
built from, and is determined by that duration, which is the field `count` here. -/
structure Time where
  count : Int
  deriving DecidableEq

/-- The accessor `hh_mm_ss::hours()`: whole hours of the absolute value. -/
def Time.hours (t : Time) : Int := (t.count.natAbs / 60 : Nat)

/-- The accessor `hh_mm_ss::minutes()`: remaining minutes of the absolute value. -/
def Time.minutes (t : Time) : Int := (t.count.natAbs % 60 : Nat)

/-- The accessor `hh_mm_ss::to_duration()`, in minutes (signed). -/
def Time.to_duration (t : Time) : Int := t.count

/-- Embedding of `struct DateTime` of `commoncalendar.h`. -/
structure DateTime where
  date : Date
  time : Time
  deriving DecidableEq

/-- The month constants of `std::chrono` used by the sources. -/
def January : Nat := 1

/-- The constant `std::chrono::February`. -/
def February : Nat := 2

/-- The member `std::chrono::year::is_leap`. -/
def is_leap (y : Int) : Bool :=
  y % 4 == 0 && (y % 100 != 0 || y % 400 == 0)

/-- The member `std::chrono::month::ok`. -/
def month_ok (m : Nat) : Bool := 1 ≤ m && m ≤ 12

/-- The member `std::chrono::day::ok`. -/
def day_ok (d : Nat) : Bool := 1 ≤ d && d ≤ 31

/-- The conversion `sys_days(year_month_day)` of `std::chrono`: days since 1970-01-01 in the
proleptic Gregorian calendar, by the reference algorithm `days_from_civil`. Divisions are
floor divisions, as in the reference algorithm (`Int` division rounds down for a positive
divisor). For a date whose month is not in 1..12 the C++ value is unspecified. -/
def sys_days (date : Date) : Int :=
  let m : Int := date.month
  let d : Int := date.day
  let y : Int := if m ≤ 2 then date.year - 1 else date.year
  let era : Int := y / 400
  let yoe : Int := y - era * 400
  let doy : Int := (153 * (if m > 2 then m - 3 else m + 9) + 2) / 5 + d - 1
  let doe : Int := yoe * 365 + yoe / 4 - yoe / 100 + doy
  era * 146097 + doe - 719468

/-- The conversion `year_month_day{sys_days}` of `std::chrono`: the civil date of a day
count, by the reference algorithm `civil_from_days`. -/
def Date.ofSysDays (z : Int) : Date :=
  let z : Int := z + 719468
  let era : Int := z / 146097
  let doe : Int := z - era * 146097
  let yoe : Int := (doe - doe / 1460 + doe / 36524 - doe / 146096) / 365
  let y : Int := yoe + era * 400
  let doy : Int := doe - (365 * yoe + yoe / 4 - yoe / 100)
  let mp : Int := (5 * doy + 2) / 153
  let d : Int := doy - (153 * mp + 2) / 5 + 1
  let m : Int := if mp < 10 then mp + 3 else mp - 9
  { year := if m ≤ 2 then y + 1 else y, month := m.toNat, day := d.toNat }

/-- The conversion `weekday{sys_days}` of `std::chrono`, as the C encoding of the weekday:
0 is Sunday, 6 is Saturday (1970-01-01 was a Thursday). -/
def weekday_from_days (z : Int) : Int := (z + 4) % 7

/-- The constant `std::chrono::Sunday` (C encoding). -/
def Sunday : Int := 0

/-- The constant `std::chrono::Saturday` (C encoding). -/
def Saturday : Int := 6

/-- The constant `std::chrono::Friday` (C encoding). -/
def Friday : Int := 5

/-- The construction `weekday wd{date}`: the date converts to `sys_days` first. -/
def weekday (date : Date) : Int := weekday_from_days (sys_days date)

/-- The rounding `floor<days>` of a time point counted in minutes. -/
def floor_days (timePoint : Int) : Int := timePoint / 1440

/-! ## `gregoriancalendar.cpp` -/

/-- Embedding of `getNumberOfDaysInMonth` of `gregoriancalendar.cpp`; the result is cast to
`uint8_t`. -/
def getNumberOfDaysInMonth (y : Int) (m : Nat) : Nat :=
  if m = February then
    (if is_leap y then 29 else 28)
  else
    let i : Nat := m
    (30 ||| (i ^^^ (i >>> 3))) % 256

/-- Embedding of `clamp(year_month_day, Month)` of `gregoriancalendar.cpp`. -/
def clampDate (date : Date) (month : Nat) : Date :=
  let maxDayValue := getNumberOfDaysInMonth date.year date.month
  let date : Date :=
    if date.day > maxDayValue then
      { year := date.year, month := month, day := maxDayValue }
    else if !day_ok date.day then
      { year := date.year, month := month, day := 1 }
    else date
  if !month_ok date.month then
    { year := date.year, month := January, day := date.day }
  else date

/-- Embedding of `clamp(hh_mm_ss<minutes>)` of `gregoriancalendar.cpp`. -/
def clampTime (time : Time) : Time :=
  let maxHour : Int := 23
  let maxMinute : Int := 59
  if time.hours > maxHour then
    { count := maxHour * 60 + maxMinute }
  else time

/-- Embedding of `class GregorianCalendar`: its two private fields. -/
structure GregorianCalendar where
  date_ : Date
  time_ : Time
  deriving DecidableEq

/-- The constructor `GregorianCalendar(DateTime)`. -/
def GregorianCalendar.ofDateTime (dt : DateTime) : GregorianCalendar :=
  { date_ := clampDate dt.date dt.date.month, time_ := clampTime dt.time }

/-- The constructor `GregorianCalendar(int16_t, Month, uint8_t, uint8_t, uint8_t)`; the
arguments are the values of the typed parameters. -/
def GregorianCalendar.ofRaw (y : Int) (m : Nat) (d hh mm : Nat) : GregorianCalendar :=
  GregorianCalendar.ofDateTime
    { date := { year := y, month := m, day := d }, time := { count := (hh : Int) * 60 + mm } }

/-- The constructor `GregorianCalendar(year, month, day, hours, minutes)`; `hh` and `mm` are
the tick counts of the two durations. -/
def GregorianCalendar.ofChrono (y : Int) (m : Nat) (d : Nat) (hh mm : Int) : GregorianCalendar :=
  GregorianCalendar.ofDateTime
    { date := { year := y, month := m, day := d }, time := { count := hh * 60 + mm } }

/-- The member `GregorianCalendar::getDateTime`. -/
def GregorianCalendar.getDateTime (g : GregorianCalendar) : DateTime :=
  { date := g.date_, time := g.time_ }

/-- The member `GregorianCalendar::getTime`. -/
def GregorianCalendar.getTime (g : GregorianCalendar) : Time := g.time_

/-- The member `GregorianCalendar::getDate`. -/
def GregorianCalendar.getDate (g : GregorianCalendar) : Date := g.date_

/-! ## `workdaycalendar.cpp` -/

/-- Embedding of `struct WorkdayDurationsInMinutes`. -/
structure WorkdayDurationsInMinutes where
  workDay : Int
  increment : Int
  startWorkday : Int
  stopWorkday : Int
  inputTime : Int
  deriving DecidableEq

/-- Embedding of `struct Holidays`: the two spans, as lists. -/
structure Holidays where
  nonRecurring : List Date
  recurring : List Date
  deriving DecidableEq

/-- Embedding of `class WorkdayCalendar`: its four private fields, with the default member
initialisers as default values. -/
structure WorkdayCalendar where
  start_ : Time := { count := 0 }
  stop_ : Time := { count := 0 }
  nonRecurringHolidays_ : List Date := []
  recurringHolidays_ : List Date := []
  deriving DecidableEq

/-- The member `WorkdayCalendar::setHoliday`. -/
def WorkdayCalendar.setHoliday (self : WorkdayCalendar) (date : GregorianCalendar) :
    WorkdayCalendar :=
  { self with nonRecurringHolidays_ := self.nonRecurringHolidays_ ++ [date.getDate] }

/-- The member `WorkdayCalendar::setRecurringHoliday`. -/
def WorkdayCalendar.setRecurringHoliday (self : WorkdayCalendar) (date : GregorianCalendar) :
    WorkdayCalendar :=
  { self with recurringHolidays_ := self.recurringHolidays_ ++ [date.getDate] }

/-- The member `WorkdayCalendar::setWorkdayStartAndStop`. -/
def WorkdayCalendar.setWorkdayStartAndStop (self : WorkdayCalendar)
    (startTime stopTime : GregorianCalendar) : WorkdayCalendar :=
  { self with start_ := startTime.getTime, stop_ := stopTime.getTime }

/-- The conversion `static_cast<int>(float)`: truncation toward zero. -/
def truncToInt (x : ℚ) : Int := if 0 ≤ x then ⌊x⌋ else ⌈x⌉

/-- Embedding of `calculateIncrement`: the sign of the increment as a number of days. -/
def calculateIncrement (incrementWorkdays : ℚ) : Int :=
  let sign : Int := if incrementWorkdays ≥ 0 then 1 else -1
  sign * 1

/-- Embedding of `calculateTimeDuration`. -/
def calculateTimeDuration (startTime : Time) (incrementWorkdays : ℚ)
    (startWorkday stopWorkday : Time) : WorkdayDurationsInMinutes :=
  let incrementInDays : Int := truncToInt incrementWorkdays
  let workDay : Int := stopWorkday.to_duration - startWorkday.to_duration
  { workDay := workDay
    increment := ⌊(workDay : ℚ) * (incrementWorkdays - (incrementInDays : ℚ))⌋
    startWorkday := startWorkday.to_duration
    stopWorkday := stopWorkday.to_duration
    inputTime := startTime.to_duration }

/-- Embedding of `clampStartTime`. -/
def clampStartTime (time : WorkdayDurationsInMinutes) : Int :=
  let isStartAtEarlier : Bool := time.inputTime < time.startWorkday
  let isStartAtLater : Bool := time.inputTime > time.stopWorkday
  if isStartAtEarlier then time.startWorkday
  else if isStartAtLater then time.stopWorkday
  else time.inputTime

/-- Embedding of `calculateEndTime`: the returned time, paired with the new value of the
time point that the C++ function updates through its reference parameter. -/
def calculateEndTime (startTime : Int) (timePoint : Int) (time : WorkdayDurationsInMinutes) :
    Time × Int :=
  let result : Int := startTime + time.increment
  if result < time.startWorkday then
    let underflow : Int := time.startWorkday - result
    ({ count := time.stopWorkday - underflow }, timePoint - 1 * 1440)
  else if result > time.stopWorkday then
    let overflow : Int := result - time.stopWorkday
    ({ count := time.startWorkday + overflow }, timePoint + 1 * 1440)
  else
    ({ count := result }, timePoint)

/-- Embedding of `makeTimepoint`. -/
def makeTimepoint (dt : DateTime) : Int :=
  sys_days dt.date * 1440 + dt.time.hours * 60 + dt.time.minutes

/-- Embedding of `isWeekend`. -/
def isWeekend (date : Date) : Bool :=
  let wd := weekday date
  wd == Sunday || wd == Saturday

/-- Embedding of `isHoliday`: the two `for` loops return `true` at the first match. -/
def isHoliday (date : Date) (holidays : Holidays) : Bool :=
  holidays.nonRecurring.any (fun holiday => date == holiday) ||
  holidays.recurring.any (fun holiday => holiday.month == date.month && holiday.day == date.day)

/-- The `while` loop of `clampStartDate`, run for at most `fuel` iterations; the state is
the pair of locals `timePoint`, `current`. -/
def clampStartDateLoop (increment : Int) (holidays : Holidays) :
    Nat → Int → Date → Option Int
  | 0, timePoint, current =>
    if isWeekend current || isHoliday current holidays then none else some timePoint
  | fuel + 1, timePoint, current =>
    if isWeekend current || isHoliday current holidays then
      let timePoint := timePoint + increment * 1440
      clampStartDateLoop increment holidays fuel timePoint (Date.ofSysDays (floor_days timePoint))
    else some timePoint

/-- Embedding of `clampStartDate`, with a bound on the iterations of its loop. -/
def clampStartDate (fuel : Nat) (incrementWorkdays : ℚ) (timePoint : Int)
    (holidays : Holidays) : Option Int :=
  let increment := calculateIncrement incrementWorkdays
  let current := Date.ofSysDays (floor_days timePoint)
  clampStartDateLoop increment holidays fuel timePoint current

/-- The `while` loop of `calculateEndDate`, run for at most `fuel` iterations; the state is
the triple of locals `timePoint`, `incrementInDays`, `current`. -/
def calculateEndDateLoop (increment : Int) (holidays : Holidays) :
    Nat → Int → Int → Date → Option Date
  | 0, _, incrementInDays, current =>
    if incrementInDays ≠ 0 then none else some current
  | fuel + 1, timePoint, incrementInDays, current =>
    if incrementInDays ≠ 0 then
      let timePoint := timePoint + increment * 1440
      let current := Date.ofSysDays (floor_days timePoint)
      if isWeekend current || isHoliday current holidays then
        calculateEndDateLoop increment holidays fuel timePoint incrementInDays current
      else
        calculateEndDateLoop increment holidays fuel timePoint (incrementInDays - increment)
          current
    else some current

/-- Embedding of `calculateEndDate`, with a bound on the iterations of its loop. -/
def calculateEndDate (fuel : Nat) (incrementWorkdays : ℚ) (timePoint : Int)
    (holidays : Holidays) : Option Date :=
  let increment := calculateIncrement incrementWorkdays
  let current := Date.ofSysDays (floor_days timePoint)
  let incrementInDays : Int := truncToInt incrementWorkdays
  calculateEndDateLoop increment holidays fuel timePoint incrementInDays current

/-- Embedding of `WorkdayCalendar::getWorkdayIncrement`; `fuel` bounds the iterations of
each of the two loops, and the result is `none` when a loop exhausts it. -/
def WorkdayCalendar.getWorkdayIncrement (self : WorkdayCalendar) (fuel : Nat)
    (startDate : DateTime) (incrementWorkdays : ℚ) : Option DateTime :=
  let holidays : Holidays :=
    { nonRecurring := self.nonRecurringHolidays_, recurring := self.recurringHolidays_ }
  let timeInMinutes :=
    calculateTimeDuration startDate.time incrementWorkdays self.start_ self.stop_
  let correctedStartTime := clampStartTime timeInMinutes
  let timePoint := makeTimepoint startDate
  let endTime := calculateEndTime correctedStartTime timePoint timeInMinutes
  match clampStartDate fuel incrementWorkdays endTime.2 holidays with
  | none => none
  | some timePoint =>
    match calculateEndDate fuel incrementWorkdays timePoint holidays with
    | none => none
    | some date => some { date := date, time := endTime.1 }

/-! ## `workdaycalendar.cpp` on the machine types

The definitions above read `float` as the exact rational and the year of a date as an
unbounded integer. The definitions of this section are the same functions with the two
machine types in place: the arithmetic of `float` rounds to binary32, and the year that
`Date{floor<days>(timePoint)}` stores is a 16-bit value. The functions of the source that
use neither (`calculateIncrement`, `clampStartTime`, `calculateEndTime`, `makeTimepoint`,
`isWeekend`, `isHoliday`) are shared. -/

/-- The conversion `static_cast<short>(int)` by which `std::chrono::year` stores its value:
the value modulo 2^16 in the range -32768..32767. -/
def Machine.int16 (y : Int) : Int := (y + 32768) % 65536 - 32768

/-- Rounding of a rational to the nearest integer, a tie going to the even neighbour. -/
def Machine.roundHalfEven (x : ℚ) : Int :=
  if x - ⌊x⌋ < 1 / 2 then ⌊x⌋
  else if 1 / 2 < x - ⌊x⌋ then ⌊x⌋ + 1
  else if ⌊x⌋ % 2 = 0 then ⌊x⌋ else ⌊x⌋ + 1

/-- Rounding of a real result to binary32, the rounding of every `float` operation: to the
nearest multiple of the unit in the last place, ties to even. The significand has 24 bits
and the least exponent is -126, below which the unit stays at 2^-149 (subnormal numbers).
Overflow to infinity is not modelled. -/
def Machine.binary32 (q : ℚ) : ℚ :=
  if q = 0 then 0
  else
    let e : Int := max (Int.log 2 |q|) (-126)
    let ulp : ℚ := 2 ^ (e - 23)
    (Machine.roundHalfEven (q / ulp) : ℚ) * ulp

/-- The construction `Date{floor<days>(timePoint)}` as the library performs it: the civil
date of the day count is computed in `int`, and the `year` of the `year_month_day` stores it
in a `short`. -/
def Machine.ofSysDays (z : Int) : Date :=
  let date := Date.ofSysDays z
  { year := Machine.int16 date.year, month := date.month, day := date.day }

/-- Embedding of `calculateTimeDuration` with `float` arithmetic: `incrementInDays.count()`
converts to `float`, the subtraction is a `float` subtraction, `workDay` converts to `float`
(`minutes * float` has the representation `float`) and the product is a `float` product;
`floor<minutes>` then takes the greatest integer not above it. -/
def Machine.calculateTimeDuration (startTime : Time) (incrementWorkdays : ℚ)
    (startWorkday stopWorkday : Time) : WorkdayDurationsInMinutes :=
  let incrementInDays : Int := truncToInt incrementWorkdays
  let workDay : Int := stopWorkday.to_duration - startWorkday.to_duration
  let fraction : ℚ :=
    Machine.binary32 (incrementWorkdays - Machine.binary32 (incrementInDays : ℚ))
  { workDay := workDay
    increment := ⌊Machine.binary32 (Machine.binary32 (workDay : ℚ) * fraction)⌋
    startWorkday := startWorkday.to_duration
    stopWorkday := stopWorkday.to_duration
    inputTime := startTime.to_duration }

/-- The `while` loop of `clampStartDate` with the 16-bit year, run for at most `fuel`
iterations. -/
def Machine.clampStartDateLoop (increment : Int) (holidays : Holidays) :
    Nat → Int → Date → Option Int
  | 0, timePoint, current =>
    if isWeekend current || isHoliday current holidays then none else some timePoint
  | fuel + 1, timePoint, current =>
    if isWeekend current || isHoliday current holidays then
      let timePoint := timePoint + increment * 1440
      Machine.clampStartDateLoop increment holidays fuel timePoint
        (Machine.ofSysDays (floor_days timePoint))
    else some timePoint

/-- Embedding of `clampStartDate` with the 16-bit year, with a bound on the iterations of
its loop. -/
def Machine.clampStartDate (fuel : Nat) (incrementWorkdays : ℚ) (timePoint : Int)
    (holidays : Holidays) : Option Int :=
  let increment := calculateIncrement incrementWorkdays
  let current := Machine.ofSysDays (floor_days timePoint)
  Machine.clampStartDateLoop increment holidays fuel timePoint current

/-- The `while` loop of `calculateEndDate` with the 16-bit year, run for at most `fuel`
iterations. -/
def Machine.calculateEndDateLoop (increment : Int) (holidays : Holidays) :
    Nat → Int → Int → Date → Option Date
  | 0, _, incrementInDays, current =>
    if incrementInDays ≠ 0 then none else some current
  | fuel + 1, timePoint, incrementInDays, current =>
    if incrementInDays ≠ 0 then
      let timePoint := timePoint + increment * 1440
      let current := Machine.ofSysDays (floor_days timePoint)
      if isWeekend current || isHoliday current holidays then
        Machine.calculateEndDateLoop increment holidays fuel timePoint incrementInDays current
      else
        Machine.calculateEndDateLoop increment holidays fuel timePoint
          (incrementInDays - increment) current
    else some current

/-- Embedding of `calculateEndDate` with the 16-bit year, with a bound on the iterations of
its loop. -/
def Machine.calculateEndDate (fuel : Nat) (incrementWorkdays : ℚ) (timePoint : Int)
    (holidays : Holidays) : Option Date :=
  let increment := calculateIncrement incrementWorkdays
  let current := Machine.ofSysDays (floor_days timePoint)
  let incrementInDays : Int := truncToInt incrementWorkdays
  Machine.calculateEndDateLoop increment holidays fuel timePoint incrementInDays current

/-- Embedding of `WorkdayCalendar::getWorkdayIncrement` on the machine types: binary32
arithmetic in `calculateTimeDuration` and the 16-bit year in the two loops. `fuel` bounds
the iterations of each loop, and the result is `none` when a loop exhausts it. -/
def Machine.getWorkdayIncrement (self : WorkdayCalendar) (fuel : Nat)
    (startDate : DateTime) (incrementWorkdays : ℚ) : Option DateTime :=
  let holidays : Holidays :=
    { nonRecurring := self.nonRecurringHolidays_, recurring := self.recurringHolidays_ }
  let timeInMinutes :=
    Machine.calculateTimeDuration startDate.time incrementWorkdays self.start_ self.stop_
  let correctedStartTime := clampStartTime timeInMinutes
  let timePoint := makeTimepoint startDate
  let endTime := calculateEndTime correctedStartTime timePoint timeInMinutes
  match Machine.clampStartDate fuel incrementWorkdays endTime.2 holidays with
  | none => none
  | some timePoint =>
    match Machine.calculateEndDate fuel incrementWorkdays timePoint holidays with
    | none => none
    | some date => some { date := date, time := endTime.1 }

/-! ## Auxiliary definitions of the specification -/

/-- Month lengths of the Gregorian calendar, as `year_month_day_last::day` computes them. -/
def last_day_of_month (y : Int) (m : Nat) : Nat :=
  match m with
  | 1 => 31 | 2 => if is_leap y then 29 else 28 | 3 => 31 | 4 => 30 | 5 => 31 | 6 => 30
  | 7 => 31 | 8 => 31 | 9 => 30 | 10 => 31 | 11 => 30 | 12 => 31
  | _ => 0

/-- The member `year_month_day::ok`, with the year unbounded. -/
def Date.ok (date : Date) : Bool :=
  month_ok date.month && 1 ≤ date.day && date.day ≤ last_day_of_month date.year date.month

/-- The civil date of day `doe` of era `era`, in terms of the year of era `yoe` and the day of
the (March-based) year `doy`. -/
def civilOfParts (era yoe doy : Int) : Date :=
  let y : Int := yoe + era * 400
  let mp : Int := (5 * doy + 2) / 153
  let d : Int := doy - (153 * mp + 2) / 5 + 1
  let m : Int := if mp < 10 then mp + 3 else mp - 9
  { year := if m ≤ 2 then y + 1 else y, month := m.toNat, day := d.toNat }

/-- The holidays of a calendar, as `getWorkdayIncrement` passes them to its helpers. -/
def WorkdayCalendar.holidays (self : WorkdayCalendar) : Holidays :=
  { nonRecurring := self.nonRecurringHolidays_, recurring := self.recurringHolidays_ }

/-- A working day: a date on which the condition `isWeekend || isHoliday` of the two loops
is false. -/
def isWorkday (holidays : Holidays) (date : Date) : Bool :=
  !(isWeekend date || isHoliday date holidays)

/-- Number of working days among the `k` days `z + inc * 1`, ..., `z + inc * k` (day counts
since the epoch). -/
def countWorkdays (holidays : Holidays) (z inc : Int) : Nat → Nat
  | 0 => 0
  | k + 1 => countWorkdays holidays z inc k +
      (if isWorkday holidays (Date.ofSysDays (z + inc * ((k + 1 : Nat) : Int))) then 1 else 0)

/-- A valid time of day, 00:00 to 23:59. -/
def Time.ok (t : Time) : Bool := 0 ≤ t.count && t.count < 1440

/-- The states of a `WorkdayCalendar` object: the default-constructed calendar and what its
three setters make of it. Every `GregorianCalendar` argument comes from a constructor, and
the three constructors all delegate to `GregorianCalendar(DateTime)`. -/
inductive WorkdayCalendar.Reachable : WorkdayCalendar → Prop
  | init : WorkdayCalendar.Reachable {}
  | setHoliday (self : WorkdayCalendar) (dt : DateTime) : WorkdayCalendar.Reachable self →
      WorkdayCalendar.Reachable (self.setHoliday (GregorianCalendar.ofDateTime dt))
  | setRecurringHoliday (self : WorkdayCalendar) (dt : DateTime) :
      WorkdayCalendar.Reachable self →
      WorkdayCalendar.Reachable (self.setRecurringHoliday (GregorianCalendar.ofDateTime dt))
  | setWorkdayStartAndStop (self : WorkdayCalendar) (dt1 dt2 : DateTime) :
      WorkdayCalendar.Reachable self →
      WorkdayCalendar.Reachable (self.setWorkdayStartAndStop (GregorianCalendar.ofDateTime dt1)
        (GregorianCalendar.ofDateTime dt2))

/-- The time of day and the time point that `getWorkdayIncrement` obtains from
`calculateEndTime`, before its two loops run. -/
def WorkdayCalendar.endTime (self : WorkdayCalendar) (startDate : DateTime)
    (incrementWorkdays : ℚ) : Time × Int :=
  let timeInMinutes :=
    calculateTimeDuration startDate.time incrementWorkdays self.start_ self.stop_
  calculateEndTime (clampStartTime timeInMinutes) (makeTimepoint startDate) timeInMinutes

/-- The constant `std::chrono::May`. -/
def May : Nat := 5

/-- The constant `std::chrono::Monday` (C encoding). -/
def Monday : Int := 1

/-- The calendar that `main.cpp` and the kata test build: working hours 08:00 to 16:00, a
recurring holiday on 17 May and a holiday on 2004-05-27. -/
def kataCalendar : WorkdayCalendar :=
  ((({} : WorkdayCalendar).setWorkdayStartAndStop (GregorianCalendar.ofRaw 2004 January 1 8 0)
    (GregorianCalendar.ofRaw 2004 January 1 16 0)).setRecurringHoliday
      (GregorianCalendar.ofRaw 2004 May 17 0 0)).setHoliday
        (GregorianCalendar.ofRaw 2004 May 27 0 0)

/-- The body of `getWorkdayIncrement` once the three numbers it derives from the increment
are known: the day step `increment`, the whole days `incrementInDays` and the minutes
`fraction` of the fractional part. It is used to evaluate `getWorkdayIncrement` on inputs
whose three numbers have been computed. -/
def WorkdayCalendar.incrementFrom (self : WorkdayCalendar) (fuel : Nat) (startDate : DateTime)
    (increment incrementInDays fraction : Int) : Option DateTime :=
  let timeInMinutes : WorkdayDurationsInMinutes :=
    { workDay := self.stop_.to_duration - self.start_.to_duration
      increment := fraction
      startWorkday := self.start_.to_duration
      stopWorkday := self.stop_.to_duration
      inputTime := startDate.time.to_duration }
  let endTime := calculateEndTime (clampStartTime timeInMinutes) (makeTimepoint startDate)
    timeInMinutes
  match clampStartDateLoop increment self.holidays fuel endTime.2
      (Date.ofSysDays (floor_days endTime.2)) with
  | none => none
  | some timePoint =>
    match calculateEndDateLoop increment self.holidays fuel timePoint incrementInDays
        (Date.ofSysDays (floor_days timePoint)) with
    | none => none
    | some date => some { date := date, time := endTime.1 }

/-- The calendar of the test `holidaySetToOtherYearThanCurrent_doesNotSkipsWorkday`: only
the fixed holiday 2004-05-27 is configured. -/
def fixedHolidayCalendar : WorkdayCalendar :=
  ({} : WorkdayCalendar).setHoliday (GregorianCalendar.ofRaw 2004 May 27 0 0)

/-- The calendar of the counterexample of C4: no holidays, and a working window that starts
at 16:00 and stops at 08:00. -/
def reversedCalendar : WorkdayCalendar :=
  ({} : WorkdayCalendar).setWorkdayStartAndStop (GregorianCalendar.ofRaw 2025 12 5 16 0)
    (GregorianCalendar.ofRaw 2025 12 5 8 0)

/-- The calendar of the counterexample of C6: the window 16:00 to 08:00 and only the fixed
holiday 2004-05-27. -/
def reversedHolidayCalendar : WorkdayCalendar :=
  reversedCalendar.setHoliday (GregorianCalendar.ofRaw 2004 May 27 0 0)

/-- The day count of -32768-01-01, the first date whose year a `short` holds. -/
def Machine.firstDay : Int := sys_days ⟨-32768, 1, 1⟩

/-- The day count of 32767-12-31, the last date whose year a `short` holds. -/
def Machine.lastDay : Int := sys_days ⟨32767, 12, 31⟩

/-- Number of days among `z + inc * 1`, ..., `z + inc * k` whose stored date (16-bit year)
is a working day. -/
def Machine.countWorkdays (holidays : Holidays) (z inc : Int) : Nat → Nat
  | 0 => 0
  | k + 1 => Machine.countWorkdays holidays z inc k +
      (if isWorkday holidays (Machine.ofSysDays (z + inc * ((k + 1 : Nat) : Int))) then 1
        else 0)

/-- The time of day and the time point that `Machine.getWorkdayIncrement` obtains from
`calculateEndTime`, before its two loops run. -/
def Machine.endTime (self : WorkdayCalendar) (startDate : DateTime)
    (incrementWorkdays : ℚ) : Time × Int :=
  let timeInMinutes :=
    Machine.calculateTimeDuration startDate.time incrementWorkdays self.start_ self.stop_
  calculateEndTime (clampStartTime timeInMinutes) (makeTimepoint startDate) timeInMinutes

/-- The body of `Machine.getWorkdayIncrement` once the three numbers it derives from the
increment are known: the day step, the whole days and the minutes of the fractional part. -/
def Machine.incrementFrom (self : WorkdayCalendar) (fuel : Nat) (startDate : DateTime)
    (increment incrementInDays fraction : Int) : Option DateTime :=
  let timeInMinutes : WorkdayDurationsInMinutes :=
    { workDay := self.stop_.to_duration - self.start_.to_duration
      increment := fraction
      startWorkday := self.start_.to_duration
      stopWorkday := self.stop_.to_duration
      inputTime := startDate.time.to_duration }
  let endTime := calculateEndTime (clampStartTime timeInMinutes) (makeTimepoint startDate)
    timeInMinutes
  match Machine.clampStartDateLoop increment self.holidays fuel endTime.2
      (Machine.ofSysDays (floor_days endTime.2)) with
  | none => none
  | some timePoint =>
    match Machine.calculateEndDateLoop increment self.holidays fuel timePoint incrementInDays
        (Machine.ofSysDays (floor_days timePoint)) with
    | none => none
    | some date => some { date := date, time := endTime.1 }

/-- Number of days among `a + inc * 1`, ..., `a + inc * k` (day counts since the epoch) that
fall on Monday to Friday. -/
def weekCount (a inc : Int) : Nat → Nat
  | 0 => 0
  | k + 1 => weekCount a inc k +
      (if weekday_from_days (a + inc * ((k + 1 : Nat) : Int)) = Sunday ∨
          weekday_from_days (a + inc * ((k + 1 : Nat) : Int)) = Saturday then 0 else 1)

/-! ## The calendar conversions are inverse to each other -/

theorem div_of_parts (a b n r : Int) (hn : 0 < n) (ha : a = n * b + r) (h0 : 0 ≤ r)
    (h1 : r < n) : a / n = b := by
  subst ha
  rw [Int.add_comm, Int.add_mul_ediv_left _ _ (by omega), Int.ediv_eq_zero_of_lt h0 h1]; simp

theorem doe_split (a : Int) (h0 : 0 ≤ a) (h1 : a ≤ 146096) :
    ∃ f q t u : Int, a = 36524 * f + 1461 * q + 365 * t + u ∧ 0 ≤ f ∧ f ≤ 3 ∧ 0 ≤ q ∧ q ≤ 24 ∧
      0 ≤ t ∧ t ≤ 3 ∧ 0 ≤ u ∧ (u ≤ 364 ∨ (t = 3 ∧ u = 365 ∧ (q < 24 ∨ f = 3))) := by
  refine ⟨min (a / 36524) 3, min ((a - 36524 * min (a / 36524) 3) / 1461) 24,
    min ((a - 36524 * min (a / 36524) 3 -
      1461 * min ((a - 36524 * min (a / 36524) 3) / 1461) 24) / 365) 3,
    a - 36524 * min (a / 36524) 3 - 1461 * min ((a - 36524 * min (a / 36524) 3) / 1461) 24 -
      365 * min ((a - 36524 * min (a / 36524) 3 -
        1461 * min ((a - 36524 * min (a / 36524) 3) / 1461) 24) / 365) 3, ?_⟩
  omega

theorem yoe_of_parts (f q t u : Int) (hf0 : 0 ≤ f) (hf1 : f ≤ 3) (hq0 : 0 ≤ q) (hq1 : q ≤ 24)
    (ht0 : 0 ≤ t) (ht1 : t ≤ 3) (hu0 : 0 ≤ u)
    (hu : u ≤ 364 ∨ (t = 3 ∧ u = 365 ∧ (q < 24 ∨ f = 3))) (a : Int)
    (ha : a = 36524 * f + 1461 * q + 365 * t + u) :
    (a - a / 1460 + a / 36524 - a / 146096) / 365 = 100 * f + 4 * q + t := by
  have h1 : a / 36524 - a / 146096 = f := by
    by_cases hlast : f = 3 ∧ q = 24 ∧ t = 3 ∧ u = 365
    · obtain ⟨rfl, rfl, rfl, rfl⟩ := hlast
      subst ha; decide
    · have e1 : a / 36524 = f :=
        div_of_parts a f 36524 (1461 * q + 365 * t + u) (by omega) (by omega) (by omega)
          (by omega)
      have e2 : a / 146096 = 0 :=
        div_of_parts a 0 146096 a (by omega) (by omega) (by omega) (by omega)
      omega
  have h2 : (a / 1460 = 25 * f + q ∧ 365 * t + u + 24 * f + q < 1460) ∨
      (a / 1460 = 25 * f + q + 1 ∧ 365 * t + u + 24 * f + q ≥ 1460) := by
    by_cases hc : 365 * t + u + 24 * f + q < 1460
    · left
      exact ⟨div_of_parts a _ 1460 (365 * t + u + 24 * f + q) (by omega) (by omega) (by omega)
        hc, hc⟩
    · right
      exact ⟨div_of_parts a _ 1460 (365 * t + u + 24 * f + q - 1460) (by omega) (by omega)
        (by omega) (by omega), by omega⟩
  rcases h2 with ⟨e, hc⟩ | ⟨e, hc⟩
  · exact div_of_parts _ _ 365 u (by omega) (by omega) (by omega) (by omega)
  · exact div_of_parts _ _ 365 (u - 1) (by omega) (by omega) (by omega) (by omega)

theorem ofSysDays_eq_parts (z era f q t u : Int)
    (hz : z + 719468 = era * 146097 + (36524 * f + 1461 * q + 365 * t + u))
    (hf0 : 0 ≤ f) (hf1 : f ≤ 3) (hq0 : 0 ≤ q) (hq1 : q ≤ 24)
    (ht0 : 0 ≤ t) (ht1 : t ≤ 3) (hu0 : 0 ≤ u)
    (hu : u ≤ 364 ∨ (t = 3 ∧ u = 365 ∧ (q < 24 ∨ f = 3))) :
    Date.ofSysDays z = civilOfParts era (100 * f + 4 * q + t) u := by
  have hera : (z + 719468) / 146097 = era :=
    div_of_parts _ _ 146097 (36524 * f + 1461 * q + 365 * t + u) (by omega) (by omega)
      (by omega) (by omega)
  have hdoe : z + 719468 - era * 146097 = 36524 * f + 1461 * q + 365 * t + u := by omega
  have hyoe := yoe_of_parts f q t u hf0 hf1 hq0 hq1 ht0 ht1 hu0 hu _ rfl
  have h4 : (100 * f + 4 * q + t) / 4 = 25 * f + q := by omega
  have h100 : (100 * f + 4 * q + t) / 100 = f := by omega
  have hdoy : (36524 * f + 1461 * q + 365 * t + u) - (365 * (100 * f + 4 * q + t) +
      (100 * f + 4 * q + t) / 4 - (100 * f + 4 * q + t) / 100) = u := by omega
  unfold Date.ofSysDays civilOfParts
  dsimp only
  rw [hera, hdoe, hyoe, hdoy]

theorem month_of_mp (mp : Int) (h0 : 0 ≤ mp) (h1 : mp ≤ 11) :
    (153 * ((if (if mp < 10 then mp + 3 else mp - 9) > 2 then (if mp < 10 then mp + 3 else mp - 9) - 3
      else (if mp < 10 then mp + 3 else mp - 9) + 9)) + 2) / 5 = (153 * mp + 2) / 5 := by
  split_ifs <;> first | rfl | omega

theorem sys_days_civilOfParts (era f q t u : Int)
    (hf0 : 0 ≤ f) (hf1 : f ≤ 3) (hq0 : 0 ≤ q) (hq1 : q ≤ 24)
    (ht0 : 0 ≤ t) (ht1 : t ≤ 3) (hu0 : 0 ≤ u) (hu : u ≤ 365) :
    sys_days (civilOfParts era (100 * f + 4 * q + t) u) =
      era * 146097 + (36524 * f + 1461 * q + 365 * t + u) - 719468 := by
  have hmp : 0 ≤ (5 * u + 2) / 153 ∧ (5 * u + 2) / 153 ≤ 11 := by omega
  have hd : 0 ≤ u - (153 * ((5 * u + 2) / 153) + 2) / 5 ∧
      u - (153 * ((5 * u + 2) / 153) + 2) / 5 ≤ 30 := by omega
  obtain ⟨mp, hmpdef⟩ : ∃ mp, (5 * u + 2) / 153 = mp := ⟨_, rfl⟩
  obtain ⟨dm, hdm⟩ : ∃ dm, (153 * mp + 2) / 5 = dm := ⟨_, rfl⟩
  rw [hmpdef] at hmp hd
  rw [hdm] at hd
  have h4 : (100 * f + 4 * q + t) / 4 = 25 * f + q := by omega
  have h100 : (100 * f + 4 * q + t) / 100 = f := by omega
  have hm := month_of_mp mp hmp.1 hmp.2
  unfold sys_days civilOfParts
  dsimp only
  rw [hmpdef, hdm]
  have hmnat : (((if mp < 10 then mp + 3 else mp - 9).toNat : Nat) : Int) =
      (if mp < 10 then mp + 3 else mp - 9) := by
    apply Int.toNat_of_nonneg; split_ifs <;> omega
  have hdnat : (((u - dm + 1).toNat : Nat) : Int) = u - dm + 1 := by
    apply Int.toNat_of_nonneg; omega
  rw [hmnat, hdnat, hm, hdm]
  have hy : (if (if mp < 10 then mp + 3 else mp - 9) ≤ 2 then
      (if (if mp < 10 then mp + 3 else mp - 9) ≤ 2 then 100 * f + 4 * q + t + era * 400 + 1
        else 100 * f + 4 * q + t + era * 400) - 1
      else (if (if mp < 10 then mp + 3 else mp - 9) ≤ 2 then 100 * f + 4 * q + t + era * 400 + 1
        else 100 * f + 4 * q + t + era * 400)) = 100 * f + 4 * q + t + era * 400 := by
    split_ifs <;> omega
  rw [hy]
  have hera : (100 * f + 4 * q + t + era * 400) / 400 = era :=
    div_of_parts _ _ 400 (100 * f + 4 * q + t) (by omega) (by omega) (by omega) (by omega)
  rw [hera]
  have hyoe : 100 * f + 4 * q + t + era * 400 - era * 400 = 100 * f + 4 * q + t := by omega
  rw [hyoe, h4, h100]
  omega

theorem sys_days_ofSysDays (z : Int) : sys_days (Date.ofSysDays z) = z := by
  obtain ⟨f, q, t, u, ha, hf0, hf1, hq0, hq1, ht0, ht1, hu0, hu⟩ :=
    doe_split (z + 719468 - (z + 719468) / 146097 * 146097) (by omega) (by omega)
  rw [ofSysDays_eq_parts z ((z + 719468) / 146097) f q t u (by omega) hf0 hf1 hq0 hq1 ht0 ht1
    hu0 hu, sys_days_civilOfParts _ f q t u hf0 hf1 hq0 hq1 ht0 ht1 hu0 (by omega)]
  omega

theorem is_leap_iff (y : Int) :
    is_leap y = true ↔ y % 4 = 0 ∧ (y % 100 ≠ 0 ∨ y % 400 = 0) := by
  simp [is_leap]

theorem ok_cases (y : Int) (m dd : Nat) (h : Date.ok ⟨y, m, dd⟩ = true) :
    1 ≤ dd ∧ ((m = 1 ∧ dd ≤ 31) ∨ (m = 2 ∧ dd ≤ 28) ∨
      (m = 2 ∧ dd = 29 ∧ y % 4 = 0 ∧ (y % 100 ≠ 0 ∨ y % 400 = 0)) ∨ (m = 3 ∧ dd ≤ 31) ∨
      (m = 4 ∧ dd ≤ 30) ∨ (m = 5 ∧ dd ≤ 31) ∨ (m = 6 ∧ dd ≤ 30) ∨ (m = 7 ∧ dd ≤ 31) ∨
      (m = 8 ∧ dd ≤ 31) ∨ (m = 9 ∧ dd ≤ 30) ∨ (m = 10 ∧ dd ≤ 31) ∨ (m = 11 ∧ dd ≤ 30) ∨
      (m = 12 ∧ dd ≤ 31)) := by
  simp only [Date.ok, month_ok, Bool.and_eq_true, decide_eq_true_eq] at h
  obtain ⟨⟨⟨hm1, hm12⟩, hd1⟩, hdl⟩ := h
  refine ⟨hd1, ?_⟩
  interval_cases m <;> simp only [last_day_of_month] at hdl
  case «2» =>
    by_cases hl : is_leap y = true
    · rw [if_pos hl] at hdl
      have := (is_leap_iff y).1 hl
      omega
    · rw [if_neg hl] at hdl
      omega
  all_goals omega


theorem civilOfParts_of_month (era yoe u mp : Int) (hmp : (5 * u + 2) / 153 = mp)
    (h0 : 0 ≤ mp) (h1 : mp ≤ 11) (y : Int) (m dd : Nat)
    (hm : (m : Int) = if mp < 10 then mp + 3 else mp - 9)
    (hd : (dd : Int) = u - (153 * mp + 2) / 5 + 1)
    (hy : y = if mp < 10 then yoe + era * 400 else yoe + era * 400 + 1) :
    civilOfParts era yoe u = ⟨y, m, dd⟩ := by
  unfold civilOfParts
  dsimp only
  rw [hmp, ← hd, ← hm, Int.toNat_ofNat, Int.toNat_ofNat, hm, hy]
  congr 1
  split_ifs <;> omega

theorem ofSysDays_sys_days (date : Date) (h : date.ok = true) :
    Date.ofSysDays (sys_days date) = date := by
  obtain ⟨y, m, dd⟩ := date
  obtain ⟨hd1, hc⟩ := ok_cases y m dd h
  obtain ⟨M, hM⟩ : ∃ M : Int, (m : Int) = M := ⟨_, rfl⟩
  obtain ⟨D, hD⟩ : ∃ D : Int, (dd : Int) = D := ⟨_, rfl⟩
  obtain ⟨mp, hmp⟩ : ∃ mp : Int, mp = if M > 2 then M - 3 else M + 9 := ⟨_, rfl⟩
  obtain ⟨y0, hy0⟩ : ∃ y0 : Int, y0 = if M ≤ 2 then y - 1 else y := ⟨_, rfl⟩
  obtain ⟨era, hera⟩ : ∃ era : Int, era = y0 / 400 := ⟨_, rfl⟩
  obtain ⟨yoe, hyoe⟩ : ∃ yoe : Int, yoe = y0 - era * 400 := ⟨_, rfl⟩
  obtain ⟨f, hf⟩ : ∃ f : Int, f = yoe / 100 := ⟨_, rfl⟩
  obtain ⟨q, hq⟩ : ∃ q : Int, q = (yoe - 100 * f) / 4 := ⟨_, rfl⟩
  obtain ⟨t, ht⟩ : ∃ t : Int, t = yoe - 100 * f - 4 * q := ⟨_, rfl⟩
  obtain ⟨u, hu⟩ : ∃ u : Int, u = (153 * mp + 2) / 5 + D - 1 := ⟨_, rfl⟩
  have hyoe_b : 0 ≤ yoe ∧ yoe ≤ 399 := by omega
  have hmp_b : 0 ≤ mp ∧ mp ≤ 11 := by split_ifs at hmp <;> omega
  have hM' : M = if mp < 10 then mp + 3 else mp - 9 := by
    split_ifs at hmp <;> split_ifs <;> omega
  have hu_b : 0 ≤ u ∧ u ≤ 365 := by split_ifs at hmp <;> omega
  have hmp' : (5 * u + 2) / 153 = mp := by split_ifs at hmp <;> omega
  have hleap : u ≤ 364 ∨ (t = 3 ∧ u = 365 ∧ (q < 24 ∨ f = 3)) := by
    split_ifs at hmp <;> split_ifs at hy0 <;> omega
  have hyoe' : yoe = 100 * f + 4 * q + t := by omega
  have hsys : sys_days ⟨y, m, dd⟩ + 719468 =
      era * 146097 + (36524 * f + 1461 * q + 365 * t + u) := by
    unfold sys_days
    dsimp only
    rw [hM, hD, ← hy0, ← hera, ← hyoe, ← hmp, hyoe']
    have h4 : (100 * f + 4 * q + t) / 4 = 25 * f + q := by omega
    have h100 : (100 * f + 4 * q + t) / 100 = f := by omega
    rw [h4, h100]
    omega
  rw [ofSysDays_eq_parts _ era f q t u hsys (by omega) (by omega) (by omega) (by omega)
    (by omega) (by omega) hu_b.1 hleap, ← hyoe']
  apply civilOfParts_of_month era yoe u mp hmp' hmp_b.1 hmp_b.2
  · rw [hM]; exact hM'
  · rw [hD]; omega
  · split_ifs at hmp hy0 ⊢ <;> omega

/-! ## The calendar repeats every 400 years -/

theorem weekday_ofSysDays (z : Int) : weekday (Date.ofSysDays z) = weekday_from_days z := by
  unfold weekday
  rw [sys_days_ofSysDays]

theorem ofSysDays_injective (a b : Int) (h : Date.ofSysDays a = Date.ofSysDays b) : a = b := by
  rw [← sys_days_ofSysDays a, ← sys_days_ofSysDays b, h]

/-! ## The two loops of `workdaycalendar.cpp` -/

theorem floor_days_add (tp inc : Int) : floor_days (tp + inc * 1440) = floor_days tp + inc := by
  unfold floor_days
  omega

theorem loop_cond_eq (h : Holidays) (date : Date) :
    (isWeekend date || isHoliday date h) = !isWorkday h date := by
  simp [isWorkday]

theorem clampStartDateLoop_eq_some_iff (inc : Int) (h : Holidays) (fuel : Nat) :
    ∀ (tp tp' : Int),
      clampStartDateLoop inc h fuel tp (Date.ofSysDays (floor_days tp)) = some tp' ↔
      ∃ k : Nat, k ≤ fuel ∧ tp' = tp + inc * 1440 * (k : Int) ∧
        isWorkday h (Date.ofSysDays (floor_days tp + inc * (k : Int))) = true ∧
        ∀ j : Nat, j < k → isWorkday h (Date.ofSysDays (floor_days tp + inc * (j : Int))) = false := by
  induction fuel with
  | zero =>
    intro tp tp'
    rw [clampStartDateLoop, loop_cond_eq]
    cases hw : isWorkday h (Date.ofSysDays (floor_days tp))
    · simp only [Bool.not_false, if_true]
      constructor
      · intro hc; cases hc
      · rintro ⟨k, hk, -, hwk, -⟩
        have : k = 0 := by omega
        subst this
        simp [hw] at hwk
    · simp only [Bool.not_true, Bool.false_eq_true, if_false, Option.some.injEq]
      constructor
      · intro e
        exact ⟨0, le_refl _, by simp [e], by simpa using hw, by intro j hj; omega⟩
      · rintro ⟨k, hk, e, -, -⟩
        have : k = 0 := by omega
        subst this
        simpa using e.symm
  | succ fuel ih =>
    intro tp tp'
    rw [clampStartDateLoop, loop_cond_eq]
    cases hw : isWorkday h (Date.ofSysDays (floor_days tp))
    · simp only [Bool.not_false, if_true]
      rw [ih (tp + inc * 1440) tp', floor_days_add]
      constructor
      · rintro ⟨k, hk, e, hwk, hlt⟩
        refine ⟨k + 1, by omega, ?_, ?_, ?_⟩
        · rw [e]; push_cast; ring
        · rw [← hwk]; congr 2; push_cast; ring
        · intro j hj
          cases j with
          | zero => simpa using hw
          | succ j =>
            rw [← hlt j (by omega)]; congr 2; push_cast; ring
      · rintro ⟨k, hk, e, hwk, hlt⟩
        cases k with
        | zero => simp [hw] at hwk
        | succ k =>
          refine ⟨k, by omega, ?_, ?_, ?_⟩
          · rw [e]; push_cast; ring
          · rw [← hwk]; congr 2; push_cast; ring
          · intro j hj
            rw [← hlt (j + 1) (by omega)]; congr 2; push_cast; ring
    · simp only [Bool.not_true, Bool.false_eq_true, if_false, Option.some.injEq]
      constructor
      · intro e
        exact ⟨0, Nat.zero_le _, by simp [e], by simpa using hw, by intro j hj; omega⟩
      · rintro ⟨k, hk, e, -, hlt⟩
        cases k with
        | zero => simpa using e.symm
        | succ k =>
          have := hlt 0 (by omega)
          simp [hw] at this

theorem countWorkdays_shift (h : Holidays) (z inc : Int) (k : Nat) :
    countWorkdays h z inc (k + 1) =
      (if isWorkday h (Date.ofSysDays (z + inc)) then 1 else 0) +
        countWorkdays h (z + inc) inc k := by
  induction k with
  | zero => simp [countWorkdays]
  | succ k ih =>
    have e : z + inc * ((k + 1 + 1 : Nat) : Int) = z + inc + inc * ((k + 1 : Nat) : Int) := by
      push_cast; ring
    rw [countWorkdays, ih, countWorkdays, Nat.add_assoc, e]

theorem countWorkdays_pos (h : Holidays) (z inc : Int) (k : Nat)
    (hw : isWorkday h (Date.ofSysDays (z + inc * ((k + 1 : Nat) : Int))) = true) :
    0 < countWorkdays h z inc (k + 1) := by
  rw [countWorkdays, hw]; simp

theorem calculateEndDateLoop_eq_some_iff (inc : Int) (h : Holidays)
    (hinc : inc = 1 ∨ inc = -1) (fuel : Nat) :
    ∀ (tp : Int) (cnt : Nat) (cur r : Date),
      calculateEndDateLoop inc h fuel tp (inc * (cnt : Int)) cur = some r ↔
      (cnt = 0 ∧ r = cur) ∨
      (0 < cnt ∧ ∃ k : Nat, 1 ≤ k ∧ k ≤ fuel ∧
        r = Date.ofSysDays (floor_days tp + inc * (k : Int)) ∧
        isWorkday h (Date.ofSysDays (floor_days tp + inc * (k : Int))) = true ∧
        countWorkdays h (floor_days tp) inc k = cnt) := by
  have hne : ∀ cnt : Nat, inc * (cnt : Int) ≠ 0 ↔ cnt ≠ 0 := by
    intro cnt
    rcases hinc with rfl | rfl <;> omega
  induction fuel with
  | zero =>
    intro tp cnt cur r
    rw [calculateEndDateLoop]
    by_cases hc : cnt = 0
    · subst hc
      simp only [Nat.cast_zero, mul_zero, ne_eq, not_true_eq_false, if_false,
        Option.some.injEq, true_and, lt_self_iff_false, false_and, or_false]
      exact eq_comm
    · rw [if_pos ((hne cnt).2 hc)]
      constructor
      · intro h0; cases h0
      · rintro (⟨h0, -⟩ | ⟨-, k, hk1, hk0, -⟩)
        · exact absurd h0 hc
        · omega
  | succ fuel ih =>
    intro tp cnt cur r
    rw [calculateEndDateLoop]
    by_cases hc : cnt = 0
    · subst hc
      simp only [Nat.cast_zero, mul_zero, ne_eq, not_true_eq_false, if_false,
        Option.some.injEq, true_and, lt_self_iff_false, false_and, or_false]
      exact eq_comm
    · rw [if_pos ((hne cnt).2 hc)]
      simp only [floor_days_add, loop_cond_eq]
      have hcpos : 0 < cnt := Nat.pos_of_ne_zero hc
      cases hw : isWorkday h (Date.ofSysDays (floor_days tp + inc))
      · simp only [Bool.not_false, if_true]
        rw [ih (tp + inc * 1440) cnt, floor_days_add]
        constructor
        · rintro (⟨h0, -⟩ | ⟨-, k, hk1, hk, e, hwk, hcount⟩)
          · exact absurd h0 hc
          · refine Or.inr ⟨hcpos, k + 1, by omega, by omega, ?_, ?_, ?_⟩
            · rw [e]; congr 1; push_cast; ring
            · rw [← hwk]; congr 2; push_cast; ring
            · rw [countWorkdays_shift, hw]; simpa using hcount
        · rintro (⟨h0, -⟩ | ⟨-, k, hk1, hk, e, hwk, hcount⟩)
          · exact absurd h0 hc
          · cases k with
            | zero => omega
            | succ k =>
              cases k with
              | zero => simp [hw] at hwk
              | succ k =>
                refine Or.inr ⟨hcpos, k + 1, by omega, by omega, ?_, ?_, ?_⟩
                · rw [e]; congr 1; push_cast; ring
                · rw [← hwk]; congr 2; push_cast; ring
                · rw [countWorkdays_shift, hw] at hcount; simpa using hcount
      · simp only [Bool.not_true, Bool.false_eq_true, if_false]
        have hsub : inc * (cnt : Int) - inc = inc * ((cnt - 1 : Nat) : Int) := by
          rw [Nat.cast_sub hcpos]; push_cast; ring
        rw [hsub, ih (tp + inc * 1440) (cnt - 1), floor_days_add]
        constructor
        · rintro (⟨h0, e⟩ | ⟨hpos, k, hk1, hk, e, hwk, hcount⟩)
          · refine Or.inr ⟨hcpos, 1, le_refl _, by omega, ?_, ?_, ?_⟩
            · rw [e]; simp
            · simpa using hw
            · simp [countWorkdays, hw]; omega
          · refine Or.inr ⟨hcpos, k + 1, by omega, by omega, ?_, ?_, ?_⟩
            · rw [e]; congr 1; push_cast; ring
            · rw [← hwk]; congr 2; push_cast; ring
            · rw [countWorkdays_shift, hw, hcount]; simp; omega
        · rintro (⟨h0, -⟩ | ⟨-, k, hk1, hk, e, hwk, hcount⟩)
          · exact absurd h0 hc
          · cases k with
            | zero => omega
            | succ k =>
              rw [countWorkdays_shift, hw] at hcount
              cases k with
              | zero =>
                refine Or.inl ⟨?_, ?_⟩
                · simp [countWorkdays] at hcount; omega
                · rw [e]; simp
              | succ k =>
                have hwk' : isWorkday h (Date.ofSysDays
                    (floor_days tp + inc + inc * ((k + 1 : Nat) : Int))) = true := by
                  rw [← hwk]; congr 2; push_cast; ring
                have hp := countWorkdays_pos h (floor_days tp + inc) inc k hwk'
                refine Or.inr ⟨by simp at hcount; omega, k + 1, by omega, by omega, ?_, hwk', ?_⟩
                · rw [e]; congr 1; push_cast; ring
                · simp at hcount; omega

/-! ## Characterisation of `getWorkdayIncrement` -/

theorem calculateIncrement_cases (w : ℚ) :
    calculateIncrement w = 1 ∨ calculateIncrement w = -1 := by
  unfold calculateIncrement
  split_ifs <;> simp

theorem calculateIncrement_of_nonneg (w : ℚ) (h : 0 ≤ w) : calculateIncrement w = 1 := by
  unfold calculateIncrement
  simp [h]

theorem calculateIncrement_of_neg (w : ℚ) (h : w < 0) : calculateIncrement w = -1 := by
  unfold calculateIncrement
  simp [not_le.2 h]

theorem truncToInt_eq (w : ℚ) :
    truncToInt w = calculateIncrement w * ((truncToInt w).natAbs : Int) := by
  by_cases h : 0 ≤ w
  · have h1 : 0 ≤ truncToInt w := by
      unfold truncToInt; rw [if_pos h]; exact Int.floor_nonneg.2 h
    rw [calculateIncrement_of_nonneg w h]
    omega
  · have h1 : truncToInt w ≤ 0 := by
      unfold truncToInt; rw [if_neg h]
      exact Int.ceil_le.2 (by push_cast; exact le_of_lt (not_le.1 h))
    rw [calculateIncrement_of_neg w (not_le.1 h)]
    omega

theorem getWorkdayIncrement_eq_some_iff (cfg : WorkdayCalendar) (fuel : Nat)
    (start : DateTime) (w : ℚ) (r : DateTime) :
    cfg.getWorkdayIncrement fuel start w = some r ↔
      ∃ k0 : Nat, k0 ≤ fuel ∧
        isWorkday cfg.holidays (Date.ofSysDays
          (floor_days (cfg.endTime start w).2 + calculateIncrement w * (k0 : Int))) = true ∧
        (∀ j : Nat, j < k0 → isWorkday cfg.holidays (Date.ofSysDays
          (floor_days (cfg.endTime start w).2 + calculateIncrement w * (j : Int))) = false) ∧
        r.time = (cfg.endTime start w).1 ∧
        (((truncToInt w).natAbs = 0 ∧ r.date = Date.ofSysDays
            (floor_days (cfg.endTime start w).2 + calculateIncrement w * (k0 : Int))) ∨
          (0 < (truncToInt w).natAbs ∧ ∃ k : Nat, 1 ≤ k ∧ k ≤ fuel ∧
            r.date = Date.ofSysDays (floor_days (cfg.endTime start w).2 +
              calculateIncrement w * (k0 : Int) + calculateIncrement w * (k : Int)) ∧
            isWorkday cfg.holidays (Date.ofSysDays (floor_days (cfg.endTime start w).2 +
              calculateIncrement w * (k0 : Int) + calculateIncrement w * (k : Int))) = true ∧
            countWorkdays cfg.holidays (floor_days (cfg.endTime start w).2 +
              calculateIncrement w * (k0 : Int)) (calculateIncrement w) k =
                (truncToInt w).natAbs)) := by
  have hfl : ∀ k0 : Nat, floor_days ((cfg.endTime start w).2 +
      calculateIncrement w * 1440 * (k0 : Int)) =
      floor_days (cfg.endTime start w).2 + calculateIncrement w * (k0 : Int) := by
    intro k0
    rw [show calculateIncrement w * 1440 * (k0 : Int) =
      (calculateIncrement w * (k0 : Int)) * 1440 by ring, floor_days_add]
  have hloop := fun tp r => calculateEndDateLoop_eq_some_iff (calculateIncrement w)
    cfg.holidays (calculateIncrement_cases w) fuel tp (truncToInt w).natAbs
    (Date.ofSysDays (floor_days tp)) r
  unfold WorkdayCalendar.getWorkdayIncrement
  change (match clampStartDateLoop (calculateIncrement w) cfg.holidays fuel
      (cfg.endTime start w).2 (Date.ofSysDays (floor_days (cfg.endTime start w).2)) with
    | none => none
    | some timePoint =>
      match calculateEndDateLoop (calculateIncrement w) cfg.holidays fuel timePoint
          (truncToInt w) (Date.ofSysDays (floor_days timePoint)) with
      | none => none
      | some date => some { date := date, time := (cfg.endTime start w).1 }) = some r ↔ _
  have htr := truncToInt_eq w
  generalize (truncToInt w).natAbs = cnt at htr hloop ⊢
  rw [htr]
  constructor
  · intro hres
    cases hc : clampStartDateLoop (calculateIncrement w) cfg.holidays fuel
        (cfg.endTime start w).2 (Date.ofSysDays (floor_days (cfg.endTime start w).2)) with
    | none => rw [hc] at hres; cases hres
    | some tp =>
      rw [hc] at hres
      simp only at hres
      obtain ⟨k0, hk0, e, hw, hlt⟩ := (clampStartDateLoop_eq_some_iff _ _ _ _ _).1 hc
      cases hd : calculateEndDateLoop (calculateIncrement w) cfg.holidays fuel tp
          (calculateIncrement w * (cnt : Int))
          (Date.ofSysDays (floor_days tp)) with
      | none => rw [hd] at hres; cases hres
      | some date =>
        rw [hd] at hres
        simp only [Option.some.injEq] at hres
        subst hres
        have hd' := (hloop tp date).1 hd
        rw [e, hfl] at hd'
        exact ⟨k0, hk0, hw, hlt, rfl, hd'⟩
  · rintro ⟨k0, hk0, hw, hlt, ht, hd⟩
    have hc := (clampStartDateLoop_eq_some_iff (calculateIncrement w) cfg.holidays fuel
      (cfg.endTime start w).2 ((cfg.endTime start w).2 +
        calculateIncrement w * 1440 * (k0 : Int))).2 ⟨k0, hk0, rfl, hw, hlt⟩
    rw [hc]
    simp only
    have hd' := (hloop ((cfg.endTime start w).2 + calculateIncrement w * 1440 * (k0 : Int))
      r.date).2 (by rw [hfl]; exact hd)
    rw [hd']
    simp only [Option.some.injEq]
    rw [← ht]

/-! ## Working days ahead, and termination of the loops -/

theorem isWorkday_iff (h : Holidays) (date : Date) :
    isWorkday h date = true ↔
      weekday date ≠ Saturday ∧ weekday date ≠ Sunday ∧
      (∀ x ∈ h.nonRecurring, date ≠ x) ∧
      (∀ x ∈ h.recurring, ¬ (x.month = date.month ∧ x.day = date.day)) := by
  simp only [isWorkday, isWeekend, isHoliday, Bool.not_eq_true', Bool.or_eq_false_iff,
    beq_eq_false_iff_ne, ne_eq, List.any_eq_false, beq_iff_eq, Bool.and_eq_true, not_and]
  tauto

theorem countWorkdays_eq_zero (h : Holidays) (z inc : Int) (m : Nat)
    (hno : ∀ j : Nat, 1 ≤ j → j ≤ m →
      isWorkday h (Date.ofSysDays (z + inc * (j : Int))) = false) :
    countWorkdays h z inc m = 0 := by
  induction m with
  | zero => rfl
  | succ m ih =>
    rw [countWorkdays, ih (fun j h1 h2 => hno j h1 (by omega)),
      hno (m + 1) (by omega) (le_refl _)]
    simp

theorem countWorkdays_add (h : Holidays) (z inc : Int) (a b : Nat) :
    countWorkdays h z inc (a + b) =
      countWorkdays h z inc a + countWorkdays h (z + inc * (a : Int)) inc b := by
  induction b with
  | zero => simp [countWorkdays]
  | succ b ih =>
    have e : z + inc * ((a + (b + 1) : Nat) : Int) =
        z + inc * (a : Int) + inc * ((b + 1 : Nat) : Int) := by
      push_cast; ring
    rw [← Nat.add_assoc, countWorkdays, ih, countWorkdays, Nat.add_assoc, Nat.add_assoc a b 1,
      e]

theorem exists_first_workday (h : Holidays) (z inc : Int)
    (hex : ∃ k : Nat, isWorkday h (Date.ofSysDays (z + inc * ((k + 1 : Nat) : Int))) = true) :
    ∃ k : Nat, isWorkday h (Date.ofSysDays (z + inc * ((k + 1 : Nat) : Int))) = true ∧
      (∀ j : Nat, 1 ≤ j → j ≤ k →
        isWorkday h (Date.ofSysDays (z + inc * (j : Int))) = false) ∧
      countWorkdays h z inc (k + 1) = 1 := by
  classical
  have hmin : ∀ j : Nat, 1 ≤ j → j ≤ Nat.find hex →
      isWorkday h (Date.ofSysDays (z + inc * (j : Int))) = false := by
    intro j h1 h2
    cases j with
    | zero => omega
    | succ j =>
      have := Nat.find_min hex (show j < Nat.find hex by omega)
      simpa using this
  refine ⟨Nat.find hex, Nat.find_spec hex, hmin, ?_⟩
  rw [countWorkdays, countWorkdays_eq_zero h z inc _ hmin, Nat.find_spec hex]
  simp

theorem getWorkdayIncrement_mono (cfg : WorkdayCalendar) (fuel fuel' : Nat) (start : DateTime)
    (w : ℚ) (r : DateTime) (hle : fuel ≤ fuel')
    (h : cfg.getWorkdayIncrement fuel start w = some r) :
    cfg.getWorkdayIncrement fuel' start w = some r := by
  rw [getWorkdayIncrement_eq_some_iff] at h ⊢
  obtain ⟨k0, hk0, hw, hlt, ht, hd⟩ := h
  refine ⟨k0, by omega, hw, hlt, ht, ?_⟩
  rcases hd with hd | ⟨hpos, k, hk1, hk, hd⟩
  · exact Or.inl hd
  · exact Or.inr ⟨hpos, k, hk1, by omega, hd⟩

theorem getWorkdayIncrement_unique (cfg : WorkdayCalendar) (fuel fuel' : Nat)
    (start : DateTime) (w : ℚ) (r r' : DateTime)
    (h : cfg.getWorkdayIncrement fuel start w = some r)
    (h' : cfg.getWorkdayIncrement fuel' start w = some r') : r' = r := by
  have h1 := getWorkdayIncrement_mono cfg fuel (max fuel fuel') start w r (le_max_left _ _) h
  have h2 := getWorkdayIncrement_mono cfg fuel' (max fuel fuel') start w r' (le_max_right _ _) h'
  rw [h1] at h2
  exact (Option.some.inj h2).symm

/-! ## Evaluation on concrete increments -/

theorem getWorkdayIncrement_eq_incrementFrom (cfg : WorkdayCalendar) (fuel : Nat)
    (start : DateTime) (w : ℚ) (inc n m : Int) (hinc : calculateIncrement w = inc)
    (hn : truncToInt w = n)
    (hm : ⌊((cfg.stop_.to_duration - cfg.start_.to_duration : Int) : ℚ) * (w - (n : ℚ))⌋ = m) :
    cfg.getWorkdayIncrement fuel start w = cfg.incrementFrom fuel start inc n m := by
  subst hinc hn hm
  rfl

theorem truncToInt_of_nonneg (w : ℚ) (n : Int) (h0 : 0 ≤ w) (h1 : (n : ℚ) ≤ w)
    (h2 : w < (n : ℚ) + 1) : truncToInt w = n := by
  unfold truncToInt
  rw [if_pos h0, Int.floor_eq_iff]
  exact ⟨h1, h2⟩

theorem truncToInt_of_neg (w : ℚ) (n : Int) (h0 : w < 0) (h1 : (n : ℚ) - 1 < w)
    (h2 : w ≤ (n : ℚ)) : truncToInt w = n := by
  unfold truncToInt
  rw [if_neg (not_le.2 h0), Int.ceil_eq_iff]
  exact ⟨h1, h2⟩

theorem truncToInt_intCast (n : Int) : truncToInt (n : ℚ) = n := by
  unfold truncToInt
  split_ifs <;> simp

theorem truncToInt_zero_of_abs_lt_one (w : ℚ) (h : |w| < 1) : truncToInt w = 0 := by
  rw [abs_lt] at h
  by_cases h0 : 0 ≤ w
  · exact truncToInt_of_nonneg w 0 h0 (by simpa using h0) (by simpa using h.2)
  · exact truncToInt_of_neg w 0 (not_le.1 h0) (by simpa using h.1)
      (by simpa using le_of_lt (not_le.1 h0))

theorem fraction_of_intCast (d n : Int) : ⌊(d : ℚ) * ((n : ℚ) - (n : ℚ))⌋ = 0 := by
  simp

/-! ## The time of day and the boundary carry -/

theorem makeTimepoint_eq (start : DateTime) :
    makeTimepoint start = sys_days start.date * 1440 + (start.time.count.natAbs : Int) := by
  unfold makeTimepoint Time.hours Time.minutes
  omega

theorem floor_days_makeTimepoint (start : DateTime) (h : start.time.count.natAbs < 1440) :
    floor_days (makeTimepoint start) = sys_days start.date := by
  rw [makeTimepoint_eq]
  unfold floor_days
  omega

theorem natAbs_lt_of_ok (t : Time) (h : t.ok = true) : t.count.natAbs < 1440 := by
  simp only [Time.ok, Bool.and_eq_true, decide_eq_true_eq] at h
  omega

theorem clampStartTime_mem (ti : WorkdayDurationsInMinutes)
    (h : ti.startWorkday ≤ ti.stopWorkday) :
    ti.startWorkday ≤ clampStartTime ti ∧ clampStartTime ti ≤ ti.stopWorkday := by
  unfold clampStartTime
  simp only [decide_eq_true_eq]
  split_ifs <;> omega

theorem endTime_of_within (cfg : WorkdayCalendar) (start : DateTime) (w : ℚ)
    (hlo : cfg.start_.to_duration ≤
      clampStartTime (calculateTimeDuration start.time w cfg.start_ cfg.stop_) +
        (calculateTimeDuration start.time w cfg.start_ cfg.stop_).increment)
    (hhi : clampStartTime (calculateTimeDuration start.time w cfg.start_ cfg.stop_) +
        (calculateTimeDuration start.time w cfg.start_ cfg.stop_).increment ≤
      cfg.stop_.to_duration) :
    cfg.endTime start w =
      ({ count := clampStartTime (calculateTimeDuration start.time w cfg.start_ cfg.stop_) +
          (calculateTimeDuration start.time w cfg.start_ cfg.stop_).increment },
        makeTimepoint start) := by
  unfold WorkdayCalendar.endTime calculateEndTime
  have h1 : (calculateTimeDuration start.time w cfg.start_ cfg.stop_).startWorkday =
      cfg.start_.to_duration := rfl
  have h2 : (calculateTimeDuration start.time w cfg.start_ cfg.stop_).stopWorkday =
      cfg.stop_.to_duration := rfl
  simp only [h1, h2]
  rw [if_neg (by omega), if_neg (by omega)]

theorem endTime_of_under (cfg : WorkdayCalendar) (start : DateTime) (w : ℚ)
    (hlo : clampStartTime (calculateTimeDuration start.time w cfg.start_ cfg.stop_) +
        (calculateTimeDuration start.time w cfg.start_ cfg.stop_).increment <
      cfg.start_.to_duration) :
    cfg.endTime start w =
      ({ count := cfg.stop_.to_duration - (cfg.start_.to_duration -
          (clampStartTime (calculateTimeDuration start.time w cfg.start_ cfg.stop_) +
            (calculateTimeDuration start.time w cfg.start_ cfg.stop_).increment)) },
        makeTimepoint start - 1440) := by
  unfold WorkdayCalendar.endTime calculateEndTime
  have h1 : (calculateTimeDuration start.time w cfg.start_ cfg.stop_).startWorkday =
      cfg.start_.to_duration := rfl
  have h2 : (calculateTimeDuration start.time w cfg.start_ cfg.stop_).stopWorkday =
      cfg.stop_.to_duration := rfl
  simp only [h1, h2]
  rw [if_pos hlo]
  simp

theorem endTime_of_over (cfg : WorkdayCalendar) (start : DateTime) (w : ℚ)
    (hlo : cfg.start_.to_duration ≤
      clampStartTime (calculateTimeDuration start.time w cfg.start_ cfg.stop_) +
        (calculateTimeDuration start.time w cfg.start_ cfg.stop_).increment)
    (hhi : cfg.stop_.to_duration <
      clampStartTime (calculateTimeDuration start.time w cfg.start_ cfg.stop_) +
        (calculateTimeDuration start.time w cfg.start_ cfg.stop_).increment) :
    cfg.endTime start w =
      ({ count := cfg.start_.to_duration +
          (clampStartTime (calculateTimeDuration start.time w cfg.start_ cfg.stop_) +
            (calculateTimeDuration start.time w cfg.start_ cfg.stop_).increment -
              cfg.stop_.to_duration) },
        makeTimepoint start + 1440) := by
  unfold WorkdayCalendar.endTime calculateEndTime
  have h1 : (calculateTimeDuration start.time w cfg.start_ cfg.stop_).startWorkday =
      cfg.start_.to_duration := rfl
  have h2 : (calculateTimeDuration start.time w cfg.start_ cfg.stop_).stopWorkday =
      cfg.stop_.to_duration := rfl
  simp only [h1, h2]
  rw [if_neg (by omega), if_pos (by omega)]
  simp

theorem increment_of_intCast (t s e : Time) (N : Int) :
    (calculateTimeDuration t (N : ℚ) s e).increment = 0 := by
  unfold calculateTimeDuration
  simp only [truncToInt_intCast]
  simp

theorem increment_of_abs_lt_one (t s e : Time) (w : ℚ) (h : |w| < 1) :
    (calculateTimeDuration t w s e).increment =
      ⌊((e.to_duration - s.to_duration : Int) : ℚ) * w⌋ := by
  unfold calculateTimeDuration
  simp only [truncToInt_zero_of_abs_lt_one w h]
  simp

theorem countWorkdays_eq_card_Ioc (h : Holidays) (z : Int) (k : Nat) :
    countWorkdays h z 1 k =
      ((Finset.Ioc z (z + (k : Int))).filter
        (fun x => isWorkday h (Date.ofSysDays x) = true)).card := by
  induction k with
  | zero => simp [countWorkdays]
  | succ k ih =>
    have e : Finset.Ioc z (z + ((k + 1 : Nat) : Int)) =
        insert (z + ((k + 1 : Nat) : Int)) (Finset.Ioc z (z + (k : Int))) := by
      ext x
      simp only [Finset.mem_Ioc, Finset.mem_insert]
      omega
    have hn : z + ((k + 1 : Nat) : Int) ∉ (Finset.Ioc z (z + (k : Int))).filter
        (fun x => isWorkday h (Date.ofSysDays x) = true) := by
      simp only [Finset.mem_filter, Finset.mem_Ioc]
      omega
    rw [countWorkdays, ih, e, Finset.filter_insert, one_mul]
    split_ifs with hw
    · rw [Finset.card_insert_of_not_mem hn]
    · rfl

theorem countWorkdays_eq_card_Ico (h : Holidays) (z : Int) (k : Nat) :
    countWorkdays h z (-1) k =
      ((Finset.Ico (z - (k : Int)) z).filter
        (fun x => isWorkday h (Date.ofSysDays x) = true)).card := by
  induction k with
  | zero => simp [countWorkdays]
  | succ k ih =>
    have e : Finset.Ico (z - ((k + 1 : Nat) : Int)) z =
        insert (z - ((k + 1 : Nat) : Int)) (Finset.Ico (z - (k : Int)) z) := by
      ext x
      simp only [Finset.mem_Ico, Finset.mem_insert]
      omega
    have hn : z - ((k + 1 : Nat) : Int) ∉ (Finset.Ico (z - (k : Int)) z).filter
        (fun x => isWorkday h (Date.ofSysDays x) = true) := by
      simp only [Finset.mem_filter, Finset.mem_Ico]
      omega
    have e2 : z + -1 * ((k + 1 : Nat) : Int) = z - ((k + 1 : Nat) : Int) := by ring
    rw [countWorkdays, ih, e, Finset.filter_insert, e2]
    split_ifs with hw
    · rw [Finset.card_insert_of_not_mem hn]
    · rfl

/-! ## The claims -/

/-- C1. End-to-end scenario: with the workday window 08:00 to 16:00, a recurring holiday on
17 May and a fixed holiday on 2004-05-27, `getWorkdayIncrement(2004-05-24 18:05, -5.5)`
returns 2004-05-14 12:00: year 2004, month 5, day 14, hour 12, minute 0. -/
theorem C1_kata_scenario :
    ∃ r : DateTime,
      kataCalendar.getWorkdayIncrement 16
        (GregorianCalendar.ofRaw 2004 May 24 18 5).getDateTime (-11 / 2) = some r ∧
      r.date.year = 2004 ∧ r.date.month = 5 ∧ r.date.day = 14 ∧
      r.time.hours = 12 ∧ r.time.minutes = 0 ∧ r.time.to_duration = 12 * 60 := by
  have hw : kataCalendar.stop_.to_duration - kataCalendar.start_.to_duration = 480 := by
    decide
  refine ⟨⟨⟨2004, 5, 14⟩, ⟨720⟩⟩, ?_, by decide⟩
  rw [getWorkdayIncrement_eq_incrementFrom _ _ _ _ (-1) (-5) (-240)
    (calculateIncrement_of_neg _ (by norm_num))
    (truncToInt_of_neg _ _ (by norm_num) (by norm_num) (by norm_num))
    (by rw [hw, Int.floor_eq_iff]; norm_num)]
  decide

theorem getWorkdayIncrement_isWorkday (cfg : WorkdayCalendar) (fuel : Nat) (start : DateTime)
    (w : ℚ) (r : DateTime) (h : cfg.getWorkdayIncrement fuel start w = some r) :
    isWorkday cfg.holidays r.date = true := by
  obtain ⟨k0, -, hw, -, -, hd⟩ := (getWorkdayIncrement_eq_some_iff cfg fuel start w r).1 h
  rcases hd with ⟨-, e⟩ | ⟨-, k, -, -, e, hwk, -⟩
  · rw [e]; exact hw
  · rw [e]; exact hwk

/-- C2. Whenever `getWorkdayIncrement` returns, for any calendar, start and increment, the
returned date is a working day: it is neither a Saturday nor a Sunday, it equals no fixed
holiday, and its month and day match no recurring holiday. -/
theorem C2_result_is_working_day (cfg : WorkdayCalendar) (fuel : Nat) (start : DateTime)
    (w : ℚ) (r : DateTime) (h : cfg.getWorkdayIncrement fuel start w = some r) :
    weekday r.date ≠ Saturday ∧ weekday r.date ≠ Sunday ∧
      (∀ x ∈ cfg.nonRecurringHolidays_, r.date ≠ x) ∧
      (∀ x ∈ cfg.recurringHolidays_, ¬ (x.month = r.date.month ∧ x.day = r.date.day)) :=
  (isWorkday_iff cfg.holidays r.date).1 (getWorkdayIncrement_isWorkday cfg fuel start w r h)

/-- Witness of C2: a start on Saturday 2004-05-15 with a zero increment; the Monday after it
is the recurring holiday 17 May, and the result is Tuesday 2004-05-18. -/
theorem C2_result_is_working_day_witness :
    kataCalendar.getWorkdayIncrement 4 ⟨⟨2004, 5, 15⟩, ⟨600⟩⟩ 0 =
        some ⟨⟨2004, 5, 18⟩, ⟨600⟩⟩ ∧
      (weekday (⟨2004, 5, 18⟩ : Date) ≠ Saturday ∧ weekday (⟨2004, 5, 18⟩ : Date) ≠ Sunday ∧
        (∀ x ∈ kataCalendar.nonRecurringHolidays_, (⟨2004, 5, 18⟩ : Date) ≠ x) ∧
        (∀ x ∈ kataCalendar.recurringHolidays_,
          ¬ (x.month = (⟨2004, 5, 18⟩ : Date).month ∧ x.day = (⟨2004, 5, 18⟩ : Date).day))) := by
  have h : kataCalendar.getWorkdayIncrement 4 ⟨⟨2004, 5, 15⟩, ⟨600⟩⟩ 0 =
      some ⟨⟨2004, 5, 18⟩, ⟨600⟩⟩ := by
    rw [getWorkdayIncrement_eq_incrementFrom _ _ _ _ 1 0 0
      (calculateIncrement_of_nonneg _ (by norm_num))
      (truncToInt_of_nonneg _ _ (by norm_num) (by norm_num) (by norm_num))
      (by simp)]
    decide
  exact ⟨h, C2_result_is_working_day kataCalendar 4 ⟨⟨2004, 5, 15⟩, ⟨600⟩⟩ 0
    ⟨⟨2004, 5, 18⟩, ⟨600⟩⟩ h⟩

theorem endTime_of_intCast (cfg : WorkdayCalendar) (start : DateTime) (N : Int)
    (hwin : cfg.start_.to_duration ≤ cfg.stop_.to_duration) :
    cfg.endTime start (N : ℚ) =
      ({ count := clampStartTime (calculateTimeDuration start.time (N : ℚ) cfg.start_
          cfg.stop_) }, makeTimepoint start) := by
  have hc := clampStartTime_mem (calculateTimeDuration start.time (N : ℚ) cfg.start_ cfg.stop_)
    hwin
  have h0 := increment_of_intCast start.time cfg.start_ cfg.stop_ N
  have h1 : (calculateTimeDuration start.time (N : ℚ) cfg.start_ cfg.stop_).startWorkday =
      cfg.start_.to_duration := rfl
  have h2 : (calculateTimeDuration start.time (N : ℚ) cfg.start_ cfg.stop_).stopWorkday =
      cfg.stop_.to_duration := rfl
  rw [endTime_of_within cfg start (N : ℚ) (by omega) (by omega), h0, add_zero]

theorem isWorkday_ofSysDays_iff (h : Holidays) (z : Int) :
    isWorkday h (Date.ofSysDays z) = true ↔
      weekday_from_days z ≠ Saturday ∧ weekday_from_days z ≠ Sunday ∧
      (∀ x ∈ h.nonRecurring, Date.ofSysDays z ≠ x) ∧
      (∀ x ∈ h.recurring, ¬ (x.month = (Date.ofSysDays z).month ∧
        x.day = (Date.ofSysDays z).day)) := by
  rw [isWorkday_iff, weekday_ofSysDays]

theorem isWorkday_of_no_holidays (cfg : WorkdayCalendar)
    (hn : cfg.nonRecurringHolidays_ = []) (hr : cfg.recurringHolidays_ = []) (z : Int) :
    isWorkday cfg.holidays (Date.ofSysDays z) =
      decide (weekday_from_days z ≠ Saturday ∧ weekday_from_days z ≠ Sunday) := by
  rw [Bool.eq_iff_iff, isWorkday_ofSysDays_iff]
  simp [WorkdayCalendar.holidays, hn, hr]

theorem weekend_skip_exact (cfg : WorkdayCalendar) (start : DateTime)
    (hn : cfg.nonRecurringHolidays_ = []) (hr : cfg.recurringHolidays_ = [])
    (hwin : cfg.start_.to_duration ≤ cfg.stop_.to_duration)
    (htime : start.time.ok = true) (hfri : weekday start.date = Friday) :
    ∃ r : DateTime, cfg.getWorkdayIncrement 3 start 1 = some r ∧
      r.date = Date.ofSysDays (sys_days start.date + 3) ∧
      sys_days r.date = sys_days start.date + 3 ∧ weekday r.date = Monday := by
  have hfl : floor_days (cfg.endTime start 1).2 = sys_days start.date := by
    have e := endTime_of_intCast cfg start 1 hwin
    rw [Int.cast_one] at e
    rw [e]
    exact floor_days_makeTimepoint start (natAbs_lt_of_ok _ htime)
  have hwd : weekday_from_days (sys_days start.date) = 5 := hfri
  have hw : ∀ j : Int, isWorkday cfg.holidays (Date.ofSysDays (sys_days start.date + j)) =
      decide (weekday_from_days (sys_days start.date + j) ≠ Saturday ∧
        weekday_from_days (sys_days start.date + j) ≠ Sunday) :=
    fun j => isWorkday_of_no_holidays cfg hn hr _
  have hres : cfg.getWorkdayIncrement 3 start 1 =
      some ⟨Date.ofSysDays (sys_days start.date + 3), (cfg.endTime start 1).1⟩ := by
    rw [getWorkdayIncrement_eq_some_iff]
    have hi : calculateIncrement 1 = 1 := calculateIncrement_of_nonneg _ (by norm_num)
    have htr : truncToInt 1 = 1 := by
      have := truncToInt_intCast 1
      rwa [Int.cast_one] at this
    refine ⟨0, Nat.zero_le _, ?_, by intro j hj; omega, rfl, Or.inr ?_⟩
    · have := hw 0
      simp only [add_zero] at this
      simp only [hfl, hi, Nat.cast_zero, mul_zero, add_zero, this, Saturday, Sunday,
        decide_eq_true_eq]
      omega
    · rw [htr]
      refine ⟨by decide, 3, by omega, le_refl _, ?_, ?_, ?_⟩
      · simp [hfl, hi]
      · simp only [hfl, hi, Nat.cast_zero, mul_zero, add_zero, one_mul, Nat.cast_ofNat, hw,
          Saturday, Sunday, decide_eq_true_eq]
        unfold weekday_from_days at hwd ⊢
        omega
      · have h1 : weekday_from_days (sys_days start.date + 1) = 6 := by
          unfold weekday_from_days at hwd ⊢; omega
        have h2 : weekday_from_days (sys_days start.date + 2) = 0 := by
          unfold weekday_from_days at hwd ⊢; omega
        have h3 : weekday_from_days (sys_days start.date + 3) = 1 := by
          unfold weekday_from_days at hwd ⊢; omega
        simp [hfl, hi, countWorkdays, hw, h1, h2, h3, Saturday, Sunday]
  refine ⟨_, hres, rfl, sys_days_ofSysDays _, ?_⟩
  rw [weekday_ofSysDays]
  unfold weekday_from_days at hwd ⊢
  unfold Monday
  omega

theorem isHoliday_congr (h1 h2 : Holidays) (hn : h1.nonRecurring = h2.nonRecurring)
    (hr : h1.recurring.map (fun x => (x.month, x.day)) =
      h2.recurring.map (fun x => (x.month, x.day))) (date : Date) :
    isHoliday date h1 = isHoliday date h2 := by
  have e : ∀ l : List Date,
      l.any (fun holiday => holiday.month == date.month && holiday.day == date.day) =
        (l.map (fun x => (x.month, x.day))).any
          (fun p => p.1 == date.month && p.2 == date.day) := by
    intro l
    induction l with
    | nil => rfl
    | cons a l ih => simp only [List.any_cons, List.map_cons, ih]
  unfold isHoliday
  rw [hn, e h1.recurring, e h2.recurring, hr]

theorem clampStartDateLoop_congr (inc : Int) (h1 h2 : Holidays)
    (hh : ∀ date, isHoliday date h1 = isHoliday date h2) (fuel : Nat) :
    ∀ (tp : Int) (cur : Date),
      clampStartDateLoop inc h1 fuel tp cur = clampStartDateLoop inc h2 fuel tp cur := by
  induction fuel with
  | zero => intro tp cur; simp only [clampStartDateLoop, hh]
  | succ fuel ih => intro tp cur; simp only [clampStartDateLoop, hh, ih]

theorem calculateEndDateLoop_congr (inc : Int) (h1 h2 : Holidays)
    (hh : ∀ date, isHoliday date h1 = isHoliday date h2) (fuel : Nat) :
    ∀ (tp n : Int) (cur : Date),
      calculateEndDateLoop inc h1 fuel tp n cur = calculateEndDateLoop inc h2 fuel tp n cur := by
  induction fuel with
  | zero => intro tp n cur; simp only [calculateEndDateLoop]
  | succ fuel ih => intro tp n cur; simp only [calculateEndDateLoop, hh, ih]

theorem getWorkdayIncrement_congr (c1 c2 : WorkdayCalendar) (hs : c1.start_ = c2.start_)
    (he : c1.stop_ = c2.stop_)
    (hh : ∀ date, isHoliday date c1.holidays = isHoliday date c2.holidays) (fuel : Nat)
    (start : DateTime) (w : ℚ) :
    c1.getWorkdayIncrement fuel start w = c2.getWorkdayIncrement fuel start w := by
  unfold WorkdayCalendar.getWorkdayIncrement clampStartDate calculateEndDate
  have e1 := clampStartDateLoop_congr (calculateIncrement w) c1.holidays c2.holidays hh fuel
  have e2 := calculateEndDateLoop_congr (calculateIncrement w) c1.holidays c2.holidays hh fuel
  unfold WorkdayCalendar.holidays at e1 e2
  simp only [hs, he, e1, e2]

theorem clampDate_month_day (y1 y2 : Int) (m d : Nat)
    (h : m ≠ February ∨ d ≤ 28 ∨ is_leap y1 = is_leap y2) :
    (clampDate ⟨y1, m, d⟩ m).month = (clampDate ⟨y2, m, d⟩ m).month ∧
      (clampDate ⟨y1, m, d⟩ m).day = (clampDate ⟨y2, m, d⟩ m).day := by
  by_cases hm : m = February
  · subst hm
    rcases h with h | h | h
    · exact absurd rfl h
    · have e : ∀ y : Int, clampDate ⟨y, February, d⟩ February =
          (if d = 0 then ⟨y, February, 1⟩ else ⟨y, February, d⟩) := by
        intro y
        have hlen : d ≤ getNumberOfDaysInMonth y February := by
          unfold getNumberOfDaysInMonth
          rw [if_pos rfl]
          split_ifs <;> omega
        unfold clampDate
        simp only [not_lt.2 hlen, if_false]
        by_cases hd : d = 0
        · subst hd; simp [day_ok, month_ok, February]
        · have : day_ok d = true := by simp [day_ok]; omega
          simp [this, hd, month_ok, February]
      rw [e y1, e y2]
      split_ifs <;> exact ⟨rfl, rfl⟩
    · have e : getNumberOfDaysInMonth y1 February = getNumberOfDaysInMonth y2 February := by
        unfold getNumberOfDaysInMonth
        rw [h]
      unfold clampDate
      simp only [e]
      split_ifs <;> exact ⟨rfl, rfl⟩
  · have e : getNumberOfDaysInMonth y1 m = getNumberOfDaysInMonth y2 m := by
      unfold getNumberOfDaysInMonth
      rw [if_neg hm, if_neg hm]
    unfold clampDate
    simp only [e]
    split_ifs <;> exact ⟨rfl, rfl⟩

/-- C5 (amended). The year of a recurring holiday is irrelevant, unless it decides how the
constructor clamps the day: for every month `m`, day `d` and years `y1`, `y2` such that `m`
is not February, or `d <= 28`, or `y1` and `y2` are both leap years or both not, a calendar
on which `setRecurringHoliday(GregorianCalendar(y1, m, d, 0, 0))` was called returns the same
`getWorkdayIncrement` result, for every start and every increment, as an otherwise identical
calendar on which `setRecurringHoliday(GregorianCalendar(y2, m, d, 0, 0))` was called. -/
theorem C5_recurring_year_irrelevant (cfg : WorkdayCalendar) (y1 y2 : Int) (m d : Nat)
    (h : m ≠ February ∨ d ≤ 28 ∨ is_leap y1 = is_leap y2) (fuel : Nat) (start : DateTime)
    (w : ℚ) :
    (cfg.setRecurringHoliday (GregorianCalendar.ofRaw y1 m d 0 0)).getWorkdayIncrement fuel
        start w =
      (cfg.setRecurringHoliday (GregorianCalendar.ofRaw y2 m d 0 0)).getWorkdayIncrement fuel
        start w := by
  obtain ⟨e1, e2⟩ := clampDate_month_day y1 y2 m d h
  refine getWorkdayIncrement_congr
    (cfg.setRecurringHoliday (GregorianCalendar.ofRaw y1 m d 0 0))
    (cfg.setRecurringHoliday (GregorianCalendar.ofRaw y2 m d 0 0)) rfl rfl ?_ fuel start w
  refine isHoliday_congr _ _ rfl ?_
  simp only [WorkdayCalendar.holidays, WorkdayCalendar.setRecurringHoliday,
    GregorianCalendar.getDate, GregorianCalendar.ofRaw, GregorianCalendar.ofDateTime,
    List.map_append, List.map_cons, List.map_nil, e1, e2]

/-- Witness of C5 (amended): the two recurring holidays of the tests, 17 May given with the
years 0 and 2025, on the start date 2023-05-16 of the tests. -/
theorem C5_recurring_year_irrelevant_witness :
    (May ≠ February ∨ 17 ≤ 28 ∨ is_leap 0 = is_leap 2025) ∧
      (({} : WorkdayCalendar).setRecurringHoliday
          (GregorianCalendar.ofRaw 0 May 17 0 0)).getWorkdayIncrement 2
          ⟨⟨2023, 5, 16⟩, ⟨0⟩⟩ 1 =
        (({} : WorkdayCalendar).setRecurringHoliday
          (GregorianCalendar.ofRaw 2025 May 17 0 0)).getWorkdayIncrement 2
          ⟨⟨2023, 5, 16⟩, ⟨0⟩⟩ 1 :=
  ⟨by decide, C5_recurring_year_irrelevant {} 0 2025 May 17 (by decide) 2
    ⟨⟨2023, 5, 16⟩, ⟨0⟩⟩ 1⟩

/-- Counterexample to C5 as stated: the recurring holiday 29 February given with the year
2023 is clamped by the constructor to 28 February, and given with the year 2024 it stays
29 February. From Tuesday 2024-02-27, one workday leads to 2024-02-29 on the first calendar
and to 2024-02-28 on the second. -/
theorem C5_counterexample :
    (({} : WorkdayCalendar).setRecurringHoliday
        (GregorianCalendar.ofRaw 2023 February 29 0 0)).getWorkdayIncrement 2
        ⟨⟨2024, 2, 27⟩, ⟨0⟩⟩ 1 = some ⟨⟨2024, 2, 29⟩, ⟨0⟩⟩ ∧
      (({} : WorkdayCalendar).setRecurringHoliday
        (GregorianCalendar.ofRaw 2024 February 29 0 0)).getWorkdayIncrement 2
        ⟨⟨2024, 2, 27⟩, ⟨0⟩⟩ 1 = some ⟨⟨2024, 2, 28⟩, ⟨0⟩⟩ ∧
      (({} : WorkdayCalendar).setRecurringHoliday
        (GregorianCalendar.ofRaw 2023 February 29 0 0)).getWorkdayIncrement 2
        ⟨⟨2024, 2, 27⟩, ⟨0⟩⟩ 1 ≠
      (({} : WorkdayCalendar).setRecurringHoliday
        (GregorianCalendar.ofRaw 2024 February 29 0 0)).getWorkdayIncrement 2
        ⟨⟨2024, 2, 27⟩, ⟨0⟩⟩ 1 := by
  have hi : calculateIncrement 1 = 1 := calculateIncrement_of_nonneg _ (by norm_num)
  have htr : truncToInt 1 = 1 :=
    truncToInt_of_nonneg _ _ (by norm_num) (by norm_num) (by norm_num)
  have e1 : (({} : WorkdayCalendar).setRecurringHoliday
        (GregorianCalendar.ofRaw 2023 February 29 0 0)).getWorkdayIncrement 2
        ⟨⟨2024, 2, 27⟩, ⟨0⟩⟩ 1 = some ⟨⟨2024, 2, 29⟩, ⟨0⟩⟩ := by
    rw [getWorkdayIncrement_eq_incrementFrom _ _ _ _ 1 1 0 hi htr (by simp)]
    decide
  have e2 : (({} : WorkdayCalendar).setRecurringHoliday
        (GregorianCalendar.ofRaw 2024 February 29 0 0)).getWorkdayIncrement 2
        ⟨⟨2024, 2, 27⟩, ⟨0⟩⟩ 1 = some ⟨⟨2024, 2, 28⟩, ⟨0⟩⟩ := by
    rw [getWorkdayIncrement_eq_incrementFrom _ _ _ _ 1 1 0 hi htr (by simp)]
    decide
  refine ⟨e1, e2, ?_⟩
  rw [e1, e2]
  decide

theorem sys_days_eq_linear (y : Int) (m d : Nat) :
    sys_days ⟨y, m, d⟩ =
      365 * (if (m : Int) ≤ 2 then y - 1 else y) + (if (m : Int) ≤ 2 then y - 1 else y) / 4 -
        (if (m : Int) ≤ 2 then y - 1 else y) / 100 +
        (if (m : Int) ≤ 2 then y - 1 else y) / 400 +
        ((153 * (if (m : Int) > 2 then (m : Int) - 3 else (m : Int) + 9) + 2) / 5 + (d : Int) - 1)
        - 719468 := by
  unfold sys_days
  dsimp only
  generalize (if (m : Int) ≤ 2 then y - 1 else y) = y0
  generalize (153 * (if (m : Int) > 2 then (m : Int) - 3 else (m : Int) + 9) + 2) / 5 = dm
  omega

theorem year_days_lt (a b : Int) (h : a < b) :
    365 * a + a / 4 - a / 100 + a / 400 + 364 ≤ 365 * b + b / 4 - b / 100 + b / 400 := by
  have h1 : a / 4 ≤ b / 4 := Int.ediv_le_ediv (by norm_num) (le_of_lt h)
  have h2 : a / 400 ≤ b / 400 := Int.ediv_le_ediv (by norm_num) (le_of_lt h)
  have h3 : b / 100 ≤ a / 100 + (b - a) := by omega
  omega

theorem sys_days_same_month_day (y y' : Int) (m d : Nat) :
    sys_days ⟨y', m, d⟩ ≠ sys_days ⟨y, m, d⟩ + 1 := by
  rw [sys_days_eq_linear, sys_days_eq_linear]
  generalize (153 * (if (m : Int) > 2 then (m : Int) - 3 else (m : Int) + 9) + 2) / 5 = dm
  have key : ∀ a b : Int, 365 * b + b / 4 - b / 100 + b / 400 ≠
      365 * a + a / 4 - a / 100 + a / 400 + 1 := by
    intro a b
    rcases lt_trichotomy a b with h | h | h
    · have := year_days_lt a b h; omega
    · subst h; omega
    · have := year_days_lt b a h; omega
  split_ifs
  · have := key (y - 1) (y' - 1); omega
  · have := key y y'; omega

theorem isHoliday_iff (date : Date) (h : Holidays) :
    isHoliday date h = true ↔
      (∃ x ∈ h.nonRecurring, date.year = x.year ∧ date.month = x.month ∧ date.day = x.day) ∨
      (∃ x ∈ h.recurring, x.month = date.month ∧ x.day = date.day) := by
  have e : ∀ x : Date, date = x ↔
      (date.year = x.year ∧ date.month = x.month ∧ date.day = x.day) := by
    intro x
    cases date; cases x
    simp
  simp only [isHoliday, Bool.or_eq_true, List.any_eq_true, beq_iff_eq, Bool.and_eq_true, e]

theorem getWorkdayIncrement_one (cfg : WorkdayCalendar) (start : DateTime) (fuel k : Nat)
    (hwin : cfg.start_.to_duration ≤ cfg.stop_.to_duration) (htime : start.time.ok = true)
    (hw0 : isWorkday cfg.holidays (Date.ofSysDays (sys_days start.date)) = true)
    (hk1 : 1 ≤ k) (hk : k ≤ fuel)
    (hwk : isWorkday cfg.holidays (Date.ofSysDays (sys_days start.date + (k : Int))) = true)
    (hno : ∀ j : Nat, 1 ≤ j → j < k →
      isWorkday cfg.holidays (Date.ofSysDays (sys_days start.date + (j : Int))) = false) :
    cfg.getWorkdayIncrement fuel start 1 =
      some ⟨Date.ofSysDays (sys_days start.date + (k : Int)), (cfg.endTime start 1).1⟩ := by
  have hfl : floor_days (cfg.endTime start 1).2 = sys_days start.date := by
    have e := endTime_of_intCast cfg start 1 hwin
    rw [Int.cast_one] at e
    rw [e]
    exact floor_days_makeTimepoint start (natAbs_lt_of_ok _ htime)
  have hi : calculateIncrement 1 = 1 := calculateIncrement_of_nonneg _ (by norm_num)
  have htr : truncToInt 1 = 1 := by
    have := truncToInt_intCast 1
    rwa [Int.cast_one] at this
  rw [getWorkdayIncrement_eq_some_iff]
  refine ⟨0, Nat.zero_le _, ?_, by intro j hj; omega, rfl, Or.inr ?_⟩
  · simpa [hfl, hi] using hw0
  · rw [htr]
    refine ⟨by decide, k, hk1, hk, ?_, ?_, ?_⟩
    · simp [hfl, hi]
    · simpa [hfl, hi] using hwk
    · obtain ⟨k', rfl⟩ : ∃ k', k = k' + 1 := ⟨k - 1, by omega⟩
      have hz : countWorkdays cfg.holidays (sys_days start.date) 1 k' = 0 := by
        apply countWorkdays_eq_zero
        intro j h1 h2
        simpa using hno j h1 (by omega)
      simp only [hfl, hi, Nat.cast_zero, mul_zero, add_zero]
      rw [countWorkdays, hz]
      simp only [one_mul, hwk, if_true]
      rfl

theorem fixed_holiday_exact (cfg : WorkdayCalendar) (Y : Int) (m d : Nat)
    (start : DateTime)
    (hfix : cfg.nonRecurringHolidays_ = [⟨Y, m, d⟩]) (hrec : cfg.recurringHolidays_ = [])
    (hwin : cfg.start_.to_duration ≤ cfg.stop_.to_duration) (htime : start.time.ok = true)
    (hs : weekday start.date ≠ Saturday ∧ weekday start.date ≠ Sunday)
    (hn : weekday (Date.ofSysDays (sys_days start.date + 1)) ≠ Saturday ∧
      weekday (Date.ofSysDays (sys_days start.date + 1)) ≠ Sunday)
    (hm : (Date.ofSysDays (sys_days start.date + 1)).month = m)
    (hd : (Date.ofSysDays (sys_days start.date + 1)).day = d) :
    (∀ (h : Holidays) (date : Date), isHoliday date h = true ↔
      (∃ x ∈ h.nonRecurring, date.year = x.year ∧ date.month = x.month ∧ date.day = x.day) ∨
      (∃ x ∈ h.recurring, x.month = date.month ∧ x.day = date.day)) ∧
    ((Date.ofSysDays (sys_days start.date + 1)).year ≠ Y →
      ∃ r : DateTime, cfg.getWorkdayIncrement 1 start 1 = some r ∧
        r.date = Date.ofSysDays (sys_days start.date + 1)) ∧
    ((Date.ofSysDays (sys_days start.date + 1)).year = Y →
      ∃ r : DateTime, cfg.getWorkdayIncrement 4 start 1 = some r ∧
        sys_days start.date + 1 < sys_days r.date ∧
        r.date = Date.ofSysDays (sys_days start.date +
          (if weekday (Date.ofSysDays (sys_days start.date + 1)) = Friday then 4 else 2))) := by
  have hW : ∀ x : Int, isWorkday cfg.holidays (Date.ofSysDays x) = true ↔
      weekday_from_days x ≠ 6 ∧ weekday_from_days x ≠ 0 ∧ Date.ofSysDays x ≠ ⟨Y, m, d⟩ := by
    intro x
    rw [isWorkday_ofSysDays_iff]
    simp [WorkdayCalendar.holidays, hfix, hrec, Saturday, Sunday]
  have hnext : Date.ofSysDays (sys_days start.date + 1) =
      ⟨(Date.ofSysDays (sys_days start.date + 1)).year, m, d⟩ := by
    rw [← hm, ← hd]
  have hs' : weekday_from_days (sys_days start.date) ≠ 6 ∧
      weekday_from_days (sys_days start.date) ≠ 0 := hs
  have hn' : weekday_from_days (sys_days start.date + 1) ≠ 6 ∧
      weekday_from_days (sys_days start.date + 1) ≠ 0 := by
    rw [weekday_ofSysDays] at hn; exact hn
  have hw0 : isWorkday cfg.holidays (Date.ofSysDays (sys_days start.date)) = true := by
    rw [hW]
    refine ⟨hs'.1, hs'.2, ?_⟩
    intro e
    have e1 : sys_days (⟨Y, m, d⟩ : Date) = sys_days start.date := by
      rw [← e, sys_days_ofSysDays]
    have e2 : sys_days (⟨(Date.ofSysDays (sys_days start.date + 1)).year, m, d⟩ : Date) =
        sys_days start.date + 1 := by
      rw [← hnext, sys_days_ofSysDays]
    exact sys_days_same_month_day Y _ m d (by rw [e2, e1])
  refine ⟨fun h date => isHoliday_iff date h, ?_, ?_⟩
  · intro hy
    have hw1 : isWorkday cfg.holidays (Date.ofSysDays (sys_days start.date + ((1 : Nat) : Int)))
        = true := by
      rw [hW]
      refine ⟨hn'.1, hn'.2, ?_⟩
      intro e
      apply hy
      simp only [Nat.cast_one] at e
      rw [e]
    exact ⟨_, getWorkdayIncrement_one cfg start 1 1 hwin htime hw0 (le_refl _) (le_refl _) hw1
      (by intro j h1 h2; omega), rfl⟩
  · intro hy
    have hhol : ∀ x : Int, Date.ofSysDays x = ⟨Y, m, d⟩ ↔ x = sys_days start.date + 1 := by
      intro x
      rw [← hy, ← hnext]
      exact ⟨fun e => ofSysDays_injective _ _ e, fun e => by rw [e]⟩
    have hW' : ∀ x : Int, isWorkday cfg.holidays (Date.ofSysDays x) = true ↔
        weekday_from_days x ≠ 6 ∧ weekday_from_days x ≠ 0 ∧ x ≠ sys_days start.date + 1 := by
      intro x
      rw [hW]
      simp only [ne_eq, hhol]
    have hF : ∀ x : Int, isWorkday cfg.holidays (Date.ofSysDays x) = false ↔
        ¬ (weekday_from_days x ≠ 6 ∧ weekday_from_days x ≠ 0 ∧ x ≠ sys_days start.date + 1) := by
      intro x
      rw [← hW', Bool.not_eq_true]
    rw [weekday_ofSysDays]
    unfold weekday_from_days at hs' hn' hW' hF ⊢
    by_cases hfri : (sys_days start.date + 1 + 4) % 7 = Friday
    · rw [if_pos hfri]
      unfold Friday at hfri
      refine ⟨_, getWorkdayIncrement_one cfg start 4 4 hwin htime hw0 (by omega) (le_refl _)
        ?_ ?_, ?_, rfl⟩
      · rw [hW']; push_cast; omega
      · intro j h1 h2
        rw [hF]
        omega
      · simp only [sys_days_ofSysDays]; omega
    · rw [if_neg hfri]
      unfold Friday at hfri
      refine ⟨_, getWorkdayIncrement_one cfg start 4 2 hwin htime hw0 (by omega) (by omega)
        ?_ ?_, ?_, rfl⟩
      · rw [hW']; push_cast; omega
      · intro j h1 h2
        rw [hF]
        omega
      · simp only [sys_days_ofSysDays]; omega

theorem clampTime_natAbs_lt (t : Time) : (clampTime t).count.natAbs < 1440 := by
  unfold clampTime Time.hours
  dsimp only
  split_ifs with h
  · decide
  · omega

theorem reachable_window_bound (cfg : WorkdayCalendar) (hr : cfg.Reachable) :
    cfg.start_.count.natAbs < 1440 ∧ cfg.stop_.count.natAbs < 1440 := by
  induction hr with
  | init => exact ⟨by decide, by decide⟩
  | setHoliday self dt _ ih => exact ih
  | setRecurringHoliday self dt _ ih => exact ih
  | setWorkdayStartAndStop self dt1 dt2 _ _ =>
    exact ⟨clampTime_natAbs_lt dt1.time, clampTime_natAbs_lt dt2.time⟩

theorem getWorkdayIncrement_eq_of_endTime (cfg : WorkdayCalendar) (s1 s2 : DateTime) (w : ℚ)
    (h1 : (cfg.endTime s1 w).1 = (cfg.endTime s2 w).1)
    (h2 : floor_days (cfg.endTime s1 w).2 = floor_days (cfg.endTime s2 w).2) (fuel : Nat) :
    cfg.getWorkdayIncrement fuel s1 w = cfg.getWorkdayIncrement fuel s2 w := by
  apply Option.ext
  intro r
  simp only [Option.mem_def]
  rw [getWorkdayIncrement_eq_some_iff, getWorkdayIncrement_eq_some_iff, h1, h2]

theorem endTime_same_clamp (cfg : WorkdayCalendar) (d : Date) (t1 t2 : Time) (w : ℚ)
    (h1 : t1.count.natAbs < 1440) (h2 : t2.count.natAbs < 1440)
    (hc : clampStartTime (calculateTimeDuration t1 w cfg.start_ cfg.stop_) =
      clampStartTime (calculateTimeDuration t2 w cfg.start_ cfg.stop_)) :
    (cfg.endTime ⟨d, t1⟩ w).1 = (cfg.endTime ⟨d, t2⟩ w).1 ∧
      floor_days (cfg.endTime ⟨d, t1⟩ w).2 = floor_days (cfg.endTime ⟨d, t2⟩ w).2 := by
  have f1 := floor_days_makeTimepoint ⟨d, t1⟩ h1
  have f2 := floor_days_makeTimepoint ⟨d, t2⟩ h2
  have g1 := floor_days_add (makeTimepoint ⟨d, t1⟩) 1
  have g2 := floor_days_add (makeTimepoint ⟨d, t2⟩) 1
  have k1 := floor_days_add (makeTimepoint ⟨d, t1⟩) (-1)
  have k2 := floor_days_add (makeTimepoint ⟨d, t2⟩) (-1)
  have e : (calculateTimeDuration t1 w cfg.start_ cfg.stop_).increment =
      (calculateTimeDuration t2 w cfg.start_ cfg.stop_).increment := rfl
  have es : (calculateTimeDuration t1 w cfg.start_ cfg.stop_).startWorkday =
      (calculateTimeDuration t2 w cfg.start_ cfg.stop_).startWorkday := rfl
  have ee : (calculateTimeDuration t1 w cfg.start_ cfg.stop_).stopWorkday =
      (calculateTimeDuration t2 w cfg.start_ cfg.stop_).stopWorkday := rfl
  unfold WorkdayCalendar.endTime calculateEndTime
  simp only [hc, e, es, ee]
  split_ifs
  · exact ⟨rfl, by simp only [sub_eq_add_neg, ← neg_mul]; rw [k1, k2, f1, f2]⟩
  · exact ⟨rfl, by rw [g1, g2, f1, f2]⟩
  · exact ⟨rfl, by rw [f1, f2]⟩

/-- C7. A start time outside the working window is indistinguishable from the nearest
window boundary: for every calendar state with `workdayStart <= workdayStop`, every date,
every increment and every valid time of day `t`, if `t < workdayStart` the result is that of
the start time `workdayStart`, and if `t > workdayStop` it is that of the start time
`workdayStop`, in date and time, whatever the bound on the loops. -/
theorem C7_outside_window_start (cfg : WorkdayCalendar) (hr : cfg.Reachable)
    (hwin : cfg.start_.to_duration ≤ cfg.stop_.to_duration) (d : Date) (t : Time)
    (ht : t.ok = true) (w : ℚ) (fuel : Nat) :
    (t.to_duration < cfg.start_.to_duration →
      cfg.getWorkdayIncrement fuel ⟨d, t⟩ w = cfg.getWorkdayIncrement fuel ⟨d, cfg.start_⟩ w) ∧
    (cfg.stop_.to_duration < t.to_duration →
      cfg.getWorkdayIncrement fuel ⟨d, t⟩ w = cfg.getWorkdayIncrement fuel ⟨d, cfg.stop_⟩ w) := by
  obtain ⟨b1, b2⟩ := reachable_window_bound cfg hr
  have ht' := natAbs_lt_of_ok t ht
  unfold Time.to_duration at hwin ⊢
  constructor
  · intro hlt
    obtain ⟨e1, e2⟩ := endTime_same_clamp cfg d t cfg.start_ w ht' b1 (by
      unfold clampStartTime calculateTimeDuration Time.to_duration
      simp only [decide_eq_true_eq]
      split_ifs <;> omega)
    exact getWorkdayIncrement_eq_of_endTime cfg _ _ w e1 e2 fuel
  · intro hlt
    obtain ⟨e1, e2⟩ := endTime_same_clamp cfg d t cfg.stop_ w ht' b2 (by
      unfold clampStartTime calculateTimeDuration Time.to_duration
      simp only [decide_eq_true_eq]
      split_ifs <;> omega)
    exact getWorkdayIncrement_eq_of_endTime cfg _ _ w e1 e2 fuel

theorem kataCalendar_reachable : kataCalendar.Reachable :=
  WorkdayCalendar.Reachable.setHoliday _ ⟨⟨2004, May, 27⟩, ⟨0⟩⟩
    (WorkdayCalendar.Reachable.setRecurringHoliday _ ⟨⟨2004, May, 17⟩, ⟨0⟩⟩
      (WorkdayCalendar.Reachable.setWorkdayStartAndStop _ ⟨⟨2004, January, 1⟩, ⟨480⟩⟩
        ⟨⟨2004, January, 1⟩, ⟨960⟩⟩ WorkdayCalendar.Reachable.init))

/-- Witness of C7: the kata calendar (window 08:00 to 16:00) and the start times of the
tests; 06:00 with +0.5 gives 12:00 as 08:00 does, and the theorem is applied to it. -/
theorem C7_outside_window_start_witness :
    kataCalendar.getWorkdayIncrement 2 ⟨⟨2025, 12, 9⟩, ⟨360⟩⟩ (1 / 2) =
        some ⟨⟨2025, 12, 9⟩, ⟨720⟩⟩ ∧
      (kataCalendar.Reachable ∧
        kataCalendar.start_.to_duration ≤ kataCalendar.stop_.to_duration ∧
        (⟨360⟩ : Time).ok = true) ∧
      (((⟨360⟩ : Time).to_duration < kataCalendar.start_.to_duration →
        kataCalendar.getWorkdayIncrement 2 ⟨⟨2025, 12, 9⟩, ⟨360⟩⟩ (1 / 2) =
          kataCalendar.getWorkdayIncrement 2 ⟨⟨2025, 12, 9⟩, kataCalendar.start_⟩ (1 / 2)) ∧
      (kataCalendar.stop_.to_duration < (⟨360⟩ : Time).to_duration →
        kataCalendar.getWorkdayIncrement 2 ⟨⟨2025, 12, 9⟩, ⟨360⟩⟩ (1 / 2) =
          kataCalendar.getWorkdayIncrement 2 ⟨⟨2025, 12, 9⟩, kataCalendar.stop_⟩ (1 / 2))) := by
  have hw : kataCalendar.stop_.to_duration - kataCalendar.start_.to_duration = 480 := by
    decide
  refine ⟨?_, ⟨kataCalendar_reachable, by decide, by decide⟩,
    C7_outside_window_start kataCalendar kataCalendar_reachable (by decide) ⟨2025, 12, 9⟩
      ⟨360⟩ (by decide) (1 / 2) 2⟩
  rw [getWorkdayIncrement_eq_incrementFrom _ _ _ _ 1 0 240
    (calculateIncrement_of_nonneg _ (by norm_num))
    (truncToInt_of_nonneg _ _ (by norm_num) (by norm_num) (by norm_num))
    (by rw [hw, Int.floor_eq_iff]; norm_num)]
  decide

theorem getWorkdayIncrement_zero_days_iff (cfg : WorkdayCalendar) (fuel : Nat)
    (start : DateTime) (w : ℚ) (hw : |w| < 1) (r : DateTime) :
    cfg.getWorkdayIncrement fuel start w = some r ↔
      ∃ k0 : Nat, k0 ≤ fuel ∧
        isWorkday cfg.holidays (Date.ofSysDays
          (floor_days (cfg.endTime start w).2 + calculateIncrement w * (k0 : Int))) = true ∧
        (∀ j : Nat, j < k0 → isWorkday cfg.holidays (Date.ofSysDays
          (floor_days (cfg.endTime start w).2 + calculateIncrement w * (j : Int))) = false) ∧
        r.time = (cfg.endTime start w).1 ∧
        r.date = Date.ofSysDays
          (floor_days (cfg.endTime start w).2 + calculateIncrement w * (k0 : Int)) := by
  rw [getWorkdayIncrement_eq_some_iff, truncToInt_zero_of_abs_lt_one w hw]
  simp

theorem abs_lt_one_of_neg (w : ℚ) (h0 : -1 < w) (h1 : w < 0) : |w| < 1 := by
  rw [abs_lt]; exact ⟨h0, lt_trans h1 one_pos⟩

theorem abs_lt_one_of_pos (w : ℚ) (h0 : 0 < w) (h1 : w < 1) : |w| < 1 := by
  rw [abs_lt]; exact ⟨lt_trans (by norm_num) h0, h1⟩

/-! ## The clamping constructor of `GregorianCalendar` -/

theorem getNumberOfDaysInMonth_eq (y : Int) (m : Nat) (hm1 : 1 ≤ m) (hm12 : m ≤ 12) :
    getNumberOfDaysInMonth y m = last_day_of_month y m := by
  interval_cases m <;> simp [getNumberOfDaysInMonth, last_day_of_month, February]

theorem last_day_of_month_le (y : Int) (m : Nat) : last_day_of_month y m ≤ 31 := by
  unfold last_day_of_month
  split <;> first | omega | (split_ifs <;> omega)

theorem last_day_of_month_pos (y : Int) (m : Nat) (hm1 : 1 ≤ m) (hm12 : m ≤ 12) :
    1 ≤ last_day_of_month y m := by
  interval_cases m <;> simp only [last_day_of_month] <;> first | omega | (split_ifs <;> omega)

theorem clampDate_of_day_gt (y : Int) (m d : Nat) (hm1 : 1 ≤ m) (hm12 : m ≤ 12)
    (hd : last_day_of_month y m < d) :
    clampDate ⟨y, m, d⟩ m = ⟨y, m, last_day_of_month y m⟩ := by
  have hmo : month_ok m = true := by simp [month_ok, hm1, hm12]
  unfold clampDate
  simp only [getNumberOfDaysInMonth_eq y m hm1 hm12, gt_iff_lt, hd, if_true, hmo,
    Bool.not_true, Bool.false_eq_true, if_false]

theorem clampDate_of_ok (date : Date) (h : date.ok = true) :
    clampDate date date.month = date := by
  simp only [Date.ok, month_ok, Bool.and_eq_true, decide_eq_true_eq] at h
  obtain ⟨⟨⟨hm1, hm12⟩, hd1⟩, hdl⟩ := h
  have hmo : month_ok date.month = true := by simp [month_ok, hm1, hm12]
  have hdo : day_ok date.day = true := by
    have := last_day_of_month_le date.year date.month
    simp [day_ok]; omega
  unfold clampDate
  simp only [getNumberOfDaysInMonth_eq _ _ hm1 hm12, gt_iff_lt, not_lt.2 hdl, if_false, hdo,
    hmo, Bool.not_true, Bool.false_eq_true]

theorem clampTime_of_lt (t : Time) (h : t.count.natAbs < 1440) : clampTime t = t := by
  unfold clampTime Time.hours
  dsimp only
  rw [if_neg]
  omega

theorem clampTime_of_ge (t : Time) (h : 1440 ≤ t.count.natAbs) : clampTime t = ⟨1439⟩ := by
  unfold clampTime Time.hours
  dsimp only
  rw [if_pos]
  · norm_num
  · omega

/-- C14. Day clamp: for every year `y`, every month `m` in 1..12 and every raw day `d`
greater than the number of days of month `m` in year `y` (the Gregorian month length, leap
years accounted for), `GregorianCalendar(y, m, d, hh, mm).getDate()` is `(y, m, last day of
that month)`. -/
theorem C14_day_clamp (y : Int) (m d hh mm : Nat) (hm1 : 1 ≤ m) (hm12 : m ≤ 12)
    (hd : last_day_of_month y m < d) :
    (GregorianCalendar.ofRaw y m d hh mm).getDate = ⟨y, m, last_day_of_month y m⟩ :=
  clampDate_of_day_gt y m d hm1 hm12 hd

/-- Witness of C14: the dates of the tests; 2025-02-29 gives 2025-02-28, and day 31 in
April, June, September and November 2025 gives day 30. The theorem is applied to the
first. -/
theorem C14_day_clamp_witness :
    (GregorianCalendar.ofRaw 2025 4 31 0 0).getDate = ⟨2025, 4, 30⟩ ∧
      (GregorianCalendar.ofRaw 2025 6 31 0 0).getDate = ⟨2025, 6, 30⟩ ∧
      (GregorianCalendar.ofRaw 2025 9 31 0 0).getDate = ⟨2025, 9, 30⟩ ∧
      (GregorianCalendar.ofRaw 2025 11 31 0 0).getDate = ⟨2025, 11, 30⟩ ∧
      last_day_of_month 2025 2 = 28 ∧
      (1 ≤ 2 ∧ 2 ≤ 12 ∧ last_day_of_month 2025 2 < 29) ∧
      (GregorianCalendar.ofRaw 2025 2 29 0 0).getDate = ⟨2025, 2, last_day_of_month 2025 2⟩ :=
  ⟨by decide, by decide, by decide, by decide, by decide, ⟨by decide, by decide, by decide⟩,
    C14_day_clamp 2025 2 29 0 0 (by decide) (by decide) (by decide)⟩

/-- C15. Hour clamp: for every raw hour `hh` of at least 24 and every raw minute `mm`,
`GregorianCalendar(y, m, d, hh, mm).getTime()` is 23:59, regardless of `mm`. -/
theorem C15_hour_clamp (y : Int) (m d hh mm : Nat) (h24 : 24 ≤ hh) :
    (GregorianCalendar.ofRaw y m d hh mm).getTime.to_duration = 23 * 60 + 59 ∧
      (GregorianCalendar.ofRaw y m d hh mm).getTime.hours = 23 ∧
      (GregorianCalendar.ofRaw y m d hh mm).getTime.minutes = 59 := by
  have e : (GregorianCalendar.ofRaw y m d hh mm).getTime = ⟨1439⟩ := by
    unfold GregorianCalendar.ofRaw GregorianCalendar.ofDateTime GregorianCalendar.getTime
    exact clampTime_of_ge _ (by simp only []; omega)
  rw [e]
  exact ⟨by decide, by decide, by decide⟩

/-- Witness of C15: hour 24, minute 0 of the test gives 23:59. -/
theorem C15_hour_clamp_witness :
    24 ≤ 24 ∧
      (GregorianCalendar.ofRaw 0 0 0 24 0).getTime.to_duration = 23 * 60 + 59 ∧
      (GregorianCalendar.ofRaw 0 0 0 24 0).getTime.hours = 23 ∧
      (GregorianCalendar.ofRaw 0 0 0 24 0).getTime.minutes = 59 :=
  ⟨by decide, C15_hour_clamp 0 0 0 24 0 (by decide)⟩

/-- C16 fails on the code: the raw hour 10 is valid and the raw minute 250 exceeds 59, but
`clamp` only compares the hour with 23; the constructor has added the minutes to the hours
and `getTime()` is 14:10, not 10:59. With hour 0 it is 04:10. The input of the test, hour 23
and minute 250, gives 23:59 because the sum passes 24:00. -/
theorem C16_minute_not_clamped :
    (GregorianCalendar.ofRaw 2025 12 10 10 250).getTime.hours = 14 ∧
      (GregorianCalendar.ofRaw 2025 12 10 10 250).getTime.minutes = 10 ∧
      ¬ ((GregorianCalendar.ofRaw 2025 12 10 10 250).getTime.hours = 10 ∧
        (GregorianCalendar.ofRaw 2025 12 10 10 250).getTime.minutes = 59) ∧
      (GregorianCalendar.ofRaw 0 0 0 0 250).getTime.hours = 4 ∧
      (GregorianCalendar.ofRaw 0 0 0 0 250).getTime.minutes = 10 ∧
      (GregorianCalendar.ofRaw 0 0 0 23 250).getTime.hours = 23 ∧
      (GregorianCalendar.ofRaw 0 0 0 23 250).getTime.minutes = 59 := by
  decide

/-- What the constructor does with a raw minute above 59 and a raw hour in 0..23: it adds
the minutes to the hours; when the sum reaches 24:00, as it always does for hour 23,
`getTime()` is 23:59, and otherwise it is the sum, with hour `hh + mm / 60` and minute
`mm % 60`. -/
theorem ofRaw_minute_overflow (y : Int) (m d hh mm : Nat) (hh23 : hh ≤ 23) (hmm : 60 ≤ mm) :
    (1440 ≤ hh * 60 + mm →
      (GregorianCalendar.ofRaw y m d hh mm).getTime.hours = 23 ∧
      (GregorianCalendar.ofRaw y m d hh mm).getTime.minutes = 59) ∧
    (hh * 60 + mm < 1440 →
      (GregorianCalendar.ofRaw y m d hh mm).getTime.hours = ((hh + mm / 60 : Nat) : Int) ∧
      (GregorianCalendar.ofRaw y m d hh mm).getTime.minutes = ((mm % 60 : Nat) : Int)) ∧
    (hh = 23 → (GregorianCalendar.ofRaw y m d hh mm).getTime.hours = 23 ∧
      (GregorianCalendar.ofRaw y m d hh mm).getTime.minutes = 59) := by
  have hge : 1440 ≤ hh * 60 + mm →
      (GregorianCalendar.ofRaw y m d hh mm).getTime.hours = 23 ∧
      (GregorianCalendar.ofRaw y m d hh mm).getTime.minutes = 59 := by
    intro h
    have e : (GregorianCalendar.ofRaw y m d hh mm).getTime = ⟨1439⟩ := by
      unfold GregorianCalendar.ofRaw GregorianCalendar.ofDateTime GregorianCalendar.getTime
      exact clampTime_of_ge _ (by simp only []; omega)
    rw [e]
    exact ⟨by decide, by decide⟩
  refine ⟨hge, ?_, fun h => hge (by omega)⟩
  intro h
  have e : (GregorianCalendar.ofRaw y m d hh mm).getTime = ⟨(hh : Int) * 60 + mm⟩ := by
    unfold GregorianCalendar.ofRaw GregorianCalendar.ofDateTime GregorianCalendar.getTime
    exact clampTime_of_lt _ (by simp only []; omega)
  rw [e]
  unfold Time.hours Time.minutes
  have : ((hh : Int) * 60 + mm).natAbs = hh * 60 + mm := by omega
  simp only [this]
  constructor
  · congr 1; omega
  · congr 1; omega

/-- C17 fails on the code: for the raw input year 2025, month value 255, day 255 the length
computed for the invalid month is 254, the day is clamped to 254, and the month is then
replaced by January without the day being clamped again. `getDate()` is 2025-01-254, which
is not a calendar-valid date. -/
theorem C17_invalid_date_constructed :
    (GregorianCalendar.ofRaw 2025 255 255 0 0).getDate = ⟨2025, 1, 254⟩ ∧
      (GregorianCalendar.ofRaw 2025 255 255 0 0).getDate.ok = false ∧
      ¬ ((GregorianCalendar.ofRaw 2025 255 255 0 0).getDate.day ≤
        last_day_of_month (GregorianCalendar.ofRaw 2025 255 255 0 0).getDate.year
          (GregorianCalendar.ofRaw 2025 255 255 0 0).getDate.month) ∧
      (GregorianCalendar.ofRaw 0 0 0 0 0).getDate = ⟨0, 1, 1⟩ := by
  decide

/-- C18. Construction is the identity on valid values: for every calendar-valid date and
every time of day with hour 0..23 and minute 0..59, each of the three constructors of
`GregorianCalendar` returns from `getDateTime()` the same year, month, day, hour and
minute. -/
theorem C18_valid_identity (date : Date) (hh mm : Nat) (hd : date.ok = true) (hh23 : hh ≤ 23)
    (hmm : mm ≤ 59) :
    (GregorianCalendar.ofDateTime ⟨date, ⟨(hh : Int) * 60 + mm⟩⟩).getDateTime =
        ⟨date, ⟨(hh : Int) * 60 + mm⟩⟩ ∧
      (GregorianCalendar.ofRaw date.year date.month date.day hh mm).getDateTime =
        ⟨date, ⟨(hh : Int) * 60 + mm⟩⟩ ∧
      (GregorianCalendar.ofChrono date.year date.month date.day hh mm).getDateTime =
        ⟨date, ⟨(hh : Int) * 60 + mm⟩⟩ ∧
      (⟨(hh : Int) * 60 + mm⟩ : Time).hours = hh ∧
      (⟨(hh : Int) * 60 + mm⟩ : Time).minutes = mm := by
  have e : GregorianCalendar.ofDateTime ⟨date, ⟨(hh : Int) * 60 + mm⟩⟩ =
      ⟨date, ⟨(hh : Int) * 60 + mm⟩⟩ := by
    unfold GregorianCalendar.ofDateTime
    rw [clampDate_of_ok date hd, clampTime_of_lt _ (by simp only []; omega)]
  have hn : ((hh : Int) * 60 + mm).natAbs = hh * 60 + mm := by omega
  refine ⟨by rw [e]; rfl, ?_, ?_, ?_, ?_⟩
  · unfold GregorianCalendar.ofRaw; rw [e]; rfl
  · unfold GregorianCalendar.ofChrono; rw [e]; rfl
  · unfold Time.hours; simp only [hn]; congr 1; omega
  · unfold Time.minutes; simp only [hn]; congr 1; omega

/-- Witness of C18: the two values of the tests, 2025-12-10 09:30 and 2021-03-29 03:33; the
theorem is applied to the first. -/
theorem C18_valid_identity_witness :
    (GregorianCalendar.ofChrono 2021 3 29 3 33).getDateTime = ⟨⟨2021, 3, 29⟩, ⟨213⟩⟩ ∧
      ((⟨2025, 12, 10⟩ : Date).ok = true ∧ 9 ≤ 23 ∧ 30 ≤ 59) ∧
      ((GregorianCalendar.ofDateTime
          ⟨⟨2025, 12, 10⟩, ⟨((9 : Nat) : Int) * 60 + (30 : Nat)⟩⟩).getDateTime =
        ⟨⟨2025, 12, 10⟩, ⟨((9 : Nat) : Int) * 60 + (30 : Nat)⟩⟩ ∧
      (GregorianCalendar.ofRaw (⟨2025, 12, 10⟩ : Date).year (⟨2025, 12, 10⟩ : Date).month
          (⟨2025, 12, 10⟩ : Date).day 9 30).getDateTime =
        ⟨⟨2025, 12, 10⟩, ⟨((9 : Nat) : Int) * 60 + (30 : Nat)⟩⟩ ∧
      (GregorianCalendar.ofChrono (⟨2025, 12, 10⟩ : Date).year (⟨2025, 12, 10⟩ : Date).month
          (⟨2025, 12, 10⟩ : Date).day (9 : Nat) (30 : Nat)).getDateTime =
        ⟨⟨2025, 12, 10⟩, ⟨((9 : Nat) : Int) * 60 + (30 : Nat)⟩⟩ ∧
      (⟨((9 : Nat) : Int) * 60 + (30 : Nat)⟩ : Time).hours = (9 : Nat) ∧
      (⟨((9 : Nat) : Int) * 60 + (30 : Nat)⟩ : Time).minutes = (30 : Nat)) :=
  ⟨by decide, ⟨by decide, by decide, by decide⟩,
    C18_valid_identity ⟨2025, 12, 10⟩ 9 30 (by decide) (by decide) (by decide)⟩

/-- C19. Time-of-day range invariant: for every raw hour `hh` and raw minute `mm`, the time
returned by `GregorianCalendar(y, m, d, hh, mm).getTime()` is not negative and has its hour
in 0..23 and its minute in 0..59. -/
theorem C19_time_range (y : Int) (m d hh mm : Nat) :
    0 ≤ (GregorianCalendar.ofRaw y m d hh mm).getTime.to_duration ∧
      0 ≤ (GregorianCalendar.ofRaw y m d hh mm).getTime.hours ∧
      (GregorianCalendar.ofRaw y m d hh mm).getTime.hours ≤ 23 ∧
      0 ≤ (GregorianCalendar.ofRaw y m d hh mm).getTime.minutes ∧
      (GregorianCalendar.ofRaw y m d hh mm).getTime.minutes ≤ 59 := by
  have hb := clampTime_natAbs_lt ⟨(hh : Int) * 60 + mm⟩
  have h0 : 0 ≤ (clampTime ⟨(hh : Int) * 60 + mm⟩).count := by
    unfold clampTime
    dsimp only
    split_ifs
    · norm_num
    · simp only []; omega
  unfold GregorianCalendar.ofRaw GregorianCalendar.ofDateTime GregorianCalendar.getTime
  unfold Time.to_duration Time.hours Time.minutes
  simp only []
  omega

/-! ## The minute offset of the fractional part -/

theorem truncToInt_fract_bounds (w : ℚ) :
    (0 ≤ w → 0 ≤ w - (truncToInt w : ℚ) ∧ w - (truncToInt w : ℚ) < 1) ∧
    (w < 0 → -1 < w - (truncToInt w : ℚ) ∧ w - (truncToInt w : ℚ) ≤ 0) := by
  constructor
  · intro h
    unfold truncToInt
    rw [if_pos h]
    exact ⟨sub_nonneg.2 (Int.floor_le w), by linarith [Int.lt_floor_add_one w]⟩
  · intro h
    unfold truncToInt
    rw [if_neg (not_le.2 h)]
    exact ⟨by linarith [Int.ceil_lt_add_one w], by linarith [Int.le_ceil w]⟩

theorem increment_bounds (t s e : Time) (w : ℚ) (hD : s.to_duration ≤ e.to_duration) :
    -(e.to_duration - s.to_duration) ≤ (calculateTimeDuration t w s e).increment ∧
      ((calculateTimeDuration t w s e).increment ≤ 0 ∨
        (calculateTimeDuration t w s e).increment ≤ e.to_duration - s.to_duration - 1) := by
  have hdef : (calculateTimeDuration t w s e).increment =
      ⌊((e.to_duration - s.to_duration : Int) : ℚ) * (w - (truncToInt w : ℚ))⌋ := rfl
  have hb := truncToInt_fract_bounds w
  have hfr : -1 < w - (truncToInt w : ℚ) ∧ w - (truncToInt w : ℚ) < 1 := by
    by_cases h : 0 ≤ w
    · have := hb.1 h; constructor <;> linarith
    · have := hb.2 (not_le.1 h); constructor <;> linarith
  rw [hdef]
  generalize w - (truncToInt w : ℚ) = fr at hfr
  have hDi : 0 ≤ e.to_duration - s.to_duration := sub_nonneg.2 hD
  generalize e.to_duration - s.to_duration = Di at hDi
  have hDq : (0 : ℚ) ≤ (Di : ℚ) := by exact_mod_cast hDi
  constructor
  · rw [Int.le_floor]
    push_cast
    nlinarith [hfr.1]
  · rcases eq_or_lt_of_le hDi with h0 | hpos
    · left
      rw [← h0]
      simp
    · right
      have : ⌊(Di : ℚ) * fr⌋ < Di := by
        rw [Int.floor_lt]
        have hq : (0 : ℚ) < (Di : ℚ) := by exact_mod_cast hpos
        nlinarith [hfr.2]
      omega

theorem endTime_fst_mem (cfg : WorkdayCalendar) (start : DateTime) (w : ℚ)
    (hwin : cfg.start_.to_duration ≤ cfg.stop_.to_duration) :
    cfg.start_.to_duration ≤ (cfg.endTime start w).1.to_duration ∧
      (cfg.endTime start w).1.to_duration ≤ cfg.stop_.to_duration := by
  have hc := clampStartTime_mem (calculateTimeDuration start.time w cfg.start_ cfg.stop_) hwin
  have hb := increment_bounds start.time cfg.start_ cfg.stop_ w hwin
  have h1 : (calculateTimeDuration start.time w cfg.start_ cfg.stop_).startWorkday =
      cfg.start_.to_duration := rfl
  have h2 : (calculateTimeDuration start.time w cfg.start_ cfg.stop_).stopWorkday =
      cfg.stop_.to_duration := rfl
  rw [h1, h2] at hc
  unfold WorkdayCalendar.endTime calculateEndTime
  simp only [h1, h2]
  unfold Time.to_duration at *
  split_ifs <;> simp only [] <;> omega

theorem countWorkdays_reverse (h : Holidays) (z inc : Int) (k : Nat) :
    countWorkdays h (z + inc * (k : Int)) (-inc) k +
        (if isWorkday h (Date.ofSysDays (z + inc * (k : Int))) then 1 else 0) =
      countWorkdays h z inc k + (if isWorkday h (Date.ofSysDays z) then 1 else 0) := by
  induction k with
  | zero => simp [countWorkdays]
  | succ k ih =>
    have e1 : z + inc * ((k + 1 : Nat) : Int) + -inc = z + inc * (k : Int) := by
      push_cast; ring
    rw [countWorkdays_shift, e1, countWorkdays]
    omega

theorem clampStartTime_of_mem (t s e : Time) (w : ℚ) (h1 : s.to_duration ≤ t.to_duration)
    (h2 : t.to_duration ≤ e.to_duration) :
    clampStartTime (calculateTimeDuration t w s e) = t.to_duration := by
  unfold clampStartTime calculateTimeDuration
  simp only [decide_eq_true_eq]
  rw [if_neg (by omega), if_neg (by omega)]

theorem endTime_of_intCast_mem (cfg : WorkdayCalendar) (start : DateTime) (N : Int)
    (h1 : cfg.start_.to_duration ≤ start.time.to_duration)
    (h2 : start.time.to_duration ≤ cfg.stop_.to_duration) :
    cfg.endTime start (N : ℚ) = (start.time, makeTimepoint start) := by
  rw [endTime_of_intCast cfg start N (le_trans h1 h2),
    clampStartTime_of_mem start.time cfg.start_ cfg.stop_ (N : ℚ) h1 h2]
  rfl

theorem roundtrip_zero (cfg : WorkdayCalendar) (start : DateTime)
    (hdate : start.date.ok = true) (htime : start.time.ok = true)
    (hwork : isWorkday cfg.holidays start.date = true)
    (h1 : cfg.start_.to_duration ≤ start.time.to_duration)
    (h2 : start.time.to_duration ≤ cfg.stop_.to_duration) :
    cfg.getWorkdayIncrement 0 start ((0 : Int) : ℚ) = some start := by
  have hof : Date.ofSysDays (sys_days start.date) = start.date :=
    ofSysDays_sys_days _ hdate
  have hw0 : isWorkday cfg.holidays (Date.ofSysDays (sys_days start.date)) = true := by
    rw [hof]; exact hwork
  have hfl : floor_days (cfg.endTime start ((0 : Int) : ℚ)).2 = sys_days start.date := by
    rw [endTime_of_intCast_mem cfg start 0 h1 h2]
    exact floor_days_makeTimepoint start (natAbs_lt_of_ok _ htime)
  have het1 : (cfg.endTime start ((0 : Int) : ℚ)).1 = start.time := by
    rw [endTime_of_intCast_mem cfg start 0 h1 h2]
  rw [getWorkdayIncrement_eq_some_iff]
  refine ⟨0, le_refl _, ?_, by intro j hj; omega, het1.symm, Or.inl ⟨?_, ?_⟩⟩
  · simp only [hfl, Nat.cast_zero, mul_zero, add_zero]
    exact hw0
  · rw [truncToInt_intCast]; rfl
  · simp only [hfl, Nat.cast_zero, mul_zero, add_zero, hof]

theorem roundtrip_steps (cfg : WorkdayCalendar) (start : DateTime) (N : Int)
    (hdate : start.date.ok = true) (htime : start.time.ok = true)
    (hwork : isWorkday cfg.holidays start.date = true)
    (h1 : cfg.start_.to_duration ≤ start.time.to_duration)
    (h2 : start.time.to_duration ≤ cfg.stop_.to_duration) (hN : N ≠ 0) (k : Nat)
    (hk1 : 1 ≤ k)
    (hwk : isWorkday cfg.holidays (Date.ofSysDays
      (sys_days start.date + calculateIncrement (N : ℚ) * (k : Int))) = true)
    (hcnt : countWorkdays cfg.holidays (sys_days start.date) (calculateIncrement (N : ℚ)) k =
      N.natAbs) :
    cfg.getWorkdayIncrement k start (N : ℚ) =
        some ⟨Date.ofSysDays (sys_days start.date + calculateIncrement (N : ℚ) * (k : Int)),
          start.time⟩ ∧
      cfg.getWorkdayIncrement k
        ⟨Date.ofSysDays (sys_days start.date + calculateIncrement (N : ℚ) * (k : Int)),
          start.time⟩ ((-N : Int) : ℚ) = some start := by
  have hof : Date.ofSysDays (sys_days start.date) = start.date :=
    ofSysDays_sys_days _ hdate
  have hw0 : isWorkday cfg.holidays (Date.ofSysDays (sys_days start.date)) = true := by
    rw [hof]; exact hwork
  have hfl : floor_days (cfg.endTime start (N : ℚ)).2 = sys_days start.date := by
    rw [endTime_of_intCast_mem cfg start N h1 h2]
    exact floor_days_makeTimepoint start (natAbs_lt_of_ok _ htime)
  have het1 : (cfg.endTime start (N : ℚ)).1 = start.time := by
    rw [endTime_of_intCast_mem cfg start N h1 h2]
  have hpos : 0 < N.natAbs := by omega
  have hi' : calculateIncrement ((-N : Int) : ℚ) = -calculateIncrement (N : ℚ) := by
    rcases lt_or_gt_of_ne hN with hlt | hgt
    · rw [calculateIncrement_of_neg (N : ℚ) (by exact_mod_cast hlt),
        calculateIncrement_of_nonneg _ (by exact_mod_cast (show (0 : Int) ≤ -N by omega))]
      norm_num
    · rw [calculateIncrement_of_nonneg (N : ℚ) (by exact_mod_cast le_of_lt hgt),
        calculateIncrement_of_neg _ (by exact_mod_cast (show -N < (0 : Int) by omega))]
  constructor
  · rw [getWorkdayIncrement_eq_some_iff]
    refine ⟨0, Nat.zero_le _, ?_, by intro j hj; omega, het1.symm, Or.inr ?_⟩
    · simp only [hfl, Nat.cast_zero, mul_zero, add_zero]
      exact hw0
    · rw [truncToInt_intCast]
      refine ⟨hpos, k, hk1, le_refl _, ?_, ?_, ?_⟩
      · simp only [hfl, Nat.cast_zero, mul_zero, add_zero]
      · simp only [hfl, Nat.cast_zero, mul_zero, add_zero]
        exact hwk
      · simp only [hfl, Nat.cast_zero, mul_zero, add_zero]
        exact hcnt
  · have hfl2 : floor_days (cfg.endTime
        ⟨Date.ofSysDays (sys_days start.date + calculateIncrement (N : ℚ) * (k : Int)),
          start.time⟩ ((-N : Int) : ℚ)).2 =
        sys_days start.date + calculateIncrement (N : ℚ) * (k : Int) := by
      rw [endTime_of_intCast_mem cfg
        ⟨Date.ofSysDays (sys_days start.date + calculateIncrement (N : ℚ) * (k : Int)),
          start.time⟩ (-N) h1 h2]
      have := floor_days_makeTimepoint
        ⟨Date.ofSysDays (sys_days start.date + calculateIncrement (N : ℚ) * (k : Int)),
          start.time⟩ (natAbs_lt_of_ok _ htime)
      rw [sys_days_ofSysDays] at this
      exact this
    have het2 : (cfg.endTime
        ⟨Date.ofSysDays (sys_days start.date + calculateIncrement (N : ℚ) * (k : Int)),
          start.time⟩ ((-N : Int) : ℚ)).1 = start.time := by
      rw [endTime_of_intCast_mem cfg
        ⟨Date.ofSysDays (sys_days start.date + calculateIncrement (N : ℚ) * (k : Int)),
          start.time⟩ (-N) h1 h2]
    have hback : sys_days start.date + calculateIncrement (N : ℚ) * (k : Int) +
        -calculateIncrement (N : ℚ) * (k : Int) = sys_days start.date := by ring
    have hrev := countWorkdays_reverse cfg.holidays (sys_days start.date)
      (calculateIncrement (N : ℚ)) k
    rw [hwk, hw0, hcnt] at hrev
    rw [getWorkdayIncrement_eq_some_iff]
    refine ⟨0, Nat.zero_le _, ?_, by intro j hj; omega, het2.symm, Or.inr ?_⟩
    · simp only [hfl2, Nat.cast_zero, mul_zero, add_zero]
      exact hwk
    · rw [truncToInt_intCast, hi', hfl2]
      refine ⟨by omega, k, hk1, le_refl _, ?_, ?_, ?_⟩
      · simp only [Nat.cast_zero, mul_zero, add_zero, hback, hof]
      · simp only [Nat.cast_zero, mul_zero, add_zero, hback]
        exact hw0
      · simp only [Nat.cast_zero, mul_zero, add_zero]
        have : (-N).natAbs = N.natAbs := by omega
        rw [this]
        simpa using hrev

/-! ## Totality of `getWorkdayIncrement` -/

theorem ofSysDays_month_day_range (z : Int) :
    1 ≤ (Date.ofSysDays z).month ∧ (Date.ofSysDays z).month ≤ 12 ∧
      1 ≤ (Date.ofSysDays z).day ∧
      (Date.ofSysDays z).day ≤ last_day_of_month 2024 (Date.ofSysDays z).month := by
  obtain ⟨f, q, t, u, ha, hf0, hf1, hq0, hq1, ht0, ht1, hu0, hu⟩ :=
    doe_split (z + 719468 - (z + 719468) / 146097 * 146097) (by omega) (by omega)
  rw [ofSysDays_eq_parts z ((z + 719468) / 146097) f q t u (by omega) hf0 hf1 hq0 hq1 ht0 ht1
    hu0 hu]
  have hu1 : u ≤ 365 := by omega
  have hmp : 0 ≤ (5 * u + 2) / 153 ∧ (5 * u + 2) / 153 ≤ 11 := by omega
  unfold civilOfParts
  dsimp only
  obtain ⟨mp, hmpdef⟩ : ∃ mp, (5 * u + 2) / 153 = mp := ⟨_, rfl⟩
  rw [hmpdef] at hmp ⊢
  obtain ⟨hmp0, hmp1⟩ := hmp
  have e1 : Int.toNat 1 = 1 := rfl
  have e2 : Int.toNat 2 = 2 := rfl
  have e3 : Int.toNat 3 = 3 := rfl
  have e4 : Int.toNat 4 = 4 := rfl
  have e5 : Int.toNat 5 = 5 := rfl
  have e6 : Int.toNat 6 = 6 := rfl
  have e7 : Int.toNat 7 = 7 := rfl
  have e8 : Int.toNat 8 = 8 := rfl
  have e9 : Int.toNat 9 = 9 := rfl
  have e10 : Int.toNat 10 = 10 := rfl
  have e11 : Int.toNat 11 = 11 := rfl
  have e12 : Int.toNat 12 = 12 := rfl
  interval_cases mp <;>
    norm_num [last_day_of_month, is_leap, e1, e2, e3, e4, e5, e6, e7, e8, e9, e10, e11, e12] <;>
    omega

theorem endTime_zero (cfg : WorkdayCalendar) (start : DateTime)
    (hwin : cfg.start_.to_duration ≤ cfg.stop_.to_duration) :
    cfg.endTime start 0 =
      ({ count := clampStartTime (calculateTimeDuration start.time 0 cfg.start_ cfg.stop_) },
        makeTimepoint start) := by
  have e := endTime_of_intCast cfg start 0 hwin
  rw [Int.cast_zero] at e
  exact e

theorem zero_increment_exact (cfg : WorkdayCalendar) (start : DateTime)
    (hwin : cfg.start_.to_duration ≤ cfg.stop_.to_duration)
    (hdate : start.date.ok = true) (htime : start.time.ok = true) :
    (isWorkday cfg.holidays start.date = true →
      cfg.start_.to_duration ≤ start.time.to_duration →
      start.time.to_duration ≤ cfg.stop_.to_duration →
      ∀ fuel : Nat, cfg.getWorkdayIncrement fuel start 0 = some start) ∧
    (∀ fuel : Nat, cfg.getWorkdayIncrement fuel start 0 = some start →
      isWorkday cfg.holidays start.date = true ∧
      cfg.start_.to_duration ≤ start.time.to_duration ∧
      start.time.to_duration ≤ cfg.stop_.to_duration) ∧
    (isWorkday cfg.holidays start.date = false →
      (∀ (fuel : Nat) (r : DateTime), cfg.getWorkdayIncrement fuel start 0 = some r →
        sys_days start.date < sys_days r.date ∧
        isWorkday cfg.holidays r.date = true ∧
        ∀ z : Int, sys_days start.date < z → z < sys_days r.date →
          isWorkday cfg.holidays (Date.ofSysDays z) = false) ∧
      ((∃ z : Int, sys_days start.date < z ∧
          isWorkday cfg.holidays (Date.ofSysDays z) = true) →
        ∃ (fuel : Nat) (r : DateTime), cfg.getWorkdayIncrement fuel start 0 = some r)) := by
  have hof : Date.ofSysDays (sys_days start.date) = start.date := ofSysDays_sys_days _ hdate
  have het := endTime_zero cfg start hwin
  have hfl : floor_days (cfg.endTime start 0).2 = sys_days start.date := by
    rw [het]
    exact floor_days_makeTimepoint start (natAbs_lt_of_ok _ htime)
  have hi : calculateIncrement 0 = 1 := calculateIncrement_of_nonneg 0 (le_refl _)
  have hw : |(0 : ℚ)| < 1 := by norm_num
  have hiff := fun fuel r => getWorkdayIncrement_zero_days_iff cfg fuel start 0 hw r
  simp only [hfl, hi, one_mul] at hiff
  refine ⟨?_, ?_, ?_⟩
  · intro hwork h1 h2 fuel
    rw [hiff]
    refine ⟨0, Nat.zero_le _, ?_, by intro j hj; omega, ?_, ?_⟩
    · simp only [Nat.cast_zero, add_zero, hof]; exact hwork
    · rw [het, clampStartTime_of_mem start.time cfg.start_ cfg.stop_ 0 h1 h2]
      rfl
    · simp only [Nat.cast_zero, add_zero, hof]
  · intro fuel h
    refine ⟨getWorkdayIncrement_isWorkday cfg fuel start 0 start h, ?_⟩
    obtain ⟨k0, -, -, -, ht, -⟩ := (hiff fuel start).1 h
    have hm := endTime_fst_mem cfg start 0 hwin
    rw [← ht] at hm
    exact hm
  · intro hnw
    have hnw0 : isWorkday cfg.holidays (Date.ofSysDays (sys_days start.date)) = false := by
      rw [hof]; exact hnw
    constructor
    · intro fuel r hres
      obtain ⟨k0, -, hwk, hno, -, hd⟩ := (hiff fuel r).1 hres
      have hk0 : k0 ≠ 0 := by
        rintro rfl
        simp only [Nat.cast_zero, add_zero] at hwk
        rw [hnw0] at hwk
        cases hwk
      refine ⟨by rw [hd, sys_days_ofSysDays]; omega, by rw [hd]; exact hwk, ?_⟩
      intro z hz1 hz2
      rw [hd, sys_days_ofSysDays] at hz2
      have := hno (z - sys_days start.date).toNat (by omega)
      rw [← this]
      congr 2
      omega
    · rintro ⟨z, hz, hwz⟩
      classical
      have hex : ∃ k : Nat, isWorkday cfg.holidays
          (Date.ofSysDays (sys_days start.date + (k : Int))) = true := by
        refine ⟨(z - sys_days start.date).toNat, ?_⟩
        rw [← hwz]
        congr 2
        omega
      refine ⟨Nat.find hex, ⟨Date.ofSysDays (sys_days start.date +
        ((Nat.find hex : Nat) : Int)), (cfg.endTime start 0).1⟩, ?_⟩
      rw [hiff]
      refine ⟨Nat.find hex, le_refl _, Nat.find_spec hex, ?_, rfl, rfl⟩
      intro j hj
      have := Nat.find_min hex hj
      simpa using this

/-! ## Termination bound without recurring holidays -/

theorem countWorkdays_le_add (h : Holidays) (z inc : Int) (a b : Nat) :
    countWorkdays h z inc a ≤ countWorkdays h z inc (a + b) := by
  rw [countWorkdays_add]; exact Nat.le_add_right _ _

theorem countWorkdays_succ_le (h : Holidays) (z inc : Int) (k : Nat) :
    countWorkdays h z inc (k + 1) ≤ countWorkdays h z inc k + 1 := by
  rw [countWorkdays]
  split_ifs <;> omega

theorem weekday_among_three (z inc : Int) (hinc : inc = 1 ∨ inc = -1) :
    ∃ j : Nat, 1 ≤ j ∧ j ≤ 3 ∧ weekday_from_days (z + inc * (j : Int)) ≠ Saturday ∧
      weekday_from_days (z + inc * (j : Int)) ≠ Sunday := by
  by_cases h1 : (z + inc * ((1 : Nat) : Int) + 4) % 7 ≠ 6 ∧
      (z + inc * ((1 : Nat) : Int) + 4) % 7 ≠ 0
  · exact ⟨1, by omega, by omega, h1.1, h1.2⟩
  · by_cases h2 : (z + inc * ((2 : Nat) : Int) + 4) % 7 ≠ 6 ∧
        (z + inc * ((2 : Nat) : Int) + 4) % 7 ≠ 0
    · exact ⟨2, by omega, by omega, h2.1, h2.2⟩
    · refine ⟨3, by omega, by omega, ?_, ?_⟩ <;>
        · simp only [weekday_from_days, Saturday, Sunday]
          rcases hinc with rfl | rfl <;> omega

theorem isWorkday_fixed_iff (l : List Date) (z : Int) :
    isWorkday { nonRecurring := l, recurring := [] } (Date.ofSysDays z) = true ↔
      (weekday_from_days z ≠ Saturday ∧ weekday_from_days z ≠ Sunday) ∧
        ∀ x ∈ l, Date.ofSysDays z ≠ x := by
  rw [isWorkday_ofSysDays_iff]
  simp [and_assoc]

theorem countWorkdays_week (z inc : Int) (hinc : inc = 1 ∨ inc = -1) :
    1 ≤ countWorkdays { nonRecurring := [], recurring := [] } z inc 7 := by
  obtain ⟨j, hj1, hj3, hsat, hsun⟩ := weekday_among_three z inc hinc
  have hw : isWorkday { nonRecurring := [], recurring := [] }
      (Date.ofSysDays (z + inc * (((j - 1) + 1 : Nat) : Int))) = true := by
    rw [isWorkday_fixed_iff, show j - 1 + 1 = j by omega]
    exact ⟨⟨hsat, hsun⟩, by simp⟩
  have hp := countWorkdays_pos _ z inc (j - 1) hw
  have hm := countWorkdays_le_add { nonRecurring := [], recurring := [] } z inc (j - 1 + 1)
    (7 - j)
  rw [show j - 1 + 1 + (7 - j) = 7 by omega] at hm
  omega

theorem countWorkdays_no_holidays (inc : Int) (hinc : inc = 1 ∨ inc = -1) (n : Nat) :
    ∀ z : Int, n ≤ countWorkdays { nonRecurring := [], recurring := [] } z inc (7 * n) := by
  induction n with
  | zero => intro z; exact Nat.zero_le _
  | succ n ih =>
    intro z
    rw [show 7 * (n + 1) = 7 * n + 7 by ring, countWorkdays_add]
    have h1 := ih z
    have h2 := countWorkdays_week (z + inc * ((7 * n : Nat) : Int)) inc hinc
    omega

theorem isWorkday_cons_of_ne (a : Date) (l : List Date) (z : Int)
    (hne : Date.ofSysDays z ≠ a) :
    isWorkday { nonRecurring := a :: l, recurring := [] } (Date.ofSysDays z) =
      isWorkday { nonRecurring := l, recurring := [] } (Date.ofSysDays z) := by
  rw [Bool.eq_iff_iff, isWorkday_fixed_iff, isWorkday_fixed_iff]
  simp [hne]

theorem countWorkdays_cons_of_ne (a : Date) (l : List Date) (z inc : Int) (k : Nat)
    (hne : ∀ j : Nat, 1 ≤ j → j ≤ k → Date.ofSysDays (z + inc * (j : Int)) ≠ a) :
    countWorkdays { nonRecurring := a :: l, recurring := [] } z inc k =
      countWorkdays { nonRecurring := l, recurring := [] } z inc k := by
  induction k with
  | zero => rfl
  | succ k ih =>
    rw [countWorkdays, countWorkdays, ih (fun j h1 h2 => hne j h1 (by omega)),
      isWorkday_cons_of_ne a l _ (hne (k + 1) (by omega) (le_refl _))]

theorem countWorkdays_cons (a : Date) (l : List Date) (z inc : Int)
    (hinc : inc = 1 ∨ inc = -1) (k : Nat) :
    countWorkdays { nonRecurring := l, recurring := [] } z inc k ≤
      countWorkdays { nonRecurring := a :: l, recurring := [] } z inc k + 1 := by
  induction k with
  | zero => exact Nat.zero_le _
  | succ k ih =>
    by_cases hd : Date.ofSysDays (z + inc * ((k + 1 : Nat) : Int)) = a
    · have hne : ∀ j : Nat, 1 ≤ j → j ≤ k → Date.ofSysDays (z + inc * (j : Int)) ≠ a := by
        intro j h1 h2 hj
        have := ofSysDays_injective _ _ (hj.trans hd.symm)
        rcases hinc with rfl | rfl <;> omega
      have e := countWorkdays_cons_of_ne a l z inc k hne
      have h1 := countWorkdays_succ_le { nonRecurring := l, recurring := [] } z inc k
      have h2 := countWorkdays_le_add { nonRecurring := a :: l, recurring := [] } z inc k 1
      omega
    · rw [countWorkdays, countWorkdays, isWorkday_cons_of_ne a l _ hd]
      omega

theorem countWorkdays_fixed (inc : Int) (hinc : inc = 1 ∨ inc = -1) (l : List Date) :
    ∀ (n : Nat) (z : Int),
      n ≤ countWorkdays { nonRecurring := l, recurring := [] } z inc (7 * (n + l.length)) := by
  induction l with
  | nil => intro n z; exact countWorkdays_no_holidays inc hinc n z
  | cons a l ih =>
    intro n z
    have h1 := ih (n + 1) z
    have h2 := countWorkdays_cons a l z inc hinc (7 * (n + 1 + l.length))
    rw [List.length_cons, show n + (l.length + 1) = n + 1 + l.length by omega]
    omega

theorem countWorkdays_reaches (h : Holidays) (z inc : Int) (n : Nat) (hn : 1 ≤ n) :
    ∀ K : Nat, n ≤ countWorkdays h z inc K →
      ∃ k : Nat, 1 ≤ k ∧ k ≤ K ∧
        isWorkday h (Date.ofSysDays (z + inc * (k : Int))) = true ∧
        countWorkdays h z inc k = n := by
  intro K
  induction K with
  | zero => intro hK; simp only [countWorkdays] at hK; omega
  | succ K ih =>
    intro hK
    by_cases hprev : n ≤ countWorkdays h z inc K
    · obtain ⟨k, h1, h2, h3, h4⟩ := ih hprev
      exact ⟨k, h1, by omega, h3, h4⟩
    · have hs := countWorkdays_succ_le h z inc K
      refine ⟨K + 1, by omega, le_refl _, ?_, by omega⟩
      cases hw : isWorkday h (Date.ofSysDays (z + inc * ((K + 1 : Nat) : Int)))
      · rw [countWorkdays, hw] at hK
        simp only [Bool.false_eq_true, if_false] at hK
        omega
      · rfl

theorem countWorkdays_lt_of_workday (h : Holidays) (z inc : Int) (k k' : Nat)
    (hk : k' < k) (hw : isWorkday h (Date.ofSysDays (z + inc * (k : Int))) = true) :
    countWorkdays h z inc k' < countWorkdays h z inc k := by
  obtain ⟨m, rfl⟩ : ∃ m, k = m + 1 := ⟨k - 1, by omega⟩
  have h1 := countWorkdays_le_add h z inc k' (m - k')
  rw [show k' + (m - k') = m by omega] at h1
  have h2 := countWorkdays_pos h z inc m hw
  have h3 : countWorkdays h z inc (m + 1) = countWorkdays h z inc m + 1 := by
    rw [countWorkdays, hw]; simp
  omega

theorem clampStartDate_eq_some_iff (fuel : Nat) (w : ℚ) (tp : Int) (h : Holidays)
    (tp' : Int) :
    clampStartDate fuel w tp h = some tp' ↔
      ∃ k : Nat, k ≤ fuel ∧ tp' = tp + calculateIncrement w * 1440 * (k : Int) ∧
        isWorkday h (Date.ofSysDays (floor_days tp + calculateIncrement w * (k : Int))) = true ∧
        ∀ j : Nat, j < k →
          isWorkday h (Date.ofSysDays (floor_days tp + calculateIncrement w * (j : Int))) =
            false :=
  clampStartDateLoop_eq_some_iff (calculateIncrement w) h fuel tp tp'

theorem calculateEndDate_eq_some_iff (fuel : Nat) (w : ℚ) (tp : Int) (h : Holidays)
    (r : Date) :
    calculateEndDate fuel w tp h = some r ↔
      ((truncToInt w).natAbs = 0 ∧ r = Date.ofSysDays (floor_days tp)) ∨
      (0 < (truncToInt w).natAbs ∧ ∃ k : Nat, 1 ≤ k ∧ k ≤ fuel ∧
        r = Date.ofSysDays (floor_days tp + calculateIncrement w * (k : Int)) ∧
        isWorkday h (Date.ofSysDays (floor_days tp + calculateIncrement w * (k : Int))) =
          true ∧
        countWorkdays h (floor_days tp) (calculateIncrement w) k = (truncToInt w).natAbs) := by
  have hloop := calculateEndDateLoop_eq_some_iff (calculateIncrement w) h
    (calculateIncrement_cases w) fuel tp (truncToInt w).natAbs
    (Date.ofSysDays (floor_days tp)) r
  have htr := truncToInt_eq w
  change calculateEndDateLoop (calculateIncrement w) h fuel tp (truncToInt w)
    (Date.ofSysDays (floor_days tp)) = some r ↔ _
  generalize (truncToInt w).natAbs = cnt at htr hloop ⊢
  rw [htr]
  exact hloop

theorem clampStartDate_none_of_lt (f k0 : Nat) (w : ℚ) (tp : Int) (h : Holidays)
    (hf : f < k0)
    (hlt : ∀ j : Nat, j < k0 →
      isWorkday h (Date.ofSysDays (floor_days tp + calculateIncrement w * (j : Int))) = false) :
    clampStartDate f w tp h = none := by
  cases hc : clampStartDate f w tp h with
  | none => rfl
  | some tp' =>
    obtain ⟨k, hk, -, hw, -⟩ := (clampStartDate_eq_some_iff f w tp h tp').1 hc
    rw [hlt k (by omega)] at hw
    cases hw

theorem calculateEndDate_none_of_lt (f k : Nat) (w : ℚ) (tp : Int) (h : Holidays)
    (hf : f < k)
    (hw : isWorkday h (Date.ofSysDays (floor_days tp + calculateIncrement w * (k : Int))) = true)
    (hcount : countWorkdays h (floor_days tp) (calculateIncrement w) k = (truncToInt w).natAbs) :
    calculateEndDate f w tp h = none := by
  cases hc : calculateEndDate f w tp h with
  | none => rfl
  | some r =>
    rcases (calculateEndDate_eq_some_iff f w tp h r).1 hc with ⟨h0, -⟩ | ⟨-, k', -, hk', -, -, hc'⟩
    · have := countWorkdays_lt_of_workday h (floor_days tp) (calculateIncrement w) k 0
        (by omega) hw
      omega
    · have := countWorkdays_lt_of_workday h (floor_days tp) (calculateIncrement w) k k'
        (by omega) hw
      omega

/-- C24. Termination without recurring holidays: for every calendar whose list of
recurring holidays is empty, whatever its list of fixed holidays, every start date and
time and every increment `w` with integer part `N`, the loop of `clampStartDate` ends after
exactly `k0` one-day steps and the loop of `calculateEndDate` after exactly `k` one-day
steps, where `k0 + k` is at most `7 * (|N| + number of fixed holidays + 1)`, and
`getWorkdayIncrement` returns the date so reached (dates are unbounded). -/
theorem C24_termination_without_recurring (cfg : WorkdayCalendar) (start : DateTime) (w : ℚ)
    (hrec : cfg.recurringHolidays_ = []) :
    ∃ (k0 k : Nat) (tp : Int) (date : Date),
      k0 + k ≤ 7 * ((truncToInt w).natAbs + cfg.nonRecurringHolidays_.length + 1) ∧
      clampStartDate k0 w (cfg.endTime start w).2 cfg.holidays = some tp ∧
      (∀ f : Nat, f < k0 →
        clampStartDate f w (cfg.endTime start w).2 cfg.holidays = none) ∧
      calculateEndDate k w tp cfg.holidays = some date ∧
      (∀ f : Nat, f < k → calculateEndDate f w tp cfg.holidays = none) ∧
      cfg.getWorkdayIncrement (k0 + k) start w =
        some { date := date, time := (cfg.endTime start w).1 } := by
  have hinc := calculateIncrement_cases w
  have hh : cfg.holidays =
      { nonRecurring := cfg.nonRecurringHolidays_, recurring := [] } := by
    rw [WorkdayCalendar.holidays, hrec]
  generalize hZ : floor_days (cfg.endTime start w).2 = Z
  generalize hN : (truncToInt w).natAbs = N
  have hcount : N + 1 ≤ countWorkdays cfg.holidays (Z - calculateIncrement w)
      (calculateIncrement w) (7 * (N + cfg.nonRecurringHolidays_.length + 1)) := by
    rw [hh, show N + cfg.nonRecurringHolidays_.length + 1 =
      N + 1 + cfg.nonRecurringHolidays_.length by omega]
    exact countWorkdays_fixed _ hinc _ _ _
  obtain ⟨j, hj1, -, hwj, -⟩ := countWorkdays_reaches cfg.holidays
    (Z - calculateIncrement w) (calculateIncrement w) 1 (le_refl _)
    (7 * (N + cfg.nonRecurringHolidays_.length + 1)) (by omega)
  obtain ⟨k0, hw0, hlt0, hc0⟩ := exists_first_workday cfg.holidays
    (Z - calculateIncrement w) (calculateIncrement w)
    ⟨j - 1, by rw [show j - 1 + 1 = j by omega]; exact hwj⟩
  have hk0 : k0 + 1 ≤ 7 * (N + cfg.nonRecurringHolidays_.length + 1) := by
    by_contra hcon
    have := countWorkdays_eq_zero cfg.holidays (Z - calculateIncrement w)
      (calculateIncrement w) (7 * (N + cfg.nonRecurringHolidays_.length + 1))
      (fun j h1 h2 => hlt0 j h1 (by omega))
    omega
  have e0 : Z - calculateIncrement w + calculateIncrement w * ((k0 + 1 : Nat) : Int) =
      Z + calculateIncrement w * (k0 : Int) := by
    push_cast; ring
  rw [e0] at hw0
  have hlt : ∀ j : Nat, j < k0 →
      isWorkday cfg.holidays (Date.ofSysDays (Z + calculateIncrement w * (j : Int))) =
        false := by
    intro j hj
    rw [← hlt0 (j + 1) (by omega) (by omega)]
    congr 2
    push_cast; ring
  have hfl : floor_days ((cfg.endTime start w).2 + calculateIncrement w * 1440 * (k0 : Int)) =
      Z + calculateIncrement w * (k0 : Int) := by
    rw [show calculateIncrement w * 1440 * (k0 : Int) =
      (calculateIncrement w * (k0 : Int)) * 1440 by ring, floor_days_add, hZ]
  have hclamp : clampStartDate k0 w (cfg.endTime start w).2 cfg.holidays =
      some ((cfg.endTime start w).2 + calculateIncrement w * 1440 * (k0 : Int)) := by
    rw [clampStartDate_eq_some_iff, hZ]
    exact ⟨k0, le_refl _, rfl, hw0, hlt⟩
  have hmin0 : ∀ f : Nat, f < k0 →
      clampStartDate f w (cfg.endTime start w).2 cfg.holidays = none := by
    intro f hf
    exact clampStartDate_none_of_lt f k0 w _ _ hf (by rw [hZ]; exact hlt)
  rcases Nat.eq_zero_or_pos N with hN0 | hNpos
  · refine ⟨k0, 0, _, Date.ofSysDays (Z + calculateIncrement w * (k0 : Int)), by omega,
      hclamp, hmin0, ?_, by intro f hf; omega, ?_⟩
    · rw [calculateEndDate_eq_some_iff, hfl, hN]
      exact Or.inl ⟨hN0, rfl⟩
    · rw [getWorkdayIncrement_eq_some_iff, hZ, hN]
      exact ⟨k0, by omega, hw0, hlt, rfl, Or.inl ⟨hN0, rfl⟩⟩
  · have hsplit := countWorkdays_add cfg.holidays (Z - calculateIncrement w)
      (calculateIncrement w) (k0 + 1)
      (7 * (N + cfg.nonRecurringHolidays_.length + 1) - (k0 + 1))
    rw [show k0 + 1 + (7 * (N + cfg.nonRecurringHolidays_.length + 1) - (k0 + 1)) =
      7 * (N + cfg.nonRecurringHolidays_.length + 1) by omega, hc0, e0] at hsplit
    obtain ⟨k, hk1, hkB, hwk, hck⟩ := countWorkdays_reaches cfg.holidays
      (Z + calculateIncrement w * (k0 : Int)) (calculateIncrement w) N hNpos
      (7 * (N + cfg.nonRecurringHolidays_.length + 1) - (k0 + 1)) (by omega)
    refine ⟨k0, k, _, Date.ofSysDays (Z + calculateIncrement w * (k0 : Int) +
      calculateIncrement w * (k : Int)), by omega, hclamp, hmin0, ?_, ?_, ?_⟩
    · rw [calculateEndDate_eq_some_iff, hfl, hN]
      exact Or.inr ⟨hNpos, k, hk1, le_refl _, rfl, hwk, hck⟩
    · intro f hf
      exact calculateEndDate_none_of_lt f k w _ _ hf (by rw [hfl]; exact hwk)
        (by rw [hfl, hN]; exact hck)
    · rw [getWorkdayIncrement_eq_some_iff, hZ, hN]
      exact ⟨k0, by omega, hw0, hlt, rfl,
        Or.inr ⟨hNpos, k, hk1, by omega, rfl, hwk, hck⟩⟩

/-- C25. `getNumberOfDaysInMonth(y, m)` equals the Gregorian month length for every year
`y` and every month `m` in 1..12: 31 for the months 1, 3, 5, 7, 8, 10, 12 and 30 for the
months 4, 6, 9, 11, both being the value of the bit expression `30 | (m xor (m >> 3))`;
and for February 29 when `y` is a leap year (divisible by 4 and not by 100, or divisible
by 400) and 28 otherwise. -/
theorem C25_days_in_month (y : Int) (m : Nat) (hm1 : 1 ≤ m) (hm12 : m ≤ 12) :
    getNumberOfDaysInMonth y m = last_day_of_month y m ∧
    (m ∈ [1, 3, 5, 7, 8, 10, 12] →
      getNumberOfDaysInMonth y m = 31 ∧ 30 ||| (m ^^^ (m >>> 3)) = 31) ∧
    (m ∈ [4, 6, 9, 11] →
      getNumberOfDaysInMonth y m = 30 ∧ 30 ||| (m ^^^ (m >>> 3)) = 30) ∧
    (m = 2 →
      (y % 4 = 0 ∧ (y % 100 ≠ 0 ∨ y % 400 = 0) → getNumberOfDaysInMonth y m = 29) ∧
      (¬ (y % 4 = 0 ∧ (y % 100 ≠ 0 ∨ y % 400 = 0)) → getNumberOfDaysInMonth y m = 28)) := by
  refine ⟨getNumberOfDaysInMonth_eq y m hm1 hm12, ?_, ?_, ?_⟩
  · intro hm
    simp only [List.mem_cons, List.mem_singleton, List.not_mem_nil, or_false] at hm
    rcases hm with rfl | rfl | rfl | rfl | rfl | rfl | rfl <;>
      exact ⟨by simp [getNumberOfDaysInMonth, February], by decide⟩
  · intro hm
    simp only [List.mem_cons, List.mem_singleton, List.not_mem_nil, or_false] at hm
    rcases hm with rfl | rfl | rfl | rfl <;>
      exact ⟨by simp [getNumberOfDaysInMonth, February], by decide⟩
  · rintro rfl
    constructor
    · intro hl
      have := (is_leap_iff y).2 hl
      simp [getNumberOfDaysInMonth, February, this]
    · intro hl
      have : is_leap y = false := by
        rw [← Bool.not_eq_true, is_leap_iff]; exact hl
      simp [getNumberOfDaysInMonth, February, this]

/-- Witness of C25: February of the year 1900, which is divisible by 100 and not by 400,
has 28 days; the theorem is applied to this year and month. -/
theorem C25_days_in_month_witness :
    (1 ≤ 2 ∧ 2 ≤ 12) ∧ getNumberOfDaysInMonth 1900 2 = 28 ∧
    (getNumberOfDaysInMonth 1900 2 = last_day_of_month 1900 2 ∧
    (2 ∈ [1, 3, 5, 7, 8, 10, 12] →
      getNumberOfDaysInMonth 1900 2 = 31 ∧ 30 ||| (2 ^^^ (2 >>> 3)) = 31) ∧
    (2 ∈ [4, 6, 9, 11] →
      getNumberOfDaysInMonth 1900 2 = 30 ∧ 30 ||| (2 ^^^ (2 >>> 3)) = 30) ∧
    (2 = 2 →
      ((1900 : Int) % 4 = 0 ∧ ((1900 : Int) % 100 ≠ 0 ∨ (1900 : Int) % 400 = 0) →
        getNumberOfDaysInMonth 1900 2 = 29) ∧
      (¬ ((1900 : Int) % 4 = 0 ∧ ((1900 : Int) % 100 ≠ 0 ∨ (1900 : Int) % 400 = 0)) →
        getNumberOfDaysInMonth 1900 2 = 28))) :=
  ⟨by decide, by decide, C25_days_in_month 1900 2 (by decide) (by decide)⟩

/-- Witness of C24: on the calendar whose only holiday is the fixed 2004-05-27, two working
days from Wednesday 2004-05-26 10:00 end on Monday 2004-05-31 (at 00:00, the default
working window) after five one-day steps and not after four, within the bound
`7 * (2 + 1 + 1)`; the theorem is applied to this calendar, start and increment. -/
theorem C24_termination_without_recurring_witness :
    fixedHolidayCalendar.recurringHolidays_ = [] ∧
    fixedHolidayCalendar.getWorkdayIncrement 5 ⟨⟨2004, 5, 26⟩, ⟨600⟩⟩ ((2 : Int) : ℚ) =
      some ⟨⟨2004, 5, 31⟩, ⟨0⟩⟩ ∧
    fixedHolidayCalendar.getWorkdayIncrement 4 ⟨⟨2004, 5, 26⟩, ⟨600⟩⟩ ((2 : Int) : ℚ) = none ∧
    ∃ (k0 k : Nat) (tp : Int) (date : Date),
      k0 + k ≤ 7 * ((truncToInt ((2 : Int) : ℚ)).natAbs +
        fixedHolidayCalendar.nonRecurringHolidays_.length + 1) ∧
      clampStartDate k0 ((2 : Int) : ℚ)
        (fixedHolidayCalendar.endTime ⟨⟨2004, 5, 26⟩, ⟨600⟩⟩ ((2 : Int) : ℚ)).2
        fixedHolidayCalendar.holidays = some tp ∧
      (∀ f : Nat, f < k0 → clampStartDate f ((2 : Int) : ℚ)
        (fixedHolidayCalendar.endTime ⟨⟨2004, 5, 26⟩, ⟨600⟩⟩ ((2 : Int) : ℚ)).2
        fixedHolidayCalendar.holidays = none) ∧
      calculateEndDate k ((2 : Int) : ℚ) tp fixedHolidayCalendar.holidays = some date ∧
      (∀ f : Nat, f < k →
        calculateEndDate f ((2 : Int) : ℚ) tp fixedHolidayCalendar.holidays = none) ∧
      fixedHolidayCalendar.getWorkdayIncrement (k0 + k) ⟨⟨2004, 5, 26⟩, ⟨600⟩⟩
          ((2 : Int) : ℚ) =
        some { date := date, time := (fixedHolidayCalendar.endTime
          ⟨⟨2004, 5, 26⟩, ⟨600⟩⟩ ((2 : Int) : ℚ)).1 } := by
  have hinc : calculateIncrement ((2 : Int) : ℚ) = 1 :=
    calculateIncrement_of_nonneg _ (by norm_num)
  have htr : truncToInt ((2 : Int) : ℚ) = 2 := truncToInt_intCast 2
  have hm : ⌊((fixedHolidayCalendar.stop_.to_duration -
      fixedHolidayCalendar.start_.to_duration : Int) : ℚ) *
      (((2 : Int) : ℚ) - ((2 : Int) : ℚ))⌋ = 0 := by simp
  refine ⟨rfl, ?_, ?_, C24_termination_without_recurring fixedHolidayCalendar
    ⟨⟨2004, 5, 26⟩, ⟨600⟩⟩ ((2 : Int) : ℚ) rfl⟩
  · rw [getWorkdayIncrement_eq_incrementFrom _ _ _ _ 1 2 0 hinc htr hm]
    decide
  · rw [getWorkdayIncrement_eq_incrementFrom _ _ _ _ 1 2 0 hinc htr hm]
    decide

/-! ## Rounding to binary32 -/

theorem roundHalfEven_intCast (n : Int) : Machine.roundHalfEven (n : ℚ) = n := by
  unfold Machine.roundHalfEven
  rw [Int.floor_intCast]
  simp

theorem roundHalfEven_bounds (x : ℚ) :
    ⌊x⌋ ≤ Machine.roundHalfEven x ∧ Machine.roundHalfEven x ≤ ⌈x⌉ := by
  unfold Machine.roundHalfEven
  have hc : ⌊x⌋ ≤ ⌈x⌉ := Int.floor_le_ceil x
  have hlt : ∀ h : ¬ (x - (⌊x⌋ : ℚ) < 1 / 2), ⌊x⌋ + 1 ≤ ⌈x⌉ := by
    intro h
    have h1 : (⌊x⌋ : ℚ) < x := by linarith
    have h2 : ⌊x⌋ < ⌈x⌉ := by
      rw [Int.lt_ceil]; exact h1
    omega
  split_ifs with h1 h2 h3
  · exact ⟨le_refl _, hc⟩
  · exact ⟨by omega, hlt h1⟩
  · exact ⟨le_refl _, hc⟩
  · exact ⟨by omega, hlt h1⟩

theorem binary32_zero : Machine.binary32 0 = 0 := by
  unfold Machine.binary32
  simp

theorem log_le_of_lt_zpow (q : ℚ) (hq : q ≠ 0) (n : Int) (h : |q| < 2 ^ n) :
    Int.log 2 |q| < n := by
  have hpos : (0 : ℚ) < |q| := abs_pos.2 hq
  rw [← Int.lt_zpow_iff_log_lt (by norm_num) hpos]
  exact_mod_cast h

theorem le_log_of_zpow_le (q : ℚ) (hq : q ≠ 0) (n : Int) (h : 2 ^ n ≤ |q|) :
    n ≤ Int.log 2 |q| := by
  have hpos : (0 : ℚ) < |q| := abs_pos.2 hq
  rw [← Int.zpow_le_iff_le_log (by norm_num) hpos]
  exact_mod_cast h

/-- A multiple `a * 2^t` of a power of two with `|a| < 2^24` and `t >= -149` is a binary32
value. -/
theorem binary32_of_scaled (q : ℚ) (a t : Int) (hq : q = (a : ℚ) * 2 ^ t)
    (ha : a.natAbs < 2 ^ 24) (ht : -149 ≤ t) : Machine.binary32 q = q := by
  unfold Machine.binary32
  split_ifs with h0
  · exact h0.symm
  · dsimp only
    have hlog : Int.log 2 |q| < 24 + t := by
      apply log_le_of_lt_zpow q h0
      rw [hq, abs_mul, abs_of_pos (zpow_pos (by norm_num : (0 : ℚ) < 2) t), zpow_add₀ (by norm_num)]
      apply mul_lt_mul_of_pos_right _ (zpow_pos (by norm_num) t)
      have : |(a : ℚ)| = ((a.natAbs : Nat) : ℚ) := by
        rw [Nat.cast_natAbs, Int.cast_abs]
      rw [this]
      have h24 : ((2 : ℚ) ^ (24 : Int)) = ((2 ^ 24 : Nat) : ℚ) := by norm_num
      rw [h24]
      exact_mod_cast ha
    have hu : max (Int.log 2 |q|) (-126) - 23 ≤ t := by
      rcases max_cases (Int.log 2 |q|) (-126) with ⟨e, -⟩ | ⟨e, -⟩ <;> rw [e] <;> omega
    generalize max (Int.log 2 |q|) (-126) - 23 = u at hu
    obtain ⟨k, hk⟩ : ∃ k : Nat, t = u + (k : Int) := ⟨(t - u).toNat, by omega⟩
    have hdiv : q / 2 ^ u = ((a * 2 ^ k : Int) : ℚ) := by
      rw [hq, hk, zpow_add₀ (by norm_num)]
      have : (2 : ℚ) ^ u ≠ 0 := zpow_ne_zero _ (by norm_num)
      field_simp
      ring
    rw [hdiv, roundHalfEven_intCast, ← hdiv]
    have : (2 : ℚ) ^ u ≠ 0 := zpow_ne_zero _ (by norm_num)
    field_simp

theorem binary32_intCast (n : Int) (h : n.natAbs ≤ 2 ^ 24) :
    Machine.binary32 (n : ℚ) = n := by
  rcases Nat.lt_or_ge n.natAbs (2 ^ 24) with hlt | hge
  · exact binary32_of_scaled _ n 0 (by simp) hlt (by norm_num)
  · have hn : n = 2 ^ 24 ∨ n = -2 ^ 24 := by omega
    rcases hn with rfl | rfl
    · exact binary32_of_scaled _ (2 ^ 23) 1 (by norm_num) (by norm_num) (by norm_num)
    · exact binary32_of_scaled _ (-2 ^ 23) 1 (by norm_num) (by norm_num) (by norm_num)

/-- Every binary32 value is a multiple `a * 2^t` of a power of two with `|a| < 2^24` and
`t >= -149`. -/
theorem binary32_repr (w : ℚ) (hw : Machine.binary32 w = w) :
    ∃ a t : Int, w = (a : ℚ) * 2 ^ t ∧ a.natAbs < 2 ^ 24 ∧ -149 ≤ t := by
  by_cases h0 : w = 0
  · exact ⟨0, 0, by simp [h0], by norm_num, by norm_num⟩
  · unfold Machine.binary32 at hw
    rw [if_neg h0] at hw
    dsimp only at hw
    have hpos : (0 : ℚ) < |w| := abs_pos.2 h0
    have hlt : |w| < 2 ^ (Int.log 2 |w| + 1) := by
      have := Int.lt_zpow_succ_log_self (by norm_num : 1 < 2) |w|
      exact_mod_cast this
    have hu1 : Int.log 2 |w| - 23 ≤ max (Int.log 2 |w|) (-126) - 23 := by
      have := le_max_left (Int.log 2 |w|) (-126)
      omega
    have hu2 : -149 ≤ max (Int.log 2 |w|) (-126) - 23 := by
      have := le_max_right (Int.log 2 |w|) (-126)
      omega
    generalize max (Int.log 2 |w|) (-126) - 23 = u at hw hu1 hu2
    generalize Machine.roundHalfEven (w / 2 ^ u) = R at hw
    refine ⟨R, u, hw.symm, ?_, hu2⟩
    have hupos : (0 : ℚ) < 2 ^ u := zpow_pos (by norm_num) u
    have h1 : |(R : ℚ)| * 2 ^ u < 2 ^ (24 : Int) * 2 ^ u := by
      have e : |(R : ℚ)| * 2 ^ u = |w| := by
        rw [← hw, abs_mul, abs_of_pos hupos]
      rw [e, ← zpow_add₀ (by norm_num : (2 : ℚ) ≠ 0)]
      refine lt_of_lt_of_le hlt ?_
      exact zpow_le_zpow_right₀ (by norm_num) (by omega)
    have h2 : |(R : ℚ)| < 2 ^ (24 : Int) := lt_of_mul_lt_mul_right h1 (le_of_lt hupos)
    have h3 : |(R : ℚ)| = ((R.natAbs : Nat) : ℚ) := by
      rw [Nat.cast_natAbs, Int.cast_abs]
    have h24 : ((2 : ℚ) ^ (24 : Int)) = ((2 ^ 24 : Nat) : ℚ) := by norm_num
    rw [h3, h24] at h2
    exact_mod_cast h2

theorem truncToInt_abs_le (w : ℚ) : |((truncToInt w : Int) : ℚ)| ≤ |w| := by
  unfold truncToInt
  split_ifs with h
  · rw [abs_of_nonneg h, abs_of_nonneg (by exact_mod_cast Int.floor_nonneg.2 h)]
    exact Int.floor_le w
  · have hneg : w ≤ 0 := le_of_lt (not_le.1 h)
    have hc : (⌈w⌉ : ℚ) ≤ 0 := by exact_mod_cast Int.ceil_le.2 (by simpa using hneg)
    rw [abs_of_nonpos hneg, abs_of_nonpos hc]
    have := Int.le_ceil w
    linarith

theorem zpow_two_eq_natCast (t : Int) (ht : 0 ≤ t) :
    (2 : ℚ) ^ t = ((2 ^ t.toNat : Int) : ℚ) := by
  obtain ⟨k, rfl⟩ : ∃ k : Nat, t = (k : Int) := ⟨t.toNat, by omega⟩
  simp

/-- The whole part of a binary32 value converts to `float` exactly. -/
theorem binary32_truncToInt (w : ℚ) (hw : Machine.binary32 w = w) :
    Machine.binary32 ((truncToInt w : Int) : ℚ) = ((truncToInt w : Int) : ℚ) := by
  obtain ⟨a, t, e, ha, ht⟩ := binary32_repr w hw
  rcases le_or_lt 0 t with h0 | h0
  · have ew : w = ((a * 2 ^ t.toNat : Int) : ℚ) := by
      rw [e, zpow_two_eq_natCast t h0]; push_cast; ring
    rw [ew, truncToInt_intCast, ← ew]
    exact hw
  · apply binary32_intCast
    have h1 := truncToInt_abs_le w
    have h2 : |w| < 2 ^ (24 : Int) := by
      rw [e, abs_mul, abs_of_pos (zpow_pos (by norm_num : (0 : ℚ) < 2) t)]
      have h3 : |(a : ℚ)| < 2 ^ (24 : Int) := by
        have h3 : |(a : ℚ)| = ((a.natAbs : Nat) : ℚ) := by
          rw [Nat.cast_natAbs, Int.cast_abs]
        have h24 : ((2 : ℚ) ^ (24 : Int)) = ((2 ^ 24 : Nat) : ℚ) := by norm_num
        rw [h3, h24]
        exact_mod_cast ha
      have h4 : (2 : ℚ) ^ t ≤ 1 := by
        have := zpow_le_zpow_right₀ (by norm_num : (1 : ℚ) ≤ 2) (le_of_lt h0)
        simpa using this
      have h5 : (0 : ℚ) ≤ |(a : ℚ)| := abs_nonneg _
      calc |(a : ℚ)| * 2 ^ t ≤ |(a : ℚ)| * 1 := mul_le_mul_of_nonneg_left h4 h5
        _ = |(a : ℚ)| := mul_one _
        _ < 2 ^ (24 : Int) := h3
    have h3 : |((truncToInt w : Int) : ℚ)| < ((2 ^ 24 : Nat) : ℚ) := by
      have h24 : ((2 : ℚ) ^ (24 : Int)) = ((2 ^ 24 : Nat) : ℚ) := by norm_num
      rw [← h24]
      exact lt_of_le_of_lt h1 h2
    have h4 : |((truncToInt w : Int) : ℚ)| = (((truncToInt w).natAbs : Nat) : ℚ) := by
      rw [Nat.cast_natAbs, Int.cast_abs]
    rw [h4] at h3
    have : (truncToInt w).natAbs < 2 ^ 24 := by exact_mod_cast h3
    omega

/-- The fractional part of a binary32 value is a binary32 value: the subtraction
`incrementWorkdays - static_cast<float>(incrementInDays.count())` is exact. -/
theorem binary32_fraction (w : ℚ) (hw : Machine.binary32 w = w) :
    Machine.binary32 (w - ((truncToInt w : Int) : ℚ)) = w - ((truncToInt w : Int) : ℚ) := by
  obtain ⟨a, t, e, ha, ht⟩ := binary32_repr w hw
  rcases le_or_lt 0 t with h0 | h0
  · have ew : w = ((a * 2 ^ t.toNat : Int) : ℚ) := by
      rw [e, zpow_two_eq_natCast t h0]; push_cast; ring
    have : w - ((truncToInt w : Int) : ℚ) = 0 := by
      rw [ew, truncToInt_intCast]; ring
    rw [this]
    exact binary32_zero
  · obtain ⟨k, hk⟩ : ∃ k : Nat, t = -(k : Int) := ⟨(-t).toNat, by omega⟩
    have hpos : (0 : ℚ) < 2 ^ t := zpow_pos (by norm_num) t
    have hinv : ((2 ^ k : Int) : ℚ) * 2 ^ t = 1 := by
      rw [hk, zpow_neg, zpow_natCast]
      push_cast
      exact mul_inv_cancel₀ (pow_ne_zero _ (by norm_num))
    have ef : w - ((truncToInt w : Int) : ℚ) =
        ((a - truncToInt w * 2 ^ k : Int) : ℚ) * 2 ^ t := by
      have : ((a - truncToInt w * 2 ^ k : Int) : ℚ) * 2 ^ t =
          (a : ℚ) * 2 ^ t - (truncToInt w : ℚ) * (((2 ^ k : Int) : ℚ) * 2 ^ t) := by
        push_cast; ring
      rw [this, hinv, mul_one, ← e]
    refine binary32_of_scaled _ _ t ef ?_ ht
    have hcmp : ∀ x y : Int, (x : ℚ) * 2 ^ t ≤ (y : ℚ) * 2 ^ t → x ≤ y := by
      intro x y hxy
      exact_mod_cast le_of_mul_le_mul_right hxy hpos
    by_cases hs : 0 ≤ w
    · have hT : truncToInt w = ⌊w⌋ := by unfold truncToInt; rw [if_pos hs]
      have hT0 : (0 : ℚ) ≤ ((truncToInt w : Int) : ℚ) := by
        rw [hT]; exact_mod_cast Int.floor_nonneg.2 hs
      have hTle : ((truncToInt w : Int) : ℚ) ≤ w := by rw [hT]; exact Int.floor_le w
      have h1 : (0 : Int) ≤ a - truncToInt w * 2 ^ k := by
        apply hcmp
        rw [← ef]; push_cast; linarith
      have h2 : a - truncToInt w * 2 ^ k ≤ a := by
        apply hcmp
        rw [← ef, ← e]; linarith
      omega
    · have hneg : w < 0 := not_le.1 hs
      have hT : truncToInt w = ⌈w⌉ := by unfold truncToInt; rw [if_neg hs]
      have hT0 : ((truncToInt w : Int) : ℚ) ≤ 0 := by
        rw [hT]; exact_mod_cast Int.ceil_le.2 (by simpa using le_of_lt hneg)
      have hTle : w ≤ ((truncToInt w : Int) : ℚ) := by rw [hT]; exact Int.le_ceil w
      have h1 : a - truncToInt w * 2 ^ k ≤ 0 := by
        apply hcmp
        rw [← ef]; push_cast; linarith
      have h2 : a ≤ a - truncToInt w * 2 ^ k := by
        apply hcmp
        rw [← ef, ← e]; linarith
      omega

/-- The floor of the binary32 rounding of a number below 2^24 in magnitude lies between the
floor and the ceiling of the number: rounding never passes an integer. -/
theorem floor_binary32_bounds (x : ℚ) (hx : |x| < 2 ^ (24 : Int)) :
    ⌊x⌋ ≤ ⌊Machine.binary32 x⌋ ∧ ⌊Machine.binary32 x⌋ ≤ ⌈x⌉ := by
  by_cases h0 : x = 0
  · rw [h0, binary32_zero]; simp
  · unfold Machine.binary32
    rw [if_neg h0]
    dsimp only
    have hlog := log_le_of_lt_zpow x h0 24 hx
    have hu : max (Int.log 2 |x|) (-126) - 23 ≤ 0 := by
      rcases max_cases (Int.log 2 |x|) (-126) with ⟨e, -⟩ | ⟨e, -⟩ <;> rw [e] <;> omega
    generalize max (Int.log 2 |x|) (-126) - 23 = u at hu
    obtain ⟨k, hk⟩ : ∃ k : Nat, u = -(k : Int) := ⟨(-u).toNat, by omega⟩
    have hpos : (0 : ℚ) < ((2 ^ k : Int) : ℚ) := by positivity
    have hdiv : x / 2 ^ u = x * ((2 ^ k : Int) : ℚ) := by
      rw [hk, zpow_neg, zpow_natCast, div_inv_eq_mul]; push_cast; ring
    have hmul : ∀ R : Int, (R : ℚ) * 2 ^ u = (R : ℚ) / ((2 ^ k : Int) : ℚ) := by
      intro R
      rw [hk, zpow_neg, zpow_natCast, div_eq_mul_inv]; push_cast; ring
    rw [hdiv, hmul]
    obtain ⟨hb1, hb2⟩ := roundHalfEven_bounds (x * ((2 ^ k : Int) : ℚ))
    generalize Machine.roundHalfEven (x * ((2 ^ k : Int) : ℚ)) = R at hb1 hb2
    constructor
    · rw [Int.le_floor, le_div_iff₀ hpos]
      have h1 : ⌊x⌋ * 2 ^ k ≤ ⌊x * ((2 ^ k : Int) : ℚ)⌋ := by
        rw [Int.le_floor]
        push_cast
        exact mul_le_mul_of_nonneg_right (Int.floor_le x) (by positivity)
      have h2 : ⌊x⌋ * 2 ^ k ≤ R := le_trans h1 hb1
      exact_mod_cast h2
    · have h1 : ⌈x * ((2 ^ k : Int) : ℚ)⌉ ≤ ⌈x⌉ * 2 ^ k := by
        rw [Int.ceil_le]
        push_cast
        exact mul_le_mul_of_nonneg_right (Int.le_ceil x) (by positivity)
      have h2 : R ≤ ⌈x⌉ * 2 ^ k := le_trans hb2 h1
      have h3 : (R : ℚ) / ((2 ^ k : Int) : ℚ) ≤ (⌈x⌉ : ℚ) := by
        rw [div_le_iff₀ hpos]
        exact_mod_cast h2
      have h4 := Int.floor_le ((R : ℚ) / ((2 ^ k : Int) : ℚ))
      exact_mod_cast le_trans h4 h3

/-! ## The dates a 16-bit year can hold -/

theorem int16_of_range (y : Int) (h1 : -32768 ≤ y) (h2 : y ≤ 32767) : Machine.int16 y = y := by
  unfold Machine.int16
  omega

theorem firstDay_eq : Machine.firstDay = -12687794 := by decide

theorem lastDay_eq : Machine.lastDay = 11248737 := by decide

theorem year_of_range (z : Int) (h1 : Machine.firstDay ≤ z) (h2 : z ≤ Machine.lastDay) :
    -32768 ≤ (Date.ofSysDays z).year ∧ (Date.ofSysDays z).year ≤ 32767 := by
  rw [firstDay_eq] at h1
  rw [lastDay_eq] at h2
  have hz := sys_days_ofSysDays z
  obtain ⟨hm1, hm12, hd1, hd⟩ := ofSysDays_month_day_range z
  have hd31 : (Date.ofSysDays z).day ≤ 31 :=
    le_trans hd (last_day_of_month_le _ _)
  generalize Date.ofSysDays z = date at hz hm1 hm12 hd1 hd31
  obtain ⟨y, m, d⟩ := date
  simp only at hm1 hm12 hd1 hd31 ⊢
  rw [sys_days_eq_linear] at hz
  constructor
  · by_contra hcon
    have hy : y ≤ -32769 := by omega
    have h3 := year_days_lt (y - 1) (-32769) (by omega)
    rcases lt_or_eq_of_le hy with hlt | heq
    · have h4 := year_days_lt y (-32769) hlt
      split_ifs at hz <;> omega
    · subst heq
      split_ifs at hz <;> omega
  · by_contra hcon
    have hy : 32768 ≤ y := by omega
    have h3 := year_days_lt 32767 y (by omega)
    rcases lt_or_eq_of_le hy with hlt | heq
    · have h4 := year_days_lt 32767 (y - 1) (by omega)
      split_ifs at hz <;> omega
    · subst heq
      split_ifs at hz <;> omega

theorem machine_ofSysDays_of_range (z : Int) (h1 : Machine.firstDay ≤ z)
    (h2 : z ≤ Machine.lastDay) : Machine.ofSysDays z = Date.ofSysDays z := by
  obtain ⟨hy1, hy2⟩ := year_of_range z h1 h2
  unfold Machine.ofSysDays
  dsimp only
  rw [int16_of_range _ hy1 hy2]

theorem ok_bounds (date : Date) (hok : date.ok = true) :
    1 ≤ date.month ∧ date.month ≤ 12 ∧ 1 ≤ date.day ∧ date.day ≤ 31 := by
  simp only [Date.ok, month_ok, Bool.and_eq_true, decide_eq_true_eq] at hok
  have := last_day_of_month_le date.year date.month
  omega

theorem sys_days_range_of_ok (date : Date) (hok : date.ok = true)
    (hy1 : -32768 ≤ date.year) (hy2 : date.year ≤ 32767) :
    Machine.firstDay ≤ sys_days date ∧ sys_days date ≤ Machine.lastDay := by
  rw [firstDay_eq, lastDay_eq]
  obtain ⟨hm1, hm12, hd1, hd31⟩ := ok_bounds date hok
  obtain ⟨y, m, d⟩ := date
  simp only at hy1 hy2 hm1 hm12 hd1 hd31
  rw [sys_days_eq_linear]
  have h1 : y = -32768 ∨ -32768 < y := by omega
  have h2 : y = 32767 ∨ y < 32767 := by omega
  constructor
  · have h3 := year_days_lt (-32769) y (by omega)
    rcases h1 with rfl | h1
    · split_ifs <;> omega
    · have h4 := year_days_lt (-32769) (y - 1) (by omega)
      split_ifs <;> omega
  · have h3 := year_days_lt (y - 1) 32767 (by omega)
    rcases h2 with rfl | h2
    · split_ifs <;> omega
    · have h4 := year_days_lt y 32767 h2
      split_ifs <;> omega

theorem machine_ofSysDays_sys_days (date : Date) (hok : date.ok = true)
    (hy1 : -32768 ≤ date.year) (hy2 : date.year ≤ 32767) :
    Machine.ofSysDays (sys_days date) = date := by
  obtain ⟨h1, h2⟩ := sys_days_range_of_ok date hok hy1 hy2
  rw [machine_ofSysDays_of_range _ h1 h2, ofSysDays_sys_days _ hok]

/-! ## The two loops with the 16-bit year -/

theorem machine_clampStartDateLoop_eq_some_iff (inc : Int) (h : Holidays) (fuel : Nat) :
    ∀ (tp tp' : Int),
      Machine.clampStartDateLoop inc h fuel tp (Machine.ofSysDays (floor_days tp)) = some tp' ↔
      ∃ k : Nat, k ≤ fuel ∧ tp' = tp + inc * 1440 * (k : Int) ∧
        isWorkday h (Machine.ofSysDays (floor_days tp + inc * (k : Int))) = true ∧
        ∀ j : Nat, j < k → isWorkday h (Machine.ofSysDays (floor_days tp + inc * (j : Int))) = false := by
  induction fuel with
  | zero =>
    intro tp tp'
    rw [Machine.clampStartDateLoop, loop_cond_eq]
    cases hw : isWorkday h (Machine.ofSysDays (floor_days tp))
    · simp only [Bool.not_false, if_true]
      constructor
      · intro hc; cases hc
      · rintro ⟨k, hk, -, hwk, -⟩
        have : k = 0 := by omega
        subst this
        simp [hw] at hwk
    · simp only [Bool.not_true, Bool.false_eq_true, if_false, Option.some.injEq]
      constructor
      · intro e
        exact ⟨0, le_refl _, by simp [e], by simpa using hw, by intro j hj; omega⟩
      · rintro ⟨k, hk, e, -, -⟩
        have : k = 0 := by omega
        subst this
        simpa using e.symm
  | succ fuel ih =>
    intro tp tp'
    rw [Machine.clampStartDateLoop, loop_cond_eq]
    cases hw : isWorkday h (Machine.ofSysDays (floor_days tp))
    · simp only [Bool.not_false, if_true]
      rw [ih (tp + inc * 1440) tp', floor_days_add]
      constructor
      · rintro ⟨k, hk, e, hwk, hlt⟩
        refine ⟨k + 1, by omega, ?_, ?_, ?_⟩
        · rw [e]; push_cast; ring
        · rw [← hwk]; congr 2; push_cast; ring
        · intro j hj
          cases j with
          | zero => simpa using hw
          | succ j =>
            rw [← hlt j (by omega)]; congr 2; push_cast; ring
      · rintro ⟨k, hk, e, hwk, hlt⟩
        cases k with
        | zero => simp [hw] at hwk
        | succ k =>
          refine ⟨k, by omega, ?_, ?_, ?_⟩
          · rw [e]; push_cast; ring
          · rw [← hwk]; congr 2; push_cast; ring
          · intro j hj
            rw [← hlt (j + 1) (by omega)]; congr 2; push_cast; ring
    · simp only [Bool.not_true, Bool.false_eq_true, if_false, Option.some.injEq]
      constructor
      · intro e
        exact ⟨0, Nat.zero_le _, by simp [e], by simpa using hw, by intro j hj; omega⟩
      · rintro ⟨k, hk, e, -, hlt⟩
        cases k with
        | zero => simpa using e.symm
        | succ k =>
          have := hlt 0 (by omega)
          simp [hw] at this

theorem machine_countWorkdays_shift (h : Holidays) (z inc : Int) (k : Nat) :
    Machine.countWorkdays h z inc (k + 1) =
      (if isWorkday h (Machine.ofSysDays (z + inc)) then 1 else 0) +
        Machine.countWorkdays h (z + inc) inc k := by
  induction k with
  | zero => simp [Machine.countWorkdays]
  | succ k ih =>
    have e : z + inc * ((k + 1 + 1 : Nat) : Int) = z + inc + inc * ((k + 1 : Nat) : Int) := by
      push_cast; ring
    rw [Machine.countWorkdays, ih, Machine.countWorkdays, Nat.add_assoc, e]

theorem machine_countWorkdays_pos (h : Holidays) (z inc : Int) (k : Nat)
    (hw : isWorkday h (Machine.ofSysDays (z + inc * ((k + 1 : Nat) : Int))) = true) :
    0 < Machine.countWorkdays h z inc (k + 1) := by
  rw [Machine.countWorkdays, hw]; simp

theorem machine_calculateEndDateLoop_eq_some_iff (inc : Int) (h : Holidays)
    (hinc : inc = 1 ∨ inc = -1) (fuel : Nat) :
    ∀ (tp : Int) (cnt : Nat) (cur r : Date),
      Machine.calculateEndDateLoop inc h fuel tp (inc * (cnt : Int)) cur = some r ↔
      (cnt = 0 ∧ r = cur) ∨
      (0 < cnt ∧ ∃ k : Nat, 1 ≤ k ∧ k ≤ fuel ∧
        r = Machine.ofSysDays (floor_days tp + inc * (k : Int)) ∧
        isWorkday h (Machine.ofSysDays (floor_days tp + inc * (k : Int))) = true ∧
        Machine.countWorkdays h (floor_days tp) inc k = cnt) := by
  have hne : ∀ cnt : Nat, inc * (cnt : Int) ≠ 0 ↔ cnt ≠ 0 := by
    intro cnt
    rcases hinc with rfl | rfl <;> omega
  induction fuel with
  | zero =>
    intro tp cnt cur r
    rw [Machine.calculateEndDateLoop]
    by_cases hc : cnt = 0
    · subst hc
      simp only [Nat.cast_zero, mul_zero, ne_eq, not_true_eq_false, if_false,
        Option.some.injEq, true_and, lt_self_iff_false, false_and, or_false]
      exact eq_comm
    · rw [if_pos ((hne cnt).2 hc)]
      constructor
      · intro h0; cases h0
      · rintro (⟨h0, -⟩ | ⟨-, k, hk1, hk0, -⟩)
        · exact absurd h0 hc
        · omega
  | succ fuel ih =>
    intro tp cnt cur r
    rw [Machine.calculateEndDateLoop]
    by_cases hc : cnt = 0
    · subst hc
      simp only [Nat.cast_zero, mul_zero, ne_eq, not_true_eq_false, if_false,
        Option.some.injEq, true_and, lt_self_iff_false, false_and, or_false]
      exact eq_comm
    · rw [if_pos ((hne cnt).2 hc)]
      simp only [floor_days_add, loop_cond_eq]
      have hcpos : 0 < cnt := Nat.pos_of_ne_zero hc
      cases hw : isWorkday h (Machine.ofSysDays (floor_days tp + inc))
      · simp only [Bool.not_false, if_true]
        rw [ih (tp + inc * 1440) cnt, floor_days_add]
        constructor
        · rintro (⟨h0, -⟩ | ⟨-, k, hk1, hk, e, hwk, hcount⟩)
          · exact absurd h0 hc
          · refine Or.inr ⟨hcpos, k + 1, by omega, by omega, ?_, ?_, ?_⟩
            · rw [e]; congr 1; push_cast; ring
            · rw [← hwk]; congr 2; push_cast; ring
            · rw [machine_countWorkdays_shift, hw]; simpa using hcount
        · rintro (⟨h0, -⟩ | ⟨-, k, hk1, hk, e, hwk, hcount⟩)
          · exact absurd h0 hc
          · cases k with
            | zero => omega
            | succ k =>
              cases k with
              | zero => simp [hw] at hwk
              | succ k =>
                refine Or.inr ⟨hcpos, k + 1, by omega, by omega, ?_, ?_, ?_⟩
                · rw [e]; congr 1; push_cast; ring
                · rw [← hwk]; congr 2; push_cast; ring
                · rw [machine_countWorkdays_shift, hw] at hcount; simpa using hcount
      · simp only [Bool.not_true, Bool.false_eq_true, if_false]
        have hsub : inc * (cnt : Int) - inc = inc * ((cnt - 1 : Nat) : Int) := by
          rw [Nat.cast_sub hcpos]; push_cast; ring
        rw [hsub, ih (tp + inc * 1440) (cnt - 1), floor_days_add]
        constructor
        · rintro (⟨h0, e⟩ | ⟨hpos, k, hk1, hk, e, hwk, hcount⟩)
          · refine Or.inr ⟨hcpos, 1, le_refl _, by omega, ?_, ?_, ?_⟩
            · rw [e]; simp
            · simpa using hw
            · simp [Machine.countWorkdays, hw]; omega
          · refine Or.inr ⟨hcpos, k + 1, by omega, by omega, ?_, ?_, ?_⟩
            · rw [e]; congr 1; push_cast; ring
            · rw [← hwk]; congr 2; push_cast; ring
            · rw [machine_countWorkdays_shift, hw, hcount]; simp; omega
        · rintro (⟨h0, -⟩ | ⟨-, k, hk1, hk, e, hwk, hcount⟩)
          · exact absurd h0 hc
          · cases k with
            | zero => omega
            | succ k =>
              rw [machine_countWorkdays_shift, hw] at hcount
              cases k with
              | zero =>
                refine Or.inl ⟨?_, ?_⟩
                · simp [Machine.countWorkdays] at hcount; omega
                · rw [e]; simp
              | succ k =>
                have hwk' : isWorkday h (Machine.ofSysDays
                    (floor_days tp + inc + inc * ((k + 1 : Nat) : Int))) = true := by
                  rw [← hwk]; congr 2; push_cast; ring
                have hp := machine_countWorkdays_pos h (floor_days tp + inc) inc k hwk'
                refine Or.inr ⟨by simp at hcount; omega, k + 1, by omega, by omega, ?_, hwk', ?_⟩
                · rw [e]; congr 1; push_cast; ring
                · simp at hcount; omega

theorem machine_countWorkdays_eq_zero (h : Holidays) (z inc : Int) (m : Nat)
    (hno : ∀ j : Nat, 1 ≤ j → j ≤ m →
      isWorkday h (Machine.ofSysDays (z + inc * (j : Int))) = false) :
    Machine.countWorkdays h z inc m = 0 := by
  induction m with
  | zero => rfl
  | succ m ih =>
    rw [Machine.countWorkdays, ih (fun j h1 h2 => hno j h1 (by omega)),
      hno (m + 1) (by omega) (le_refl _)]
    simp

theorem machine_countWorkdays_add (h : Holidays) (z inc : Int) (a b : Nat) :
    Machine.countWorkdays h z inc (a + b) =
      Machine.countWorkdays h z inc a + Machine.countWorkdays h (z + inc * (a : Int)) inc b := by
  induction b with
  | zero => simp [Machine.countWorkdays]
  | succ b ih =>
    have e : z + inc * ((a + (b + 1) : Nat) : Int) =
        z + inc * (a : Int) + inc * ((b + 1 : Nat) : Int) := by
      push_cast; ring
    rw [← Nat.add_assoc, Machine.countWorkdays, ih, Machine.countWorkdays, Nat.add_assoc, Nat.add_assoc a b 1,
      e]

theorem machine_countWorkdays_le_add (h : Holidays) (z inc : Int) (a b : Nat) :
    Machine.countWorkdays h z inc a ≤ Machine.countWorkdays h z inc (a + b) := by
  rw [machine_countWorkdays_add]; exact Nat.le_add_right _ _

theorem machine_countWorkdays_succ_le (h : Holidays) (z inc : Int) (k : Nat) :
    Machine.countWorkdays h z inc (k + 1) ≤ Machine.countWorkdays h z inc k + 1 := by
  rw [Machine.countWorkdays]
  split_ifs <;> omega

theorem machine_countWorkdays_reaches (h : Holidays) (z inc : Int) (n : Nat) (hn : 1 ≤ n) :
    ∀ K : Nat, n ≤ Machine.countWorkdays h z inc K →
      ∃ k : Nat, 1 ≤ k ∧ k ≤ K ∧
        isWorkday h (Machine.ofSysDays (z + inc * (k : Int))) = true ∧
        Machine.countWorkdays h z inc k = n := by
  intro K
  induction K with
  | zero => intro hK; simp only [Machine.countWorkdays] at hK; omega
  | succ K ih =>
    intro hK
    by_cases hprev : n ≤ Machine.countWorkdays h z inc K
    · obtain ⟨k, h1, h2, h3, h4⟩ := ih hprev
      exact ⟨k, h1, by omega, h3, h4⟩
    · have hs := machine_countWorkdays_succ_le h z inc K
      refine ⟨K + 1, by omega, le_refl _, ?_, by omega⟩
      cases hw : isWorkday h (Machine.ofSysDays (z + inc * ((K + 1 : Nat) : Int)))
      · rw [Machine.countWorkdays, hw] at hK
        simp only [Bool.false_eq_true, if_false] at hK
        omega
      · rfl

theorem machine_countWorkdays_lt_of_workday (h : Holidays) (z inc : Int) (k k' : Nat)
    (hk : k' < k) (hw : isWorkday h (Machine.ofSysDays (z + inc * (k : Int))) = true) :
    Machine.countWorkdays h z inc k' < Machine.countWorkdays h z inc k := by
  obtain ⟨m, rfl⟩ : ∃ m, k = m + 1 := ⟨k - 1, by omega⟩
  have h1 := machine_countWorkdays_le_add h z inc k' (m - k')
  rw [show k' + (m - k') = m by omega] at h1
  have h2 := machine_countWorkdays_pos h z inc m hw
  have h3 : Machine.countWorkdays h z inc (m + 1) = Machine.countWorkdays h z inc m + 1 := by
    rw [Machine.countWorkdays, hw]; simp
  omega

/-! ## Characterisation of `Machine.getWorkdayIncrement` -/

theorem machine_getWorkdayIncrement_eq_some_iff (cfg : WorkdayCalendar) (fuel : Nat)
    (start : DateTime) (w : ℚ) (r : DateTime) :
    Machine.getWorkdayIncrement cfg fuel start w = some r ↔
      ∃ k0 : Nat, k0 ≤ fuel ∧
        isWorkday cfg.holidays (Machine.ofSysDays
          (floor_days (Machine.endTime cfg start w).2 + calculateIncrement w * (k0 : Int))) = true ∧
        (∀ j : Nat, j < k0 → isWorkday cfg.holidays (Machine.ofSysDays
          (floor_days (Machine.endTime cfg start w).2 + calculateIncrement w * (j : Int))) = false) ∧
        r.time = (Machine.endTime cfg start w).1 ∧
        (((truncToInt w).natAbs = 0 ∧ r.date = Machine.ofSysDays
            (floor_days (Machine.endTime cfg start w).2 + calculateIncrement w * (k0 : Int))) ∨
          (0 < (truncToInt w).natAbs ∧ ∃ k : Nat, 1 ≤ k ∧ k ≤ fuel ∧
            r.date = Machine.ofSysDays (floor_days (Machine.endTime cfg start w).2 +
              calculateIncrement w * (k0 : Int) + calculateIncrement w * (k : Int)) ∧
            isWorkday cfg.holidays (Machine.ofSysDays (floor_days (Machine.endTime cfg start w).2 +
              calculateIncrement w * (k0 : Int) + calculateIncrement w * (k : Int))) = true ∧
            Machine.countWorkdays cfg.holidays (floor_days (Machine.endTime cfg start w).2 +
              calculateIncrement w * (k0 : Int)) (calculateIncrement w) k =
                (truncToInt w).natAbs)) := by
  have hfl : ∀ k0 : Nat, floor_days ((Machine.endTime cfg start w).2 +
      calculateIncrement w * 1440 * (k0 : Int)) =
      floor_days (Machine.endTime cfg start w).2 + calculateIncrement w * (k0 : Int) := by
    intro k0
    rw [show calculateIncrement w * 1440 * (k0 : Int) =
      (calculateIncrement w * (k0 : Int)) * 1440 by ring, floor_days_add]
  have hloop := fun tp r => machine_calculateEndDateLoop_eq_some_iff (calculateIncrement w)
    cfg.holidays (calculateIncrement_cases w) fuel tp (truncToInt w).natAbs
    (Machine.ofSysDays (floor_days tp)) r
  unfold Machine.getWorkdayIncrement
  change (match Machine.clampStartDateLoop (calculateIncrement w) cfg.holidays fuel
      (Machine.endTime cfg start w).2 (Machine.ofSysDays (floor_days (Machine.endTime cfg start w).2)) with
    | none => none
    | some timePoint =>
      match Machine.calculateEndDateLoop (calculateIncrement w) cfg.holidays fuel timePoint
          (truncToInt w) (Machine.ofSysDays (floor_days timePoint)) with
      | none => none
      | some date => some { date := date, time := (Machine.endTime cfg start w).1 }) = some r ↔ _
  have htr := truncToInt_eq w
  generalize (truncToInt w).natAbs = cnt at htr hloop ⊢
  rw [htr]
  constructor
  · intro hres
    cases hc : Machine.clampStartDateLoop (calculateIncrement w) cfg.holidays fuel
        (Machine.endTime cfg start w).2 (Machine.ofSysDays (floor_days (Machine.endTime cfg start w).2)) with
    | none => rw [hc] at hres; cases hres
    | some tp =>
      rw [hc] at hres
      simp only at hres
      obtain ⟨k0, hk0, e, hw, hlt⟩ := (machine_clampStartDateLoop_eq_some_iff _ _ _ _ _).1 hc
      cases hd : Machine.calculateEndDateLoop (calculateIncrement w) cfg.holidays fuel tp
          (calculateIncrement w * (cnt : Int))
          (Machine.ofSysDays (floor_days tp)) with
      | none => rw [hd] at hres; cases hres
      | some date =>
        rw [hd] at hres
        simp only [Option.some.injEq] at hres
        subst hres
        have hd' := (hloop tp date).1 hd
        rw [e, hfl] at hd'
        exact ⟨k0, hk0, hw, hlt, rfl, hd'⟩
  · rintro ⟨k0, hk0, hw, hlt, ht, hd⟩
    have hc := (machine_clampStartDateLoop_eq_some_iff (calculateIncrement w) cfg.holidays fuel
      (Machine.endTime cfg start w).2 ((Machine.endTime cfg start w).2 +
        calculateIncrement w * 1440 * (k0 : Int))).2 ⟨k0, hk0, rfl, hw, hlt⟩
    rw [hc]
    simp only
    have hd' := (hloop ((Machine.endTime cfg start w).2 + calculateIncrement w * 1440 * (k0 : Int))
      r.date).2 (by rw [hfl]; exact hd)
    rw [hd']
    simp only [Option.some.injEq]
    rw [← ht]

theorem machine_getWorkdayIncrement_mono (cfg : WorkdayCalendar) (fuel fuel' : Nat) (start : DateTime)
    (w : ℚ) (r : DateTime) (hle : fuel ≤ fuel')
    (h : Machine.getWorkdayIncrement cfg fuel start w = some r) :
    Machine.getWorkdayIncrement cfg fuel' start w = some r := by
  rw [machine_getWorkdayIncrement_eq_some_iff] at h ⊢
  obtain ⟨k0, hk0, hw, hlt, ht, hd⟩ := h
  refine ⟨k0, by omega, hw, hlt, ht, ?_⟩
  rcases hd with hd | ⟨hpos, k, hk1, hk, hd⟩
  · exact Or.inl hd
  · exact Or.inr ⟨hpos, k, hk1, by omega, hd⟩

theorem machine_getWorkdayIncrement_unique (cfg : WorkdayCalendar) (fuel fuel' : Nat)
    (start : DateTime) (w : ℚ) (r r' : DateTime)
    (h : Machine.getWorkdayIncrement cfg fuel start w = some r)
    (h' : Machine.getWorkdayIncrement cfg fuel' start w = some r') : r' = r := by
  have h1 := machine_getWorkdayIncrement_mono cfg fuel (max fuel fuel') start w r (le_max_left _ _) h
  have h2 := machine_getWorkdayIncrement_mono cfg fuel' (max fuel fuel') start w r' (le_max_right _ _) h'
  rw [h1] at h2
  exact (Option.some.inj h2).symm

theorem machine_getWorkdayIncrement_isWorkday (cfg : WorkdayCalendar) (fuel : Nat) (start : DateTime)
    (w : ℚ) (r : DateTime) (h : Machine.getWorkdayIncrement cfg fuel start w = some r) :
    isWorkday cfg.holidays r.date = true := by
  obtain ⟨k0, -, hw, -, -, hd⟩ := (machine_getWorkdayIncrement_eq_some_iff cfg fuel start w r).1 h
  rcases hd with ⟨-, e⟩ | ⟨-, k, -, -, e, hwk, -⟩
  · rw [e]; exact hw
  · rw [e]; exact hwk

/-! ## The time of day with binary32 arithmetic -/

theorem machine_endTime_of_within (cfg : WorkdayCalendar) (start : DateTime) (w : ℚ)
    (hlo : cfg.start_.to_duration ≤
      clampStartTime (Machine.calculateTimeDuration start.time w cfg.start_ cfg.stop_) +
        (Machine.calculateTimeDuration start.time w cfg.start_ cfg.stop_).increment)
    (hhi : clampStartTime (Machine.calculateTimeDuration start.time w cfg.start_ cfg.stop_) +
        (Machine.calculateTimeDuration start.time w cfg.start_ cfg.stop_).increment ≤
      cfg.stop_.to_duration) :
    Machine.endTime cfg start w =
      ({ count := clampStartTime (Machine.calculateTimeDuration start.time w cfg.start_ cfg.stop_) +
          (Machine.calculateTimeDuration start.time w cfg.start_ cfg.stop_).increment },
        makeTimepoint start) := by
  unfold Machine.endTime calculateEndTime
  have h1 : (Machine.calculateTimeDuration start.time w cfg.start_ cfg.stop_).startWorkday =
      cfg.start_.to_duration := rfl
  have h2 : (Machine.calculateTimeDuration start.time w cfg.start_ cfg.stop_).stopWorkday =
      cfg.stop_.to_duration := rfl
  simp only [h1, h2]
  rw [if_neg (by omega), if_neg (by omega)]

theorem machine_endTime_of_under (cfg : WorkdayCalendar) (start : DateTime) (w : ℚ)
    (hlo : clampStartTime (Machine.calculateTimeDuration start.time w cfg.start_ cfg.stop_) +
        (Machine.calculateTimeDuration start.time w cfg.start_ cfg.stop_).increment <
      cfg.start_.to_duration) :
    Machine.endTime cfg start w =
      ({ count := cfg.stop_.to_duration - (cfg.start_.to_duration -
          (clampStartTime (Machine.calculateTimeDuration start.time w cfg.start_ cfg.stop_) +
            (Machine.calculateTimeDuration start.time w cfg.start_ cfg.stop_).increment)) },
        makeTimepoint start - 1440) := by
  unfold Machine.endTime calculateEndTime
  have h1 : (Machine.calculateTimeDuration start.time w cfg.start_ cfg.stop_).startWorkday =
      cfg.start_.to_duration := rfl
  have h2 : (Machine.calculateTimeDuration start.time w cfg.start_ cfg.stop_).stopWorkday =
      cfg.stop_.to_duration := rfl
  simp only [h1, h2]
  rw [if_pos hlo]
  simp

theorem machine_endTime_of_over (cfg : WorkdayCalendar) (start : DateTime) (w : ℚ)
    (hlo : cfg.start_.to_duration ≤
      clampStartTime (Machine.calculateTimeDuration start.time w cfg.start_ cfg.stop_) +
        (Machine.calculateTimeDuration start.time w cfg.start_ cfg.stop_).increment)
    (hhi : cfg.stop_.to_duration <
      clampStartTime (Machine.calculateTimeDuration start.time w cfg.start_ cfg.stop_) +
        (Machine.calculateTimeDuration start.time w cfg.start_ cfg.stop_).increment) :
    Machine.endTime cfg start w =
      ({ count := cfg.start_.to_duration +
          (clampStartTime (Machine.calculateTimeDuration start.time w cfg.start_ cfg.stop_) +
            (Machine.calculateTimeDuration start.time w cfg.start_ cfg.stop_).increment -
              cfg.stop_.to_duration) },
        makeTimepoint start + 1440) := by
  unfold Machine.endTime calculateEndTime
  have h1 : (Machine.calculateTimeDuration start.time w cfg.start_ cfg.stop_).startWorkday =
      cfg.start_.to_duration := rfl
  have h2 : (Machine.calculateTimeDuration start.time w cfg.start_ cfg.stop_).stopWorkday =
      cfg.stop_.to_duration := rfl
  simp only [h1, h2]
  rw [if_neg (by omega), if_pos (by omega)]
  simp

theorem machine_increment_of_intCast (t s e : Time) (N : Int) (hN : N.natAbs ≤ 2 ^ 24) :
    (Machine.calculateTimeDuration t (N : ℚ) s e).increment = 0 := by
  unfold Machine.calculateTimeDuration
  simp only [truncToInt_intCast, binary32_intCast N hN, sub_self, binary32_zero, mul_zero,
    Int.floor_zero]

theorem machine_increment_eq (t s e : Time) (w : ℚ) (hw : Machine.binary32 w = w) :
    (Machine.calculateTimeDuration t w s e).increment =
      ⌊Machine.binary32 (Machine.binary32 ((e.to_duration - s.to_duration : Int) : ℚ) *
        (w - ((truncToInt w : Int) : ℚ)))⌋ := by
  unfold Machine.calculateTimeDuration
  simp only [binary32_truncToInt w hw, binary32_fraction w hw]

theorem machine_increment_of_abs_lt_one (t s e : Time) (w : ℚ) (h : |w| < 1)
    (hw : Machine.binary32 w = w) :
    (Machine.calculateTimeDuration t w s e).increment =
      ⌊Machine.binary32 (Machine.binary32 ((e.to_duration - s.to_duration : Int) : ℚ) * w)⌋ := by
  rw [machine_increment_eq t s e w hw, truncToInt_zero_of_abs_lt_one w h]
  simp

theorem machine_endTime_of_intCast (cfg : WorkdayCalendar) (start : DateTime) (N : Int)
    (hN : N.natAbs ≤ 2 ^ 24) :
    Machine.endTime cfg start (N : ℚ) = cfg.endTime start (N : ℚ) := by
  have h0 := machine_increment_of_intCast start.time cfg.start_ cfg.stop_ N hN
  have h1 := increment_of_intCast start.time cfg.start_ cfg.stop_ N
  unfold Machine.endTime WorkdayCalendar.endTime
  have e : Machine.calculateTimeDuration start.time (N : ℚ) cfg.start_ cfg.stop_ =
      calculateTimeDuration start.time (N : ℚ) cfg.start_ cfg.stop_ := by
    have e1 : Machine.calculateTimeDuration start.time (N : ℚ) cfg.start_ cfg.stop_ =
        { workDay := cfg.stop_.to_duration - cfg.start_.to_duration
          increment := (Machine.calculateTimeDuration start.time (N : ℚ) cfg.start_
            cfg.stop_).increment
          startWorkday := cfg.start_.to_duration
          stopWorkday := cfg.stop_.to_duration
          inputTime := start.time.to_duration } := rfl
    have e2 : calculateTimeDuration start.time (N : ℚ) cfg.start_ cfg.stop_ =
        { workDay := cfg.stop_.to_duration - cfg.start_.to_duration
          increment := (calculateTimeDuration start.time (N : ℚ) cfg.start_
            cfg.stop_).increment
          startWorkday := cfg.start_.to_duration
          stopWorkday := cfg.stop_.to_duration
          inputTime := start.time.to_duration } := rfl
    rw [e1, e2, h0, h1]
  rw [e]

theorem machine_getWorkdayIncrement_eq_incrementFrom (cfg : WorkdayCalendar) (fuel : Nat)
    (start : DateTime) (w : ℚ) (inc n m : Int) (hinc : calculateIncrement w = inc)
    (hn : truncToInt w = n)
    (hm : (Machine.calculateTimeDuration start.time w cfg.start_ cfg.stop_).increment = m) :
    Machine.getWorkdayIncrement cfg fuel start w = Machine.incrementFrom cfg fuel start inc n m := by
  subst hinc hn hm
  rfl

/-! ## Evaluation of binary32 roundings -/

theorem roundHalfEven_eq (x : ℚ) (n : Int) (h1 : (n : ℚ) - 1 / 2 < x) (h2 : x < (n : ℚ) + 1 / 2) :
    Machine.roundHalfEven x = n := by
  unfold Machine.roundHalfEven
  rcases le_or_lt (n : ℚ) x with h | h
  · have hf : ⌊x⌋ = n := by
      rw [Int.floor_eq_iff]; exact ⟨h, by linarith⟩
    rw [hf, if_pos (by linarith)]
  · have hf : ⌊x⌋ = n - 1 := by
      rw [Int.floor_eq_iff]; push_cast; exact ⟨by linarith, by linarith⟩
    rw [hf, if_neg (by push_cast; linarith), if_pos (by push_cast; linarith)]
    omega

theorem binary32_eq (q : ℚ) (e n : Int) (hq : q ≠ 0) (h1 : (2 : ℚ) ^ e ≤ |q|)
    (h2 : |q| < (2 : ℚ) ^ (e + 1)) (he : -126 ≤ e)
    (hn : Machine.roundHalfEven (q / 2 ^ (e - 23)) = n) :
    Machine.binary32 q = (n : ℚ) * 2 ^ (e - 23) := by
  have hlog : Int.log 2 |q| = e := by
    have a := le_log_of_zpow_le q hq e h1
    have b := log_le_of_lt_zpow q hq (e + 1) h2
    omega
  unfold Machine.binary32
  rw [if_neg hq]
  dsimp only
  rw [hlog, max_eq_left he, hn]

theorem machine_eval_intCast (cfg : WorkdayCalendar) (fuel : Nat) (start : DateTime) (N : Int)
    (hN : N.natAbs ≤ 2 ^ 24) :
    Machine.getWorkdayIncrement cfg fuel start (N : ℚ) =
      Machine.incrementFrom cfg fuel start (calculateIncrement (N : ℚ)) N 0 :=
  machine_getWorkdayIncrement_eq_incrementFrom cfg fuel start _ _ N 0 rfl (truncToInt_intCast N)
    (machine_increment_of_intCast _ _ _ N hN)

theorem machine_eval_one (cfg : WorkdayCalendar) (fuel : Nat) (start : DateTime) :
    Machine.getWorkdayIncrement cfg fuel start 1 = Machine.incrementFrom cfg fuel start 1 1 0 := by
  have h := machine_eval_intCast cfg fuel start 1 (by decide)
  rw [Int.cast_one, calculateIncrement_of_nonneg 1 (by norm_num)] at h
  exact h

theorem machine_eval_zero (cfg : WorkdayCalendar) (fuel : Nat) (start : DateTime) :
    Machine.getWorkdayIncrement cfg fuel start 0 = Machine.incrementFrom cfg fuel start 1 0 0 := by
  have h := machine_eval_intCast cfg fuel start 0 (by decide)
  rw [Int.cast_zero, calculateIncrement_of_nonneg 0 (le_refl _)] at h
  exact h

/-! ## Runs that stay within the dates a 16-bit year can hold -/

theorem machine_isWorkday_of_range (h : Holidays) (z : Int) (h1 : Machine.firstDay ≤ z)
    (h2 : z ≤ Machine.lastDay) :
    isWorkday h (Machine.ofSysDays z) = isWorkday h (Date.ofSysDays z) := by
  rw [machine_ofSysDays_of_range z h1 h2]

theorem machine_countWorkdays_of_range (h : Holidays) (z inc : Int) (k : Nat)
    (hr : ∀ j : Nat, 1 ≤ j → j ≤ k →
      Machine.firstDay ≤ z + inc * (j : Int) ∧ z + inc * (j : Int) ≤ Machine.lastDay) :
    Machine.countWorkdays h z inc k = countWorkdays h z inc k := by
  induction k with
  | zero => rfl
  | succ k ih =>
    obtain ⟨h1, h2⟩ := hr (k + 1) (by omega) (le_refl _)
    rw [Machine.countWorkdays, countWorkdays, ih (fun j a b => hr j a (by omega)),
      machine_isWorkday_of_range h _ h1 h2]

theorem range_between (Z inc : Int) (hinc : inc = 1 ∨ inc = -1) (n j : Nat) (hj : j ≤ n)
    (hZ1 : Machine.firstDay ≤ Z) (hZ2 : Z ≤ Machine.lastDay)
    (hE1 : Machine.firstDay ≤ Z + inc * (n : Int)) (hE2 : Z + inc * (n : Int) ≤ Machine.lastDay) :
    Machine.firstDay ≤ Z + inc * (j : Int) ∧ Z + inc * (j : Int) ≤ Machine.lastDay := by
  rcases hinc with rfl | rfl <;> omega

/-- A run of the two loops described on unbounded dates, whose first and last day lie within
the dates a 16-bit year can hold, is the run of the machine loops. -/
theorem machine_result_of_steps (cfg : WorkdayCalendar) (fuel : Nat) (start : DateTime) (w : ℚ)
    (k0 k : Nat) (hk0 : k0 ≤ fuel) (hk : k ≤ fuel)
    (hZ1 : Machine.firstDay ≤ floor_days (Machine.endTime cfg start w).2)
    (hZ2 : floor_days (Machine.endTime cfg start w).2 ≤ Machine.lastDay)
    (hE1 : Machine.firstDay ≤ floor_days (Machine.endTime cfg start w).2 +
      calculateIncrement w * ((k0 + k : Nat) : Int))
    (hE2 : floor_days (Machine.endTime cfg start w).2 +
      calculateIncrement w * ((k0 + k : Nat) : Int) ≤ Machine.lastDay)
    (hw0 : isWorkday cfg.holidays (Date.ofSysDays
      (floor_days (Machine.endTime cfg start w).2 + calculateIncrement w * (k0 : Int))) = true)
    (hlt : ∀ j : Nat, j < k0 → isWorkday cfg.holidays (Date.ofSysDays
      (floor_days (Machine.endTime cfg start w).2 + calculateIncrement w * (j : Int))) = false)
    (hcase : ((truncToInt w).natAbs = 0 ∧ k = 0) ∨
      (0 < (truncToInt w).natAbs ∧ 1 ≤ k ∧
        isWorkday cfg.holidays (Date.ofSysDays (floor_days (Machine.endTime cfg start w).2 +
          calculateIncrement w * (k0 : Int) + calculateIncrement w * (k : Int))) = true ∧
        countWorkdays cfg.holidays (floor_days (Machine.endTime cfg start w).2 +
          calculateIncrement w * (k0 : Int)) (calculateIncrement w) k =
            (truncToInt w).natAbs)) :
    Machine.getWorkdayIncrement cfg fuel start w =
      some ⟨Date.ofSysDays (floor_days (Machine.endTime cfg start w).2 +
        calculateIncrement w * (k0 : Int) + calculateIncrement w * (k : Int)),
        (Machine.endTime cfg start w).1⟩ := by
  have hinc := calculateIncrement_cases w
  generalize hZ : floor_days (Machine.endTime cfg start w).2 = Z at hZ1 hZ2 hE1 hE2 hw0 hlt hcase
  have hr : ∀ j : Nat, j ≤ k0 + k →
      Machine.firstDay ≤ Z + calculateIncrement w * (j : Int) ∧
        Z + calculateIncrement w * (j : Int) ≤ Machine.lastDay :=
    fun j hj => range_between Z _ hinc (k0 + k) j hj hZ1 hZ2 hE1 hE2
  rw [machine_getWorkdayIncrement_eq_some_iff, hZ]
  refine ⟨k0, hk0, ?_, ?_, rfl, ?_⟩
  · rw [machine_isWorkday_of_range _ _ (hr k0 (by omega)).1 (hr k0 (by omega)).2]
    exact hw0
  · intro j hj
    rw [machine_isWorkday_of_range _ _ (hr j (by omega)).1 (hr j (by omega)).2]
    exact hlt j hj
  · have hr2 : ∀ j : Nat, j ≤ k →
        Machine.firstDay ≤ Z + calculateIncrement w * (k0 : Int) +
          calculateIncrement w * (j : Int) ∧
        Z + calculateIncrement w * (k0 : Int) + calculateIncrement w * (j : Int) ≤
          Machine.lastDay := by
      intro j hj
      have := hr (k0 + j) (by omega)
      have e : Z + calculateIncrement w * ((k0 + j : Nat) : Int) =
          Z + calculateIncrement w * (k0 : Int) + calculateIncrement w * (j : Int) := by
        push_cast; ring
      rwa [e] at this
    rcases hcase with ⟨h0, rfl⟩ | ⟨hpos, hk1, hwk, hc⟩
    · refine Or.inl ⟨h0, ?_⟩
      simp only [Nat.cast_zero, mul_zero, add_zero]
      rw [machine_ofSysDays_of_range _ (hr k0 (by omega)).1 (hr k0 (by omega)).2]
    · refine Or.inr ⟨hpos, k, hk1, hk, ?_, ?_, ?_⟩
      · rw [machine_ofSysDays_of_range _ (hr2 k (le_refl _)).1 (hr2 k (le_refl _)).2]
      · rw [machine_isWorkday_of_range _ _ (hr2 k (le_refl _)).1 (hr2 k (le_refl _)).2]
        exact hwk
      · rw [machine_countWorkdays_of_range _ _ _ _ (fun j _ hj => hr2 j hj)]
        exact hc

/-- For a whole number of days that `float` holds exactly, a result on unbounded dates whose
date, like the start date, lies within the dates a 16-bit year can hold is the result of the
machine function. -/
theorem machine_of_exact_intCast (cfg : WorkdayCalendar) (fuel : Nat) (start : DateTime)
    (N : Int) (r : DateTime) (hN : N.natAbs ≤ 2 ^ 24)
    (hwin : cfg.start_.to_duration ≤ cfg.stop_.to_duration) (htime : start.time.ok = true)
    (hs1 : Machine.firstDay ≤ sys_days start.date) (hs2 : sys_days start.date ≤ Machine.lastDay)
    (hr1 : Machine.firstDay ≤ sys_days r.date) (hr2 : sys_days r.date ≤ Machine.lastDay)
    (h : cfg.getWorkdayIncrement fuel start (N : ℚ) = some r) :
    Machine.getWorkdayIncrement cfg fuel start (N : ℚ) = some r := by
  have het := machine_endTime_of_intCast cfg start N hN
  have hfl : floor_days (cfg.endTime start (N : ℚ)).2 = sys_days start.date := by
    rw [endTime_of_intCast cfg start N hwin]
    exact floor_days_makeTimepoint start (natAbs_lt_of_ok _ htime)
  obtain ⟨k0, hk0, hw0, hlt, ht, hd⟩ := (getWorkdayIncrement_eq_some_iff cfg fuel start _ r).1 h
  rw [← het] at hw0 hlt ht hd hfl
  rcases hd with ⟨h0, e⟩ | ⟨hpos, k, hk1, hk, e, hwk, hc⟩
  · have hsd : sys_days r.date = floor_days (Machine.endTime cfg start (N : ℚ)).2 +
        calculateIncrement (N : ℚ) * ((k0 + 0 : Nat) : Int) := by
      rw [e, sys_days_ofSysDays]; simp
    have := machine_result_of_steps cfg fuel start (N : ℚ) k0 0 hk0 (Nat.zero_le _)
      (by rw [hfl]; exact hs1) (by rw [hfl]; exact hs2) (by rw [← hsd]; exact hr1)
      (by rw [← hsd]; exact hr2) hw0 hlt (Or.inl ⟨h0, rfl⟩)
    rw [this]
    congr 1
    cases r
    simp only [DateTime.mk.injEq]
    simp only at e ht
    exact ⟨by rw [e]; simp, ht.symm⟩
  · have hsd : sys_days r.date = floor_days (Machine.endTime cfg start (N : ℚ)).2 +
        calculateIncrement (N : ℚ) * ((k0 + k : Nat) : Int) := by
      rw [e, sys_days_ofSysDays]; push_cast; ring
    have := machine_result_of_steps cfg fuel start (N : ℚ) k0 k hk0 hk
      (by rw [hfl]; exact hs1) (by rw [hfl]; exact hs2) (by rw [← hsd]; exact hr1)
      (by rw [← hsd]; exact hr2) hw0 hlt (Or.inr ⟨hpos, hk1, hwk, hc⟩)
    rw [this]
    congr 1
    cases r
    simp only [DateTime.mk.injEq]
    simp only at e ht
    exact ⟨e.symm, ht.symm⟩

/-! ## The binary32 increments used in the examples -/

theorem floor_binary32_eq (q : ℚ) (e n m : Int) (hq : q ≠ 0) (h1 : (2 : ℚ) ^ e ≤ |q|)
    (h2 : |q| < (2 : ℚ) ^ (e + 1)) (he : -126 ≤ e)
    (hn1 : (n : ℚ) - 1 / 2 < q / 2 ^ (e - 23)) (hn2 : q / 2 ^ (e - 23) < (n : ℚ) + 1 / 2)
    (hm1 : (m : ℚ) ≤ (n : ℚ) * 2 ^ (e - 23)) (hm2 : (n : ℚ) * 2 ^ (e - 23) < (m : ℚ) + 1) :
    ⌊Machine.binary32 q⌋ = m := by
  rw [binary32_eq q e n hq h1 h2 he (roundHalfEven_eq _ n hn1 hn2), Int.floor_eq_iff]
  exact ⟨hm1, hm2⟩

/-- The increment -0.1f, the binary32 value nearest to -0.1. -/
theorem binary32_neg_tenth :
    Machine.binary32 (-13421773 / 134217728) = -13421773 / 134217728 :=
  binary32_of_scaled _ (-13421773) (-27) (by norm_num) (by norm_num) (by norm_num)

/-- The increment 0.7f, the binary32 value nearest to 0.7. -/
theorem binary32_seven_tenths :
    Machine.binary32 (11744051 / 16777216) = 11744051 / 16777216 :=
  binary32_of_scaled _ 11744051 (-24) (by norm_num) (by norm_num) (by norm_num)

theorem binary32_half : Machine.binary32 (1 / 2) = 1 / 2 :=
  binary32_of_scaled _ 1 (-1) (by norm_num) (by norm_num) (by norm_num)

theorem binary32_neg_half : Machine.binary32 (-1 / 2) = -1 / 2 :=
  binary32_of_scaled _ (-1) (-1) (by norm_num) (by norm_num) (by norm_num)

/-- The `float` product `480 * -0.1f` is -48: the exact product lies just below -48 and
rounds to it. -/
theorem floor_product_neg_tenth :
    ⌊Machine.binary32 (((480 : Int) : ℚ) * (-13421773 / 134217728))⌋ = -48 :=
  floor_binary32_eq _ 5 (-12582912) (-48) (by norm_num) (by norm_num [abs_of_neg])
    (by norm_num [abs_of_neg]) (by norm_num) (by norm_num) (by norm_num) (by norm_num)
    (by norm_num)

/-- The `float` product `480 * 0.7f` is 336: the exact product lies just below 336 and
rounds to it. -/
theorem floor_product_seven_tenths :
    ⌊Machine.binary32 (((480 : Int) : ℚ) * (11744051 / 16777216))⌋ = 336 :=
  floor_binary32_eq _ 8 11010048 336 (by norm_num) (by norm_num [abs_of_pos])
    (by norm_num [abs_of_pos]) (by norm_num) (by norm_num) (by norm_num) (by norm_num)
    (by norm_num)

theorem floor_product_half : ⌊Machine.binary32 (((480 : Int) : ℚ) * (1 / 2))⌋ = 240 := by
  rw [binary32_of_scaled _ 240 0 (by norm_num) (by norm_num) (by norm_num), Int.floor_eq_iff]
  norm_num

theorem floor_product_neg_half : ⌊Machine.binary32 (((480 : Int) : ℚ) * (-1 / 2))⌋ = -240 := by
  rw [binary32_of_scaled _ (-240) 0 (by norm_num) (by norm_num) (by norm_num),
    Int.floor_eq_iff]
  norm_num

/-- The minute offset of an increment of magnitude below 1 on a window of 480 minutes. -/
theorem machine_increment_480 (t s e : Time) (w : ℚ) (m : Int)
    (hD : e.to_duration - s.to_duration = 480) (hw : |w| < 1)
    (hfloat : Machine.binary32 w = w)
    (hm : ⌊Machine.binary32 (((480 : Int) : ℚ) * w)⌋ = m) :
    (Machine.calculateTimeDuration t w s e).increment = m := by
  rw [machine_increment_of_abs_lt_one t s e w hw hfloat, hD,
    binary32_intCast 480 (by decide), hm]

/-! ## Counting the days Monday to Friday -/

theorem weekCount_mod (a inc : Int) (n : Nat) : weekCount a inc n = weekCount (a % 7) inc n := by
  induction n with
  | zero => rfl
  | succ n ih =>
    have e : weekday_from_days (a + inc * ((n + 1 : Nat) : Int)) =
        weekday_from_days (a % 7 + inc * ((n + 1 : Nat) : Int)) := by
      unfold weekday_from_days
      generalize inc * ((n + 1 : Nat) : Int) = x
      omega
    rw [weekCount, weekCount, ih, e]

theorem weekCount_add (a inc : Int) (m n : Nat) :
    weekCount a inc (m + n) = weekCount a inc m + weekCount (a + inc * (m : Int)) inc n := by
  induction n with
  | zero => simp [weekCount]
  | succ n ih =>
    have e : a + inc * ((m + (n + 1) : Nat) : Int) =
        a + inc * (m : Int) + inc * ((n + 1 : Nat) : Int) := by
      push_cast; ring
    rw [← Nat.add_assoc, weekCount, ih, weekCount, Nat.add_assoc, Nat.add_assoc m n 1, e]

theorem weekCount_seven (a inc : Int) (hinc : inc = 1 ∨ inc = -1) : weekCount a inc 7 = 5 := by
  rw [weekCount_mod]
  have h0 : 0 ≤ a % 7 := Int.emod_nonneg _ (by norm_num)
  have h7 : a % 7 < 7 := Int.emod_lt_of_pos _ (by norm_num)
  generalize a % 7 = r at h0 h7
  rcases hinc with rfl | rfl <;> interval_cases r <;> decide

theorem weekCount_weeks (a inc : Int) (hinc : inc = 1 ∨ inc = -1) (q : Nat) :
    weekCount a inc (7 * q) = 5 * q := by
  induction q with
  | zero => rfl
  | succ q ih =>
    rw [show 7 * (q + 1) = 7 * q + 7 by ring, weekCount_add, ih, weekCount_seven _ _ hinc]
    ring

theorem weekCount_eq (a inc : Int) (hinc : inc = 1 ∨ inc = -1) (q r : Nat) :
    weekCount a inc (7 * q + r) = 5 * q + weekCount (a % 7) inc r := by
  have e : (a + inc * ((7 * q : Nat) : Int)) % 7 = a % 7 := by
    rcases hinc with rfl | rfl <;> push_cast <;> omega
  rw [weekCount_add, weekCount_weeks _ _ hinc, weekCount_mod (a + inc * ((7 * q : Nat) : Int)), e]

theorem isWorkday_no_holidays (date : Date) :
    isWorkday ⟨[], []⟩ date = true ↔
      ¬ (weekday_from_days (sys_days date) = Sunday ∨
        weekday_from_days (sys_days date) = Saturday) := by
  rw [isWorkday_iff]
  simp only [weekday, List.not_mem_nil, false_implies, implies_true, and_true, not_or, ne_eq]
  tauto

/-- With no holidays, over a stretch of days on which the stored date is the date of the day
count shifted by `c` days, the working days are the days Monday to Friday of the shifted
day counts. -/
theorem machine_countWorkdays_eq_weekCount (z inc c : Int) (n : Nat)
    (hreg : ∀ j : Nat, 1 ≤ j → j ≤ n →
      sys_days (Machine.ofSysDays (z + inc * (j : Int))) = z + inc * (j : Int) + c) :
    Machine.countWorkdays ⟨[], []⟩ z inc n = weekCount (z + c) inc n := by
  induction n with
  | zero => rfl
  | succ n ih =>
    have e : z + inc * ((n + 1 : Nat) : Int) + c = z + c + inc * ((n + 1 : Nat) : Int) := by
      ring
    have hiff := isWorkday_no_holidays (Machine.ofSysDays (z + inc * ((n + 1 : Nat) : Int)))
    rw [hreg (n + 1) (by omega) (le_refl _), e] at hiff
    rw [Machine.countWorkdays, weekCount, ih (fun j a b => hreg j a (by omega))]
    congr 1
    by_cases hw : isWorkday ⟨[], []⟩ (Machine.ofSysDays (z + inc * ((n + 1 : Nat) : Int))) = true
    · rw [if_pos hw, if_neg (hiff.1 hw)]
    · rw [if_neg hw, if_pos (by by_contra hc; exact hw (hiff.2 hc))]

/-! ## Stored dates beyond the last date a 16-bit year holds -/

theorem int16_of_wrapped (y : Int) (h1 : 32768 ≤ y) (h2 : y ≤ 98303) :
    Machine.int16 y = y - 65536 := by
  unfold Machine.int16
  omega

theorem year_days_wrapped (Y : Int) (h1 : 32767 ≤ Y) (h2 : Y ≤ 32835) :
    365 * (Y - 65536) + (Y - 65536) / 4 - (Y - 65536) / 100 + (Y - 65536) / 400 =
      365 * Y + Y / 4 - Y / 100 + Y / 400 - 23936532 := by
  have e4 : (Y - 65536) / 4 = Y / 4 - 16384 := by omega
  have e100 : (Y - 65536) / 100 = -328 := by omega
  have e400 : (Y - 65536) / 400 = -82 := by omega
  rcases lt_or_le Y 32800 with hc | hc
  · have f100 : Y / 100 = 327 := by omega
    have f400 : Y / 400 = 81 := by omega
    omega
  · have f100 : Y / 100 = 328 := by omega
    have f400 : Y / 400 = 82 := by omega
    omega

/-- From 32768-01-01 to 32836-02-29 the stored date is the date of the day 23936532 days
earlier (the years -32768 to -32700 repeat the calendar of the years 32768 to 32836 up to
the leap day of 32836, which the year -32700 does not have). -/
theorem sys_days_machine_ofSysDays_wrapped (z : Int) (h1 : Machine.lastDay < z)
    (h2 : z ≤ 11273634) : sys_days (Machine.ofSysDays z) = z - 23936532 := by
  rw [lastDay_eq] at h1
  have hz := sys_days_ofSysDays z
  obtain ⟨hm1, hm12, hd1, hd⟩ := ofSysDays_month_day_range z
  have hd31 : (Date.ofSysDays z).day ≤ 31 := le_trans hd (last_day_of_month_le _ _)
  unfold Machine.ofSysDays
  dsimp only
  generalize Date.ofSysDays z = date at hz hm1 hm12 hd1 hd31 ⊢
  obtain ⟨y, m, d⟩ := date
  simp only at hm1 hm12 hd1 hd31 ⊢
  rw [sys_days_eq_linear] at hz
  have hy1 : 32768 ≤ y := by
    by_contra hcon
    have hy : y ≤ 32767 := by omega
    have h3 := year_days_lt (y - 1) 32767 (by omega)
    rcases lt_or_eq_of_le hy with hlt | heq
    · have h4 := year_days_lt y 32767 hlt
      split_ifs at hz <;> omega
    · subst heq
      split_ifs at hz <;> omega
  have hy2 : y ≤ 32836 := by
    by_contra hcon
    have h3 := year_days_lt 32835 y (by omega)
    have h4 := year_days_lt 32835 (y - 1) (by omega)
    split_ifs at hz <;> omega
  have hY : (if (m : Int) ≤ 2 then y - 65536 - 1 else y - 65536) =
      (if (m : Int) ≤ 2 then y - 1 else y) - 65536 := by
    split_ifs <;> ring
  have hYb : 32767 ≤ (if (m : Int) ≤ 2 then y - 1 else y) ∧
      (if (m : Int) ≤ 2 then y - 1 else y) ≤ 32835 := by
    rcases lt_or_eq_of_le hy2 with hlt | heq
    · split_ifs <;> omega
    · subst heq
      split_ifs at hz ⊢ <;> omega
  rw [int16_of_wrapped y hy1 (by omega), sys_days_eq_linear, hY]
  generalize (if (m : Int) ≤ 2 then y - 1 else y) = Y at hz hYb ⊢
  have hw := year_days_wrapped Y hYb.1 hYb.2
  generalize (153 * (if (m : Int) > 2 then (m : Int) - 3 else (m : Int) + 9) + 2) / 5 = dm
    at hz ⊢
  omega

/-- From 32836-03-01 to 32836-12-31 the stored date is the date of the day 23936533 days
earlier. -/
theorem sys_days_machine_ofSysDays_wrapped_leap (z : Int) (h1 : 11273635 ≤ z)
    (h2 : z ≤ 11273940) : sys_days (Machine.ofSysDays z) = z - 23936533 := by
  have hz := sys_days_ofSysDays z
  obtain ⟨hm1, hm12, hd1, hd⟩ := ofSysDays_month_day_range z
  have hd31 : (Date.ofSysDays z).day ≤ 31 := le_trans hd (last_day_of_month_le _ _)
  have hd29 : (Date.ofSysDays z).month = 2 → (Date.ofSysDays z).day ≤ 29 := by
    intro hm
    rw [hm] at hd
    exact hd
  unfold Machine.ofSysDays
  dsimp only
  generalize Date.ofSysDays z = date at hz hm1 hm12 hd1 hd31 hd29 ⊢
  obtain ⟨y, m, d⟩ := date
  simp only at hm1 hm12 hd1 hd31 hd29 ⊢
  rw [sys_days_eq_linear] at hz
  have hy1 : 32836 ≤ y := by
    by_contra hcon
    have hy : y ≤ 32835 := by omega
    have h3 := year_days_lt (y - 1) 32835 (by omega)
    rcases lt_or_eq_of_le hy with hlt | heq
    · have h4 := year_days_lt y 32835 hlt
      split_ifs at hz <;> omega
    · subst heq
      split_ifs at hz <;> omega
  have hy2 : y ≤ 32836 := by
    by_contra hcon
    have h3 := year_days_lt 32836 y (by omega)
    have h4 := year_days_lt 32836 (y - 1) (by omega)
    split_ifs at hz <;> omega
  have hy : y = 32836 := by omega
  subst hy
  have hm2 : m = 1 ∨ m = 2 ∨ 3 ≤ m := by omega
  rw [int16_of_wrapped 32836 (by norm_num) (by norm_num), sys_days_eq_linear]
  rcases hm2 with rfl | rfl | hm3
  · norm_num at hz
    omega
  · have := hd29 rfl
    norm_num at hz
    omega
  · split_ifs at hz ⊢ <;> omega

/-! ## A walk of whole days across the last date a 16-bit year holds -/

/-- A walk of whole days on the machine types from a start whose stored date is a working
day, in terms of the count of working days among the stored dates. -/
theorem machine_whole_days (cfg : WorkdayCalendar) (start : DateTime) (N : Int) (k : Nat)
    (hN24 : N.natAbs ≤ 2 ^ 24) (hN : N ≠ 0) (htime : start.time.ok = true)
    (h1 : cfg.start_.to_duration ≤ start.time.to_duration)
    (h2 : start.time.to_duration ≤ cfg.stop_.to_duration)
    (hw0 : isWorkday cfg.holidays (Machine.ofSysDays (sys_days start.date)) = true)
    (hk1 : 1 ≤ k)
    (hwk : isWorkday cfg.holidays (Machine.ofSysDays
      (sys_days start.date + calculateIncrement (N : ℚ) * (k : Int))) = true)
    (hcnt : Machine.countWorkdays cfg.holidays (sys_days start.date)
      (calculateIncrement (N : ℚ)) k = N.natAbs) :
    Machine.getWorkdayIncrement cfg k start (N : ℚ) =
      some ⟨Machine.ofSysDays (sys_days start.date + calculateIncrement (N : ℚ) * (k : Int)),
        start.time⟩ := by
  have het : Machine.endTime cfg start (N : ℚ) = (start.time, makeTimepoint start) := by
    rw [machine_endTime_of_intCast cfg start N hN24, endTime_of_intCast_mem cfg start N h1 h2]
  have hfl : floor_days (Machine.endTime cfg start (N : ℚ)).2 = sys_days start.date := by
    rw [het]
    exact floor_days_makeTimepoint start (natAbs_lt_of_ok _ htime)
  have het1 : (Machine.endTime cfg start (N : ℚ)).1 = start.time := by rw [het]
  rw [machine_getWorkdayIncrement_eq_some_iff]
  refine ⟨0, Nat.zero_le _, ?_, by intro j hj; omega, het1.symm, Or.inr ?_⟩
  · simp only [hfl, Nat.cast_zero, mul_zero, add_zero]
    exact hw0
  · rw [truncToInt_intCast]
    refine ⟨by omega, k, hk1, le_refl _, ?_, ?_, ?_⟩
    · simp only [hfl, Nat.cast_zero, mul_zero, add_zero]
    · simp only [hfl, Nat.cast_zero, mul_zero, add_zero]
      exact hwk
    · simp only [hfl, Nat.cast_zero, mul_zero, add_zero]
      exact hcnt

/-- The 25202 days after Friday 32767-12-29 hold 18000 working days of the stored dates:
none on the two days to 32767-12-31, 17783 on the 24897 days to the day stored as
-32700-02-29, and 217 on the 303 days to the day stored as -32700-12-28. -/
theorem wrap_forward_count :
    Machine.countWorkdays ⟨[], []⟩ 11248735 1 25202 = 18000 := by
  have s1 : Machine.countWorkdays ⟨[], []⟩ 11248735 1 2 = 0 := by decide
  have s2 : Machine.countWorkdays ⟨[], []⟩ 11248737 1 24897 = 17783 := by
    have hreg : ∀ j : Nat, 1 ≤ j → j ≤ 24897 →
        sys_days (Machine.ofSysDays (11248737 + 1 * (j : Int))) =
          11248737 + 1 * (j : Int) + -23936532 := by
      intro j hj1 hj2
      rw [sys_days_machine_ofSysDays_wrapped _ (by rw [lastDay_eq]; omega) (by omega)]
      ring
    rw [machine_countWorkdays_eq_weekCount _ _ _ _ hreg,
      weekCount_eq _ _ (Or.inl rfl) 3556 5]
    decide
  have s3 : Machine.countWorkdays ⟨[], []⟩ 11273634 1 303 = 217 := by
    have hreg : ∀ j : Nat, 1 ≤ j → j ≤ 303 →
        sys_days (Machine.ofSysDays (11273634 + 1 * (j : Int))) =
          11273634 + 1 * (j : Int) + -23936533 := by
      intro j hj1 hj2
      rw [sys_days_machine_ofSysDays_wrapped_leap _ (by omega) (by omega)]
      ring
    rw [machine_countWorkdays_eq_weekCount _ _ _ _ hreg,
      weekCount_eq _ _ (Or.inl rfl) 43 2]
    decide
  have a1 := machine_countWorkdays_add ⟨[], []⟩ 11248735 1 2 25200
  have a2 := machine_countWorkdays_add ⟨[], []⟩ 11248737 1 24897 303
  have e1 : (11248735 : Int) + 1 * ((2 : Nat) : Int) = 11248737 := by norm_num
  have e2 : (11248737 : Int) + 1 * ((24897 : Nat) : Int) = 11273634 := by norm_num
  rw [e1] at a1
  rw [e2] at a2
  rw [show (25202 : Nat) = 2 + 25200 by norm_num, a1,
    show (25200 : Nat) = 24897 + 303 by norm_num, a2, s1, s2, s3]

/-- The 25202 days before the day of -32700-12-28 hold 18000 working days of the stored
dates: 17998 on the 25198 days back to -32768-01-01, and 2 on the four days before it,
stored as 32767-12-31 to 32767-12-28. -/
theorem wrap_backward_count :
    Machine.countWorkdays ⟨[], []⟩ (-12662596) (-1) 25202 = 18000 := by
  have s1 : Machine.countWorkdays ⟨[], []⟩ (-12662596) (-1) 25198 = 17998 := by
    have hreg : ∀ j : Nat, 1 ≤ j → j ≤ 25198 →
        sys_days (Machine.ofSysDays (-12662596 + -1 * (j : Int))) =
          -12662596 + -1 * (j : Int) + 0 := by
      intro j hj1 hj2
      rw [machine_ofSysDays_of_range _ (by rw [firstDay_eq]; omega)
        (by rw [lastDay_eq]; omega), sys_days_ofSysDays]
      ring
    rw [machine_countWorkdays_eq_weekCount _ _ _ _ hreg,
      weekCount_eq _ _ (Or.inr rfl) 3599 5]
    decide
  have s2 : Machine.countWorkdays ⟨[], []⟩ (-12687794) (-1) 4 = 2 := by decide
  have a1 := machine_countWorkdays_add ⟨[], []⟩ (-12662596) (-1) 25198 4
  have e1 : (-12662596 : Int) + -1 * ((25198 : Nat) : Int) = -12687794 := by norm_num
  rw [e1] at a1
  rw [show (25202 : Nat) = 25198 + 4 by norm_num, a1, s1, s2]

/-! ## Claims on the machine types -/

/-- Counterexample to C3 as stated: on the default calendar the start Friday 32767-12-29
00:00 is a working day and `N = 1` is a non-zero integer, but the next working day is
32768-01-01, whose year a 16-bit `year` stores as -32768: the machine function returns
-32768-01-01, a date before the start. -/
theorem C3_counterexample :
    ({} : WorkdayCalendar).start_.to_duration ≤ ({} : WorkdayCalendar).stop_.to_duration ∧
      (⟨32767, 12, 29⟩ : Date).ok = true ∧ (⟨0⟩ : Time).ok = true ∧
      isWorkday ({} : WorkdayCalendar).holidays ⟨32767, 12, 29⟩ = true ∧
      Machine.getWorkdayIncrement {} 3 ⟨⟨32767, 12, 29⟩, ⟨0⟩⟩ ((1 : Int) : ℚ) =
        some ⟨⟨-32768, 1, 1⟩, ⟨0⟩⟩ ∧
      sys_days (⟨-32768, 1, 1⟩ : Date) < sys_days (⟨32767, 12, 29⟩ : Date) := by
  refine ⟨by decide, by decide, by decide, by decide, ?_, by decide⟩
  rw [machine_getWorkdayIncrement_eq_incrementFrom _ _ _ _ 1 1 0
    (calculateIncrement_of_nonneg _ (by norm_num)) (truncToInt_intCast 1)
    (machine_increment_of_intCast _ _ _ 1 (by decide))]
  decide

/-- C3 (amended). Whole-day stepping counts exactly working days, within the dates that a
16-bit year holds. For a window with `workdayStart <= workdayStop`, a start on a working day
(a valid date with its year in -32768..32767, a valid time of day) and a non-zero integer
increment `N` with `|N| <= 2^24` (so that `float` holds it), such that at least `|N|` working
days lie among the `K` days after the start date (before it when `N < 0`) and the last of
these `K` days is not after 32767-12-31 (not before -32768-01-01): the machine function
returns, with enough iterations allowed and the same result whatever the bound; the returned
date is a working day, lies strictly after the start date when `N > 0` and strictly before it
when `N < 0`, and the number of working days in the range `(d, r]`, respectively `[r, d)`,
is `|N|`. Dates are compared by their day count `sys_days`. -/
theorem C3_whole_day_stepping (cfg : WorkdayCalendar) (start : DateTime) (N : Int) (K : Nat)
    (hwin : cfg.start_.to_duration ≤ cfg.stop_.to_duration)
    (hdate : start.date.ok = true)
    (hy1 : -32768 ≤ start.date.year) (hy2 : start.date.year ≤ 32767)
    (htime : start.time.ok = true)
    (hwork : isWorkday cfg.holidays start.date = true) (hN : N ≠ 0)
    (hN24 : N.natAbs ≤ 2 ^ 24)
    (hK1 : Machine.firstDay ≤ sys_days start.date + calculateIncrement (N : ℚ) * (K : Int))
    (hK2 : sys_days start.date + calculateIncrement (N : ℚ) * (K : Int) ≤ Machine.lastDay)
    (hKc : N.natAbs ≤
      countWorkdays cfg.holidays (sys_days start.date) (calculateIncrement (N : ℚ)) K) :
    ∃ r : DateTime,
      (∃ fuel : Nat, Machine.getWorkdayIncrement cfg fuel start (N : ℚ) = some r) ∧
      (∀ (fuel : Nat) (r' : DateTime),
        Machine.getWorkdayIncrement cfg fuel start (N : ℚ) = some r' → r' = r) ∧
      isWorkday cfg.holidays r.date = true ∧
      (0 < N → sys_days start.date < sys_days r.date ∧
        ((Finset.Ioc (sys_days start.date) (sys_days r.date)).filter
          (fun z => isWorkday cfg.holidays (Date.ofSysDays z) = true)).card = N.natAbs) ∧
      (N < 0 → sys_days r.date < sys_days start.date ∧
        ((Finset.Ico (sys_days r.date) (sys_days start.date)).filter
          (fun z => isWorkday cfg.holidays (Date.ofSysDays z) = true)).card = N.natAbs) := by
  have hof : Date.ofSysDays (sys_days start.date) = start.date :=
    ofSysDays_sys_days _ hdate
  have hinc := calculateIncrement_cases (N : ℚ)
  obtain ⟨hs1, hs2⟩ := sys_days_range_of_ok start.date hdate hy1 hy2
  have hw0 : isWorkday cfg.holidays (Date.ofSysDays (sys_days start.date)) = true := by
    rw [hof]; exact hwork
  have hpos : 0 < N.natAbs := by omega
  obtain ⟨k, hk1, hkK, hwk, hcnt⟩ := countWorkdays_reaches cfg.holidays (sys_days start.date)
    (calculateIncrement (N : ℚ)) N.natAbs hpos K hKc
  have hfl : floor_days (Machine.endTime cfg start (N : ℚ)).2 = sys_days start.date := by
    rw [machine_endTime_of_intCast cfg start N hN24, endTime_of_intCast cfg start N hwin]
    exact floor_days_makeTimepoint start (natAbs_lt_of_ok _ htime)
  have hrk := range_between (sys_days start.date) _ hinc K k hkK hs1 hs2 hK1 hK2
  have hres := machine_result_of_steps cfg k start (N : ℚ) 0 k (Nat.zero_le _) (le_refl _)
    (by rw [hfl]; exact hs1) (by rw [hfl]; exact hs2)
    (by rw [hfl, Nat.zero_add]; exact hrk.1) (by rw [hfl, Nat.zero_add]; exact hrk.2)
    (by simpa [hfl] using hw0) (by intro j hj; omega)
    (Or.inr ⟨by rw [truncToInt_intCast]; exact hpos, hk1, by simpa [hfl] using hwk,
      by rw [truncToInt_intCast]; simpa [hfl] using hcnt⟩)
  simp only [hfl, Nat.cast_zero, mul_zero, add_zero] at hres
  refine ⟨_, ⟨k, hres⟩, fun fuel r' h' =>
    machine_getWorkdayIncrement_unique cfg k fuel start _ _ r' hres h', hwk, ?_, ?_⟩
  · intro hN0
    have hi : calculateIncrement (N : ℚ) = 1 :=
      calculateIncrement_of_nonneg _ (by exact_mod_cast le_of_lt hN0)
    simp only [sys_days_ofSysDays, hi, one_mul]
    rw [hi] at hcnt
    exact ⟨by omega, by rw [← countWorkdays_eq_card_Ioc]; exact hcnt⟩
  · intro hN0
    have hi : calculateIncrement (N : ℚ) = -1 :=
      calculateIncrement_of_neg _ (by exact_mod_cast hN0)
    simp only [sys_days_ofSysDays, hi]
    rw [hi] at hcnt
    have e : sys_days start.date + -1 * (k : Int) = sys_days start.date - (k : Int) := by ring
    rw [e]
    exact ⟨by omega, by rw [← countWorkdays_eq_card_Ico]; exact hcnt⟩

/-- Witness of C3 (amended): the two dates of the tests, on the default calendar. From
Monday 2021-01-04, 20 workdays lead to 2021-02-01 and -2 workdays to 2020-12-31; the theorem
is applied to the first, with `K = 28`. -/
theorem C3_whole_day_stepping_witness :
    Machine.getWorkdayIncrement {} 28 ⟨⟨2021, 1, 4⟩, ⟨0⟩⟩ ((20 : Int) : ℚ) =
        some ⟨⟨2021, 2, 1⟩, ⟨0⟩⟩ ∧
      Machine.getWorkdayIncrement {} 4 ⟨⟨2021, 1, 4⟩, ⟨0⟩⟩ ((-2 : Int) : ℚ) =
        some ⟨⟨2020, 12, 31⟩, ⟨0⟩⟩ ∧
      (({} : WorkdayCalendar).start_.to_duration ≤ ({} : WorkdayCalendar).stop_.to_duration ∧
        (⟨2021, 1, 4⟩ : Date).ok = true ∧ (⟨0⟩ : Time).ok = true ∧
        isWorkday ({} : WorkdayCalendar).holidays ⟨2021, 1, 4⟩ = true ∧ (20 : Int) ≠ 0 ∧
        (20 : Int).natAbs ≤ 2 ^ 24 ∧
        sys_days (⟨2021, 1, 4⟩ : Date) + 1 * ((28 : Nat) : Int) ≤ Machine.lastDay ∧
        (20 : Int).natAbs ≤
          countWorkdays ({} : WorkdayCalendar).holidays (sys_days ⟨2021, 1, 4⟩) 1 28) ∧
      ∃ r : DateTime,
        (∃ fuel : Nat, Machine.getWorkdayIncrement {} fuel ⟨⟨2021, 1, 4⟩, ⟨0⟩⟩
          ((20 : Int) : ℚ) = some r) ∧
        (∀ (fuel : Nat) (r' : DateTime),
          Machine.getWorkdayIncrement {} fuel ⟨⟨2021, 1, 4⟩, ⟨0⟩⟩ ((20 : Int) : ℚ) =
            some r' → r' = r) ∧
        isWorkday ({} : WorkdayCalendar).holidays r.date = true ∧
        ((0 : Int) < 20 → sys_days (⟨2021, 1, 4⟩ : Date) < sys_days r.date ∧
          ((Finset.Ioc (sys_days (⟨2021, 1, 4⟩ : Date)) (sys_days r.date)).filter
            (fun z => isWorkday ({} : WorkdayCalendar).holidays (Date.ofSysDays z) = true)).card
              = (20 : Int).natAbs) ∧
        ((20 : Int) < 0 → sys_days r.date < sys_days (⟨2021, 1, 4⟩ : Date) ∧
          ((Finset.Ico (sys_days r.date) (sys_days (⟨2021, 1, 4⟩ : Date))).filter
            (fun z => isWorkday ({} : WorkdayCalendar).holidays (Date.ofSysDays z) = true)).card
              = (20 : Int).natAbs) := by
  have hi : calculateIncrement ((20 : Int) : ℚ) = 1 :=
    calculateIncrement_of_nonneg _ (by norm_num)
  refine ⟨?_, ?_, ⟨by decide, by decide, by decide, by decide, by decide, by decide,
      by decide, by decide⟩,
    C3_whole_day_stepping {} ⟨⟨2021, 1, 4⟩, ⟨0⟩⟩ 20 28 (by decide) (by decide) (by decide)
      (by decide) (by decide) (by decide) (by decide) (by decide) (by rw [hi]; decide)
      (by rw [hi]; decide) (by rw [hi]; decide)⟩
  · rw [machine_getWorkdayIncrement_eq_incrementFrom _ _ _ _ 1 20 0
      (calculateIncrement_of_nonneg _ (by norm_num)) (truncToInt_intCast 20)
      (machine_increment_of_intCast _ _ _ 20 (by decide))]
    decide
  · rw [machine_getWorkdayIncrement_eq_incrementFrom _ _ _ _ (-1) (-2) 0
      (calculateIncrement_of_neg _ (by norm_num)) (truncToInt_intCast (-2))
      (machine_increment_of_intCast _ _ _ (-2) (by decide))]
    decide

/-- Counterexample to C4 as stated, in two ways. No holidays are configured and 2025-12-05
is a Friday, but with the window 16:00 to 08:00 the start time 00:00 is clamped to 16:00,
which lies above the stop time, so the date is carried to the next day before the workday is
added: the result is Tuesday 2025-12-09, four calendar days later. And on the default
calendar the Friday 32767-12-29 gives -32768-01-01: the Monday three days later is
32768-01-01, whose year a 16-bit `year` does not hold. -/
theorem C4_counterexample :
    (reversedCalendar.nonRecurringHolidays_ = [] ∧ reversedCalendar.recurringHolidays_ = [] ∧
      weekday (⟨2025, 12, 5⟩ : Date) = Friday ∧
      Machine.getWorkdayIncrement reversedCalendar 4 ⟨⟨2025, 12, 5⟩, ⟨0⟩⟩ 1 =
        some ⟨⟨2025, 12, 9⟩, ⟨1440⟩⟩ ∧
      sys_days (⟨2025, 12, 9⟩ : Date) ≠ sys_days (⟨2025, 12, 5⟩ : Date) + 3) ∧
    (({} : WorkdayCalendar).nonRecurringHolidays_ = [] ∧
      ({} : WorkdayCalendar).recurringHolidays_ = [] ∧
      ({} : WorkdayCalendar).start_.to_duration ≤ ({} : WorkdayCalendar).stop_.to_duration ∧
      (⟨32767, 12, 29⟩ : Date).ok = true ∧ weekday (⟨32767, 12, 29⟩ : Date) = Friday ∧
      Machine.getWorkdayIncrement {} 3 ⟨⟨32767, 12, 29⟩, ⟨0⟩⟩ 1 =
        some ⟨⟨-32768, 1, 1⟩, ⟨0⟩⟩ ∧
      sys_days (⟨-32768, 1, 1⟩ : Date) ≠ sys_days (⟨32767, 12, 29⟩ : Date) + 3) := by
  refine ⟨⟨by decide, by decide, by decide, ?_, by decide⟩,
    ⟨by decide, by decide, by decide, by decide, by decide, ?_, by decide⟩⟩
  · rw [machine_eval_one]
    decide
  · rw [machine_eval_one]
    decide

/-- C4 (amended). Weekend skip: with no holidays configured, a window with
`workdayStart <= workdayStop` and a valid start time of day, for every start date that is a
Friday, is not before -32768-01-01 and lies at least 3 days before 32767-12-31 (so that the
following Monday is a date the 16-bit year holds), `getWorkdayIncrement(start, +1.0)` returns
the date exactly 3 calendar days later, the following Monday. -/
theorem C4_weekend_skip (cfg : WorkdayCalendar) (start : DateTime)
    (hn : cfg.nonRecurringHolidays_ = []) (hr : cfg.recurringHolidays_ = [])
    (hwin : cfg.start_.to_duration ≤ cfg.stop_.to_duration)
    (htime : start.time.ok = true) (hfri : weekday start.date = Friday)
    (hs1 : Machine.firstDay ≤ sys_days start.date)
    (hs2 : sys_days start.date + 3 ≤ Machine.lastDay) :
    ∃ r : DateTime, Machine.getWorkdayIncrement cfg 3 start 1 = some r ∧
      r.date = Date.ofSysDays (sys_days start.date + 3) ∧
      sys_days r.date = sys_days start.date + 3 ∧ weekday r.date = Monday := by
  obtain ⟨r, hres, e1, e2, e3⟩ := weekend_skip_exact cfg start hn hr hwin htime hfri
  refine ⟨r, ?_, e1, e2, e3⟩
  have := machine_of_exact_intCast cfg 3 start 1 r (by decide) hwin htime hs1 (by omega)
    (by rw [e2]; omega) (by rw [e2]; omega) (by rw [Int.cast_one]; exact hres)
  rw [Int.cast_one] at this
  exact this

/-- Witness of C4 (amended): the date of the test, Friday 2025-12-05, on the default
calendar, gives Monday 2025-12-08. -/
theorem C4_weekend_skip_witness :
    (({} : WorkdayCalendar).nonRecurringHolidays_ = [] ∧
      ({} : WorkdayCalendar).recurringHolidays_ = [] ∧
      ({} : WorkdayCalendar).start_.to_duration ≤ ({} : WorkdayCalendar).stop_.to_duration ∧
      (⟨0⟩ : Time).ok = true ∧ weekday (⟨2025, 12, 5⟩ : Date) = Friday ∧
      Machine.firstDay ≤ sys_days (⟨2025, 12, 5⟩ : Date) ∧
      sys_days (⟨2025, 12, 5⟩ : Date) + 3 ≤ Machine.lastDay) ∧
    Date.ofSysDays (sys_days (⟨2025, 12, 5⟩ : Date) + 3) = ⟨2025, 12, 8⟩ ∧
    ∃ r : DateTime, Machine.getWorkdayIncrement {} 3 ⟨⟨2025, 12, 5⟩, ⟨0⟩⟩ 1 = some r ∧
      r.date = Date.ofSysDays (sys_days (⟨2025, 12, 5⟩ : Date) + 3) ∧
      sys_days r.date = sys_days (⟨2025, 12, 5⟩ : Date) + 3 ∧ weekday r.date = Monday :=
  ⟨⟨by decide, by decide, by decide, by decide, by decide, by decide, by decide⟩, by decide,
    C4_weekend_skip {} ⟨⟨2025, 12, 5⟩, ⟨0⟩⟩ (by decide) (by decide) (by decide) (by decide)
      (by decide) (by decide) (by decide)⟩

/-- Counterexample to C6 as stated, and why the amended claim bounds the dates. Only the
fixed holiday 2004-05-27 is configured, the start Monday 2025-05-26 and its next day Tuesday
2025-05-27 are weekdays, and the next day has the month and day of the holiday and another
year; but with the window 16:00 to 08:00 the clamped start time lies above the stop time, the
date is carried to the next day, and the result is 2025-05-28, not 2025-05-27. And with only
the holiday Friday 32767-12-29 configured on the default window, the start Thursday
32767-12-28 gives -32768-01-01: the next weekday after the holiday is 32768-01-01, whose year
a 16-bit `year` does not hold. -/
theorem C6_counterexample :
    (reversedHolidayCalendar.nonRecurringHolidays_ = [⟨2004, 5, 27⟩] ∧
      reversedHolidayCalendar.recurringHolidays_ = [] ∧
      Date.ofSysDays (sys_days (⟨2025, 5, 26⟩ : Date) + 1) = ⟨2025, 5, 27⟩ ∧
      weekday (⟨2025, 5, 26⟩ : Date) = Monday ∧ weekday (⟨2025, 5, 27⟩ : Date) = 2 ∧
      Machine.getWorkdayIncrement reversedHolidayCalendar 4 ⟨⟨2025, 5, 26⟩, ⟨0⟩⟩ 1 =
        some ⟨⟨2025, 5, 28⟩, ⟨1440⟩⟩) ∧
    ((({} : WorkdayCalendar).setHoliday
        (GregorianCalendar.ofRaw 32767 12 29 0 0)).nonRecurringHolidays_ = [⟨32767, 12, 29⟩] ∧
      weekday (⟨32767, 12, 28⟩ : Date) = 4 ∧ weekday (⟨32767, 12, 29⟩ : Date) = Friday ∧
      Machine.getWorkdayIncrement
        (({} : WorkdayCalendar).setHoliday (GregorianCalendar.ofRaw 32767 12 29 0 0)) 4
        ⟨⟨32767, 12, 28⟩, ⟨0⟩⟩ 1 = some ⟨⟨-32768, 1, 1⟩, ⟨0⟩⟩ ∧
      sys_days (⟨-32768, 1, 1⟩ : Date) < sys_days (⟨32767, 12, 28⟩ : Date)) := by
  refine ⟨⟨by decide, by decide, by decide, by decide, by decide, ?_⟩,
    ⟨by decide, by decide, by decide, ?_, by decide⟩⟩
  · rw [machine_eval_one]
    decide
  · rw [machine_eval_one]
    decide

/-- C6 (amended). Fixed holidays are year-specific: a date is treated as a holiday iff it
equals some fixed holiday in year, month and day, or its month and day equal those of some
recurring holiday. Consequently, with only a fixed holiday `(Y, m, d)` configured, a window
with `workdayStart <= workdayStop` and a valid start time of day, for every weekday start
date `s` that is not before -32768-01-01 and lies at least 4 days before 32767-12-31, and
whose next calendar day `s+1` is a weekday with month `m` and day `d`: when the year of `s+1`
differs from `Y`, `getWorkdayIncrement(s, +1.0)` returns `s+1`; when it equals `Y`, the
result skips `s+1` and is the next weekday after it. -/
theorem C6_fixed_holiday_year_specific (cfg : WorkdayCalendar) (Y : Int) (m d : Nat)
    (start : DateTime)
    (hfix : cfg.nonRecurringHolidays_ = [⟨Y, m, d⟩]) (hrec : cfg.recurringHolidays_ = [])
    (hwin : cfg.start_.to_duration ≤ cfg.stop_.to_duration) (htime : start.time.ok = true)
    (hs : weekday start.date ≠ Saturday ∧ weekday start.date ≠ Sunday)
    (hn : weekday (Date.ofSysDays (sys_days start.date + 1)) ≠ Saturday ∧
      weekday (Date.ofSysDays (sys_days start.date + 1)) ≠ Sunday)
    (hm : (Date.ofSysDays (sys_days start.date + 1)).month = m)
    (hd : (Date.ofSysDays (sys_days start.date + 1)).day = d)
    (hs1 : Machine.firstDay ≤ sys_days start.date)
    (hs2 : sys_days start.date + 4 ≤ Machine.lastDay) :
    (∀ (h : Holidays) (date : Date), isHoliday date h = true ↔
      (∃ x ∈ h.nonRecurring, date.year = x.year ∧ date.month = x.month ∧ date.day = x.day) ∨
      (∃ x ∈ h.recurring, x.month = date.month ∧ x.day = date.day)) ∧
    ((Date.ofSysDays (sys_days start.date + 1)).year ≠ Y →
      ∃ r : DateTime, Machine.getWorkdayIncrement cfg 1 start 1 = some r ∧
        r.date = Date.ofSysDays (sys_days start.date + 1)) ∧
    ((Date.ofSysDays (sys_days start.date + 1)).year = Y →
      ∃ r : DateTime, Machine.getWorkdayIncrement cfg 4 start 1 = some r ∧
        sys_days start.date + 1 < sys_days r.date ∧
        r.date = Date.ofSysDays (sys_days start.date +
          (if weekday (Date.ofSysDays (sys_days start.date + 1)) = Friday then 4 else 2))) := by
  obtain ⟨h1, h2, h3⟩ := fixed_holiday_exact cfg Y m d start hfix hrec hwin htime hs hn hm hd
  have tt : ∀ (fuel : Nat) (r : DateTime), cfg.getWorkdayIncrement fuel start 1 = some r →
      Machine.firstDay ≤ sys_days r.date → sys_days r.date ≤ Machine.lastDay →
      Machine.getWorkdayIncrement cfg fuel start 1 = some r := by
    intro fuel r hres hr1 hr2
    have := machine_of_exact_intCast cfg fuel start 1 r (by decide) hwin htime hs1 (by omega)
      hr1 hr2 (by rw [Int.cast_one]; exact hres)
    rw [Int.cast_one] at this
    exact this
  refine ⟨h1, ?_, ?_⟩
  · intro hy
    obtain ⟨r, hres, e⟩ := h2 hy
    have hsd : sys_days r.date = sys_days start.date + 1 := by rw [e, sys_days_ofSysDays]
    exact ⟨r, tt 1 r hres (by omega) (by omega), e⟩
  · intro hy
    obtain ⟨r, hres, hlt, e⟩ := h3 hy
    have hsd : sys_days r.date = sys_days start.date +
        (if weekday (Date.ofSysDays (sys_days start.date + 1)) = Friday then 4 else 2) := by
      rw [e, sys_days_ofSysDays]
    refine ⟨r, tt 4 r hres (by omega) ?_, hlt, e⟩
    rw [hsd]
    split_ifs <;> omega

/-- Witness of C6 (amended): the calendar and the two dates of the tests. With only the
holiday 2004-05-27 configured, Monday 2025-05-26 gives 2025-05-27 and Wednesday 2004-05-26
gives 2004-05-28; the theorem is applied to the first start. -/
theorem C6_fixed_holiday_year_specific_witness :
    Machine.getWorkdayIncrement fixedHolidayCalendar 1 ⟨⟨2025, 5, 26⟩, ⟨0⟩⟩ 1 =
        some ⟨⟨2025, 5, 27⟩, ⟨0⟩⟩ ∧
      Machine.getWorkdayIncrement fixedHolidayCalendar 4 ⟨⟨2004, 5, 26⟩, ⟨0⟩⟩ 1 =
        some ⟨⟨2004, 5, 28⟩, ⟨0⟩⟩ ∧
      Date.ofSysDays (sys_days (⟨2025, 5, 26⟩ : Date) + 1) = ⟨2025, 5, 27⟩ ∧
      ((∀ (h : Holidays) (date : Date), isHoliday date h = true ↔
        (∃ x ∈ h.nonRecurring,
          date.year = x.year ∧ date.month = x.month ∧ date.day = x.day) ∨
        (∃ x ∈ h.recurring, x.month = date.month ∧ x.day = date.day)) ∧
      ((Date.ofSysDays (sys_days (⟨2025, 5, 26⟩ : Date) + 1)).year ≠ 2004 →
        ∃ r : DateTime,
          Machine.getWorkdayIncrement fixedHolidayCalendar 1 ⟨⟨2025, 5, 26⟩, ⟨0⟩⟩ 1 = some r ∧
          r.date = Date.ofSysDays (sys_days (⟨2025, 5, 26⟩ : Date) + 1)) ∧
      ((Date.ofSysDays (sys_days (⟨2025, 5, 26⟩ : Date) + 1)).year = 2004 →
        ∃ r : DateTime,
          Machine.getWorkdayIncrement fixedHolidayCalendar 4 ⟨⟨2025, 5, 26⟩, ⟨0⟩⟩ 1 = some r ∧
          sys_days (⟨2025, 5, 26⟩ : Date) + 1 < sys_days r.date ∧
          r.date = Date.ofSysDays (sys_days (⟨2025, 5, 26⟩ : Date) +
            (if weekday (Date.ofSysDays (sys_days (⟨2025, 5, 26⟩ : Date) + 1)) = Friday
              then 4 else 2)))) := by
  refine ⟨?_, ?_, by decide,
    C6_fixed_holiday_year_specific fixedHolidayCalendar 2004 5 27 ⟨⟨2025, 5, 26⟩, ⟨0⟩⟩
      (by decide) (by decide) (by decide) (by decide) (by decide) (by decide) (by decide)
      (by decide) (by decide) (by decide)⟩
  · rw [machine_eval_one]
    decide
  · rw [machine_eval_one]
    decide

theorem machine_clampStartTime_eq (t s e : Time) (w : ℚ) :
    clampStartTime (Machine.calculateTimeDuration t w s e) =
      clampStartTime (calculateTimeDuration t w s e) := rfl

theorem machine_getWorkdayIncrement_zero_days (cfg : WorkdayCalendar) (fuel k0 : Nat)
    (start : DateTime) (w : ℚ) (hw : |w| < 1) (hk0 : k0 ≤ fuel)
    (hZ1 : Machine.firstDay ≤ floor_days (Machine.endTime cfg start w).2)
    (hZ2 : floor_days (Machine.endTime cfg start w).2 ≤ Machine.lastDay)
    (hE1 : Machine.firstDay ≤ floor_days (Machine.endTime cfg start w).2 +
      calculateIncrement w * (k0 : Int))
    (hE2 : floor_days (Machine.endTime cfg start w).2 +
      calculateIncrement w * (k0 : Int) ≤ Machine.lastDay)
    (hw0 : isWorkday cfg.holidays (Date.ofSysDays
      (floor_days (Machine.endTime cfg start w).2 + calculateIncrement w * (k0 : Int))) = true)
    (hlt : ∀ j : Nat, j < k0 → isWorkday cfg.holidays (Date.ofSysDays
      (floor_days (Machine.endTime cfg start w).2 + calculateIncrement w * (j : Int))) =
        false) :
    Machine.getWorkdayIncrement cfg fuel start w =
      some ⟨Date.ofSysDays (floor_days (Machine.endTime cfg start w).2 +
        calculateIncrement w * (k0 : Int)), (Machine.endTime cfg start w).1⟩ := by
  have h := machine_result_of_steps cfg fuel start w k0 0 hk0 (Nat.zero_le _) hZ1 hZ2
    (by simpa using hE1) (by simpa using hE2) hw0 hlt
    (Or.inl ⟨by rw [truncToInt_zero_of_abs_lt_one w hw]; rfl, rfl⟩)
  simpa using h

/-- Counterexample to C8 as stated: on the kata calendar (window 08:00 to 16:00, `D = 480`)
Tuesday 2025-12-09 is a working day; with the start 12:00 and `w = -0.1f` the offset
`m = floor(D * w)` is -49, since the binary32 value of -0.1 lies just below -0.1, and
`c + m` is 11:11, inside the window; but the `float` product `480 * w` rounds to -48 and
the function returns 11:12. -/
theorem C8_counterexample :
    |(-13421773 / 134217728 : ℚ)| < 1 ∧
      isWorkday kataCalendar.holidays ⟨2025, 12, 9⟩ = true ∧
      ⌊((kataCalendar.stop_.to_duration - kataCalendar.start_.to_duration : Int) : ℚ) *
        (-13421773 / 134217728)⌋ = -49 ∧
      clampStartTime (calculateTimeDuration (⟨720⟩ : Time) (-13421773 / 134217728)
        kataCalendar.start_ kataCalendar.stop_) = 720 ∧
      kataCalendar.start_.to_duration ≤ 720 + -49 ∧
      720 + -49 ≤ kataCalendar.stop_.to_duration ∧
      Machine.getWorkdayIncrement kataCalendar 0 ⟨⟨2025, 12, 9⟩, ⟨720⟩⟩
        (-13421773 / 134217728) = some ⟨⟨2025, 12, 9⟩, ⟨672⟩⟩ := by
  have hw : kataCalendar.stop_.to_duration - kataCalendar.start_.to_duration = 480 := by
    decide
  have habs : |(-13421773 / 134217728 : ℚ)| < 1 := by
    rw [abs_lt]; constructor <;> norm_num
  refine ⟨habs, by decide, by rw [hw, Int.floor_eq_iff]; norm_num, by decide, by decide,
    by decide, ?_⟩
  rw [machine_getWorkdayIncrement_eq_incrementFrom _ _ _ _ (-1) 0 (-48)
    (calculateIncrement_of_neg _ (by norm_num)) (truncToInt_zero_of_abs_lt_one _ habs)
    (machine_increment_480 _ _ _ _ _ hw habs binary32_neg_tenth floor_product_neg_tenth)]
  decide

/-- C8 (amended). Fractional increment inside the window: for a window of less than 2^24
minutes, a start on a working day (a valid date with its year in -32768..32767 and a valid
time of day) and a binary32 increment `w` with `|w| < 1`, if the clamped start time `c` plus
the minute offset `m = floor(fl(D * w))`, `D` the window length in minutes and `fl` the
rounding of the product to binary32, satisfies `workdayStart <= c + m <= workdayStop`, then
`getWorkdayIncrement` returns, whatever the bound on the loops, the time of day `c + m` on
the date of the start. The offset lies between the floor and the ceiling of `D * w`, and
equals the floor when the product is a binary32 value. -/
theorem C8_fraction_inside_window (cfg : WorkdayCalendar) (start : DateTime) (w : ℚ)
    (fuel : Nat) (hw : |w| < 1) (hfloat : Machine.binary32 w = w)
    (hD : (cfg.stop_.to_duration - cfg.start_.to_duration).natAbs < 2 ^ 24)
    (hdate : start.date.ok = true)
    (hy1 : -32768 ≤ start.date.year) (hy2 : start.date.year ≤ 32767)
    (htime : start.time.ok = true)
    (hwork : isWorkday cfg.holidays start.date = true)
    (hlo : cfg.start_.to_duration ≤
      clampStartTime (calculateTimeDuration start.time w cfg.start_ cfg.stop_) +
        ⌊Machine.binary32 (((cfg.stop_.to_duration - cfg.start_.to_duration : Int) : ℚ) * w)⌋)
    (hhi : clampStartTime (calculateTimeDuration start.time w cfg.start_ cfg.stop_) +
        ⌊Machine.binary32 (((cfg.stop_.to_duration - cfg.start_.to_duration : Int) : ℚ) * w)⌋ ≤
      cfg.stop_.to_duration) :
    Machine.getWorkdayIncrement cfg fuel start w =
      some ⟨start.date,
        ⟨clampStartTime (calculateTimeDuration start.time w cfg.start_ cfg.stop_) +
          ⌊Machine.binary32
            (((cfg.stop_.to_duration - cfg.start_.to_duration : Int) : ℚ) * w)⌋⟩⟩ ∧
      ⌊((cfg.stop_.to_duration - cfg.start_.to_duration : Int) : ℚ) * w⌋ ≤
        ⌊Machine.binary32 (((cfg.stop_.to_duration - cfg.start_.to_duration : Int) : ℚ) * w)⌋ ∧
      ⌊Machine.binary32 (((cfg.stop_.to_duration - cfg.start_.to_duration : Int) : ℚ) * w)⌋ ≤
        ⌈((cfg.stop_.to_duration - cfg.start_.to_duration : Int) : ℚ) * w⌉ := by
  have hinc : (Machine.calculateTimeDuration start.time w cfg.start_ cfg.stop_).increment =
      ⌊Machine.binary32
        (((cfg.stop_.to_duration - cfg.start_.to_duration : Int) : ℚ) * w)⌋ := by
    rw [machine_increment_of_abs_lt_one _ _ _ w hw hfloat, binary32_intCast _ (le_of_lt hD)]
  have het := machine_endTime_of_within cfg start w
    (by rw [hinc, machine_clampStartTime_eq]; exact hlo)
    (by rw [hinc, machine_clampStartTime_eq]; exact hhi)
  rw [hinc, machine_clampStartTime_eq] at het
  have hof : Date.ofSysDays (sys_days start.date) = start.date := ofSysDays_sys_days _ hdate
  obtain ⟨hs1, hs2⟩ := sys_days_range_of_ok start.date hdate hy1 hy2
  have hfl : floor_days (Machine.endTime cfg start w).2 = sys_days start.date := by
    rw [het]
    exact floor_days_makeTimepoint start (natAbs_lt_of_ok _ htime)
  refine ⟨?_, ?_⟩
  · have h := machine_getWorkdayIncrement_zero_days cfg fuel 0 start w hw (Nat.zero_le _)
      (by rw [hfl]; exact hs1) (by rw [hfl]; exact hs2) (by simpa [hfl] using hs1)
      (by simpa [hfl] using hs2) (by simpa [hfl, hof] using hwork) (by intro j hj; omega)
    simp only [hfl, Nat.cast_zero, mul_zero, add_zero, hof] at h
    rw [h, het]
  · apply floor_binary32_bounds
    have h1 : |((cfg.stop_.to_duration - cfg.start_.to_duration : Int) : ℚ)| <
        2 ^ (24 : Int) := by
      have h3 : |((cfg.stop_.to_duration - cfg.start_.to_duration : Int) : ℚ)| =
          (((cfg.stop_.to_duration - cfg.start_.to_duration).natAbs : Nat) : ℚ) := by
        rw [Nat.cast_natAbs, Int.cast_abs]
      have h24 : ((2 : ℚ) ^ (24 : Int)) = ((2 ^ 24 : Nat) : ℚ) := by norm_num
      rw [h3, h24]
      exact_mod_cast hD
    rw [abs_mul]
    calc |((cfg.stop_.to_duration - cfg.start_.to_duration : Int) : ℚ)| * |w|
        ≤ |((cfg.stop_.to_duration - cfg.start_.to_duration : Int) : ℚ)| * 1 :=
          mul_le_mul_of_nonneg_left (le_of_lt hw) (abs_nonneg _)
      _ = |((cfg.stop_.to_duration - cfg.start_.to_duration : Int) : ℚ)| := mul_one _
      _ < 2 ^ (24 : Int) := h1

/-- Witness of C8 (amended): the window 08:00 to 16:00 of the kata calendar on Tuesday
2025-12-09; the start 08:00 with +0.5 gives 12:00, and the start 16:00 with -0.5 gives 12:00.
The theorem is applied to the first. -/
theorem C8_fraction_inside_window_witness :
    Machine.getWorkdayIncrement kataCalendar 0 ⟨⟨2025, 12, 9⟩, ⟨960⟩⟩ (-1 / 2) =
        some ⟨⟨2025, 12, 9⟩, ⟨720⟩⟩ ∧
      clampStartTime (calculateTimeDuration (⟨480⟩ : Time) (1 / 2) kataCalendar.start_
          kataCalendar.stop_) +
        ⌊Machine.binary32
          (((kataCalendar.stop_.to_duration - kataCalendar.start_.to_duration : Int) : ℚ) *
            (1 / 2))⌋ = 720 ∧
      (Machine.getWorkdayIncrement kataCalendar 0 ⟨⟨2025, 12, 9⟩, ⟨480⟩⟩ (1 / 2) =
        some ⟨⟨2025, 12, 9⟩,
          ⟨clampStartTime (calculateTimeDuration (⟨480⟩ : Time) (1 / 2) kataCalendar.start_
              kataCalendar.stop_) +
            ⌊Machine.binary32
              (((kataCalendar.stop_.to_duration - kataCalendar.start_.to_duration : Int) : ℚ) *
                (1 / 2))⌋⟩⟩ ∧
        ⌊((kataCalendar.stop_.to_duration - kataCalendar.start_.to_duration : Int) : ℚ) *
            (1 / 2)⌋ ≤
          ⌊Machine.binary32
            (((kataCalendar.stop_.to_duration - kataCalendar.start_.to_duration : Int) : ℚ) *
              (1 / 2))⌋ ∧
        ⌊Machine.binary32
            (((kataCalendar.stop_.to_duration - kataCalendar.start_.to_duration : Int) : ℚ) *
              (1 / 2))⌋ ≤
          ⌈((kataCalendar.stop_.to_duration - kataCalendar.start_.to_duration : Int) : ℚ) *
            (1 / 2)⌉) := by
  have hw : kataCalendar.stop_.to_duration - kataCalendar.start_.to_duration = 480 := by
    decide
  have hc : clampStartTime (calculateTimeDuration (⟨480⟩ : Time) (1 / 2) kataCalendar.start_
      kataCalendar.stop_) = 480 := by
    unfold clampStartTime calculateTimeDuration
    decide
  have hm : ⌊Machine.binary32
      (((kataCalendar.stop_.to_duration - kataCalendar.start_.to_duration : Int) : ℚ) *
        (1 / 2))⌋ = 240 := by
    rw [hw]; exact floor_product_half
  have habs : |(1 / 2 : ℚ)| < 1 := by rw [abs_lt]; constructor <;> norm_num
  have habs2 : |(-1 / 2 : ℚ)| < 1 := by rw [abs_lt]; constructor <;> norm_num
  refine ⟨?_, by rw [hc, hm]; decide,
    C8_fraction_inside_window kataCalendar ⟨⟨2025, 12, 9⟩, ⟨480⟩⟩ (1 / 2) 0 habs binary32_half
      (by rw [hw]; decide) (by decide) (by decide) (by decide) (by decide) (by decide)
      (by rw [hc, hm]; decide) (by rw [hc, hm]; decide)⟩
  rw [machine_getWorkdayIncrement_eq_incrementFrom _ _ _ _ (-1) 0 (-240)
    (calculateIncrement_of_neg _ (by norm_num)) (truncToInt_zero_of_abs_lt_one _ habs2)
    (machine_increment_480 _ _ _ _ _ hw habs2 binary32_neg_half floor_product_neg_half)]
  decide

/-- Counterexample to C9 as stated: on the kata calendar (window 08:00 to 16:00, `D = 480`)
with the start Tuesday 2025-12-09 08:48 and `w = -0.1f`, the offset `m = floor(D * w)` is
-49 and takes the clamped start time 08:48 to 07:59, below `workdayStart`; the claim gives
the time 15:59 on Monday 2025-12-08. But the `float` product `480 * w` rounds to -48, the
time 08:00 is not below `workdayStart`, and the function returns 08:00 on the same day. -/
theorem C9_counterexample :
    (-1 : ℚ) < -13421773 / 134217728 ∧ (-13421773 / 134217728 : ℚ) < 0 ∧
      (⟨528⟩ : Time).ok = true ∧
      clampStartTime (calculateTimeDuration (⟨528⟩ : Time) (-13421773 / 134217728)
        kataCalendar.start_ kataCalendar.stop_) = 528 ∧
      ⌊((kataCalendar.stop_.to_duration - kataCalendar.start_.to_duration : Int) : ℚ) *
        (-13421773 / 134217728)⌋ = -49 ∧
      528 + -49 < kataCalendar.start_.to_duration ∧
      Machine.getWorkdayIncrement kataCalendar 0 ⟨⟨2025, 12, 9⟩, ⟨528⟩⟩
        (-13421773 / 134217728) = some ⟨⟨2025, 12, 9⟩, ⟨480⟩⟩ := by
  have hw : kataCalendar.stop_.to_duration - kataCalendar.start_.to_duration = 480 := by
    decide
  have habs : |(-13421773 / 134217728 : ℚ)| < 1 := by
    rw [abs_lt]; constructor <;> norm_num
  refine ⟨by norm_num, by norm_num, by decide, by decide,
    by rw [hw, Int.floor_eq_iff]; norm_num, by decide, ?_⟩
  rw [machine_getWorkdayIncrement_eq_incrementFrom _ _ _ _ (-1) 0 (-48)
    (calculateIncrement_of_neg _ (by norm_num)) (truncToInt_zero_of_abs_lt_one _ habs)
    (machine_increment_480 _ _ _ _ _ hw habs binary32_neg_tenth floor_product_neg_tenth)]
  decide

/-- C9 (amended). Backward boundary carry: for a window of less than 2^24 minutes, a start
with a valid time of day whose date is not after 32767-12-31, and a binary32 increment `w`
in `(-1, 0)` whose minute offset `m = floor(fl(D * w))`, `fl` the rounding of the product to
binary32, takes the clamped start time `c` below `workdayStart`: when some working day lies
before the start date `d` and not before -32768-01-01, the function returns, every result
has the time `workdayStop - (workdayStart - (c + m))`, and its date is the latest working
day strictly before `d`: it is a working day before `d` and no day between it and `d` is
one. -/
theorem C9_backward_carry (cfg : WorkdayCalendar) (start : DateTime) (w : ℚ)
    (hw0 : -1 < w) (hw1 : w < 0) (hfloat : Machine.binary32 w = w)
    (hD : (cfg.stop_.to_duration - cfg.start_.to_duration).natAbs < 2 ^ 24)
    (htime : start.time.ok = true)
    (hs2 : sys_days start.date ≤ Machine.lastDay)
    (hlt : clampStartTime (calculateTimeDuration start.time w cfg.start_ cfg.stop_) +
        ⌊Machine.binary32 (((cfg.stop_.to_duration - cfg.start_.to_duration : Int) : ℚ) * w)⌋ <
      cfg.start_.to_duration)
    (hex : ∃ z : Int, z < sys_days start.date ∧ Machine.firstDay ≤ z ∧
      isWorkday cfg.holidays (Date.ofSysDays z) = true) :
    ∃ r : DateTime,
      (∃ fuel : Nat, Machine.getWorkdayIncrement cfg fuel start w = some r) ∧
      (∀ (fuel : Nat) (r' : DateTime),
        Machine.getWorkdayIncrement cfg fuel start w = some r' → r' = r) ∧
      r.time.to_duration = cfg.stop_.to_duration - (cfg.start_.to_duration -
        (clampStartTime (calculateTimeDuration start.time w cfg.start_ cfg.stop_) +
          ⌊Machine.binary32
            (((cfg.stop_.to_duration - cfg.start_.to_duration : Int) : ℚ) * w)⌋)) ∧
      sys_days r.date < sys_days start.date ∧
      isWorkday cfg.holidays r.date = true ∧
      ∀ z : Int, sys_days r.date < z → z < sys_days start.date →
        isWorkday cfg.holidays (Date.ofSysDays z) = false := by
  have hw := abs_lt_one_of_neg w hw0 hw1
  have hinc : (Machine.calculateTimeDuration start.time w cfg.start_ cfg.stop_).increment =
      ⌊Machine.binary32
        (((cfg.stop_.to_duration - cfg.start_.to_duration : Int) : ℚ) * w)⌋ := by
    rw [machine_increment_of_abs_lt_one _ _ _ w hw hfloat, binary32_intCast _ (le_of_lt hD)]
  have het := machine_endTime_of_under cfg start w
    (by rw [hinc, machine_clampStartTime_eq]; exact hlt)
  rw [hinc, machine_clampStartTime_eq] at het
  have hfl : floor_days (Machine.endTime cfg start w).2 = sys_days start.date - 1 := by
    rw [het]
    have := floor_days_add (makeTimepoint start) (-1)
    have h2 := floor_days_makeTimepoint start (natAbs_lt_of_ok _ htime)
    simp only [sub_eq_add_neg, ← neg_mul] at *
    rw [← h2, ← this]
    norm_num
  have hi := calculateIncrement_of_neg w hw1
  obtain ⟨z, hz, hz1, hwz⟩ := hex
  classical
  have hex' : ∃ k : Nat, isWorkday cfg.holidays
      (Date.ofSysDays (sys_days start.date - 1 + -1 * (k : Int))) = true := by
    refine ⟨(sys_days start.date - 1 - z).toNat, ?_⟩
    rw [← hwz]
    congr 2
    omega
  have hmin : Nat.find hex' ≤ (sys_days start.date - 1 - z).toNat := by
    apply Nat.find_min'
    rw [← hwz]
    congr 2
    omega
  have hres := machine_getWorkdayIncrement_zero_days cfg (Nat.find hex') (Nat.find hex') start
    w hw (le_refl _) (by rw [hfl]; omega) (by rw [hfl]; omega) (by rw [hfl, hi]; omega)
    (by rw [hfl, hi]; omega) (by rw [hfl, hi]; exact Nat.find_spec hex')
    (by
      intro j hj
      rw [hfl, hi]
      have := Nat.find_min hex' hj
      simpa using this)
  rw [hfl, hi] at hres
  refine ⟨_, ⟨_, hres⟩, fun fuel r' h' =>
    machine_getWorkdayIncrement_unique cfg _ fuel start _ _ r' hres h', by rw [het]; rfl,
    by simp only [sys_days_ofSysDays]; omega, Nat.find_spec hex', ?_⟩
  intro x hx1 hx2
  simp only [sys_days_ofSysDays] at hx1
  have := Nat.find_min hex' (show (sys_days start.date - 1 - x).toNat < Nat.find hex' by omega)
  rw [Bool.not_eq_true] at this
  rw [← this]
  congr 2
  omega

/-- Counterexample to C10 as stated: on the kata calendar (window 08:00 to 16:00, `D = 480`)
with the start Tuesday 2025-12-09 16:00 and `w = 0.7f`, the offset `m = floor(D * w)` is 335,
since the binary32 value of 0.7 lies just below 0.7, and the claim gives the time 13:35
on the next working day. But the `float` product `480 * w` rounds to 336 and the function
returns 13:36. -/
theorem C10_counterexample :
    (0 : ℚ) < 11744051 / 16777216 ∧ (11744051 / 16777216 : ℚ) < 1 ∧
      (⟨960⟩ : Time).ok = true ∧
      clampStartTime (calculateTimeDuration (⟨960⟩ : Time) (11744051 / 16777216)
        kataCalendar.start_ kataCalendar.stop_) = 960 ∧
      ⌊((kataCalendar.stop_.to_duration - kataCalendar.start_.to_duration : Int) : ℚ) *
        (11744051 / 16777216)⌋ = 335 ∧
      kataCalendar.stop_.to_duration < 960 + 335 ∧
      kataCalendar.start_.to_duration + (960 + 335 - kataCalendar.stop_.to_duration) = 815 ∧
      Machine.getWorkdayIncrement kataCalendar 0 ⟨⟨2025, 12, 9⟩, ⟨960⟩⟩
        (11744051 / 16777216) = some ⟨⟨2025, 12, 10⟩, ⟨816⟩⟩ := by
  have hw : kataCalendar.stop_.to_duration - kataCalendar.start_.to_duration = 480 := by
    decide
  have habs : |(11744051 / 16777216 : ℚ)| < 1 := by
    rw [abs_lt]; constructor <;> norm_num
  refine ⟨by norm_num, by norm_num, by decide, by decide,
    by rw [hw, Int.floor_eq_iff]; norm_num, by decide, by decide, ?_⟩
  rw [machine_getWorkdayIncrement_eq_incrementFrom _ _ _ _ 1 0 336
    (calculateIncrement_of_nonneg _ (by norm_num)) (truncToInt_zero_of_abs_lt_one _ habs)
    (machine_increment_480 _ _ _ _ _ hw habs binary32_seven_tenths
      floor_product_seven_tenths)]
  decide

/-- C10 (amended). Forward boundary carry: for a window of less than 2^24 minutes with
`workdayStart <= workdayStop`, a start with a valid time of day whose date is not before
-32768-01-01, and a binary32 increment `w` in `(0, 1)` whose minute offset
`m = floor(fl(D * w))`, `fl` the rounding of the product to binary32, takes the clamped start
time `c` above `workdayStop`: when some working day lies after the start date `d` and not
after 32767-12-31, the function returns, every result has the time
`workdayStart + ((c + m) - workdayStop)`, and its date is the earliest working day strictly
after `d`: it is a working day after `d` and no day between `d` and it is one. -/
theorem C10_forward_carry (cfg : WorkdayCalendar) (start : DateTime) (w : ℚ)
    (hw0 : 0 < w) (hw1 : w < 1) (hfloat : Machine.binary32 w = w)
    (hD : (cfg.stop_.to_duration - cfg.start_.to_duration).natAbs < 2 ^ 24)
    (htime : start.time.ok = true)
    (hwin : cfg.start_.to_duration ≤ cfg.stop_.to_duration)
    (hs1 : Machine.firstDay ≤ sys_days start.date)
    (hgt : cfg.stop_.to_duration <
      clampStartTime (calculateTimeDuration start.time w cfg.start_ cfg.stop_) +
        ⌊Machine.binary32 (((cfg.stop_.to_duration - cfg.start_.to_duration : Int) : ℚ) * w)⌋)
    (hex : ∃ z : Int, sys_days start.date < z ∧ z ≤ Machine.lastDay ∧
      isWorkday cfg.holidays (Date.ofSysDays z) = true) :
    ∃ r : DateTime,
      (∃ fuel : Nat, Machine.getWorkdayIncrement cfg fuel start w = some r) ∧
      (∀ (fuel : Nat) (r' : DateTime),
        Machine.getWorkdayIncrement cfg fuel start w = some r' → r' = r) ∧
      r.time.to_duration = cfg.start_.to_duration +
        (clampStartTime (calculateTimeDuration start.time w cfg.start_ cfg.stop_) +
          ⌊Machine.binary32
            (((cfg.stop_.to_duration - cfg.start_.to_duration : Int) : ℚ) * w)⌋ -
              cfg.stop_.to_duration) ∧
      sys_days start.date < sys_days r.date ∧
      isWorkday cfg.holidays r.date = true ∧
      ∀ z : Int, sys_days start.date < z → z < sys_days r.date →
        isWorkday cfg.holidays (Date.ofSysDays z) = false := by
  have hw := abs_lt_one_of_pos w hw0 hw1
  have hinc : (Machine.calculateTimeDuration start.time w cfg.start_ cfg.stop_).increment =
      ⌊Machine.binary32
        (((cfg.stop_.to_duration - cfg.start_.to_duration : Int) : ℚ) * w)⌋ := by
    rw [machine_increment_of_abs_lt_one _ _ _ w hw hfloat, binary32_intCast _ (le_of_lt hD)]
  have het := machine_endTime_of_over cfg start w
    (by rw [hinc, machine_clampStartTime_eq]; omega)
    (by rw [hinc, machine_clampStartTime_eq]; exact hgt)
  rw [hinc, machine_clampStartTime_eq] at het
  have hfl : floor_days (Machine.endTime cfg start w).2 = sys_days start.date + 1 := by
    rw [het]
    have := floor_days_add (makeTimepoint start) 1
    have h2 := floor_days_makeTimepoint start (natAbs_lt_of_ok _ htime)
    rw [← h2, ← this]
    norm_num
  have hi := calculateIncrement_of_nonneg w (le_of_lt hw0)
  obtain ⟨z, hz, hz2, hwz⟩ := hex
  classical
  have hex' : ∃ k : Nat, isWorkday cfg.holidays
      (Date.ofSysDays (sys_days start.date + 1 + 1 * (k : Int))) = true := by
    refine ⟨(z - (sys_days start.date + 1)).toNat, ?_⟩
    rw [← hwz]
    congr 2
    omega
  have hmin : Nat.find hex' ≤ (z - (sys_days start.date + 1)).toNat := by
    apply Nat.find_min'
    rw [← hwz]
    congr 2
    omega
  have hres := machine_getWorkdayIncrement_zero_days cfg (Nat.find hex') (Nat.find hex') start
    w hw (le_refl _) (by rw [hfl]; omega) (by rw [hfl]; omega) (by rw [hfl, hi]; omega)
    (by rw [hfl, hi]; omega) (by rw [hfl, hi]; exact Nat.find_spec hex')
    (by
      intro j hj
      rw [hfl, hi]
      have := Nat.find_min hex' hj
      simpa using this)
  rw [hfl, hi] at hres
  refine ⟨_, ⟨_, hres⟩, fun fuel r' h' =>
    machine_getWorkdayIncrement_unique cfg _ fuel start _ _ r' hres h', by rw [het]; rfl,
    by simp only [sys_days_ofSysDays]; omega, Nat.find_spec hex', ?_⟩
  intro x hx1 hx2
  simp only [sys_days_ofSysDays] at hx2
  have := Nat.find_min hex'
    (show (x - (sys_days start.date + 1)).toNat < Nat.find hex' by omega)
  rw [Bool.not_eq_true] at this
  rw [← this]
  congr 2
  omega

/-- Witness of C9 (amended): the window 08:00 to 16:00 of the kata calendar, `w = -0.5` and
the start time 06:00 of the tests; Tuesday 2025-12-09 gives Monday 2025-12-08 12:00 and
Monday 2025-12-08 gives Friday 2025-12-05 12:00. The theorem is applied to the second
start, with Friday 2025-12-05 as the working day before it. -/
theorem C9_backward_carry_witness :
    Machine.getWorkdayIncrement kataCalendar 0 ⟨⟨2025, 12, 9⟩, ⟨360⟩⟩ (-1 / 2) =
        some ⟨⟨2025, 12, 8⟩, ⟨720⟩⟩ ∧
      Machine.getWorkdayIncrement kataCalendar 2 ⟨⟨2025, 12, 8⟩, ⟨360⟩⟩ (-1 / 2) =
        some ⟨⟨2025, 12, 5⟩, ⟨720⟩⟩ ∧
      ((-1 : ℚ) < -1 / 2 ∧ (-1 / 2 : ℚ) < 0 ∧ Machine.binary32 (-1 / 2) = -1 / 2 ∧
        (kataCalendar.stop_.to_duration - kataCalendar.start_.to_duration).natAbs < 2 ^ 24 ∧
        (⟨360⟩ : Time).ok = true ∧ sys_days (⟨2025, 12, 8⟩ : Date) ≤ Machine.lastDay ∧
        clampStartTime (calculateTimeDuration (⟨360⟩ : Time) (-1 / 2) kataCalendar.start_
            kataCalendar.stop_) +
          ⌊Machine.binary32
            (((kataCalendar.stop_.to_duration - kataCalendar.start_.to_duration : Int) : ℚ) *
              (-1 / 2))⌋ < kataCalendar.start_.to_duration ∧
        (∃ z : Int, z < sys_days (⟨2025, 12, 8⟩ : Date) ∧ Machine.firstDay ≤ z ∧
          isWorkday kataCalendar.holidays (Date.ofSysDays z) = true)) ∧
      ∃ r : DateTime,
        (∃ fuel : Nat,
          Machine.getWorkdayIncrement kataCalendar fuel ⟨⟨2025, 12, 8⟩, ⟨360⟩⟩ (-1 / 2) =
            some r) ∧
        (∀ (fuel : Nat) (r' : DateTime),
          Machine.getWorkdayIncrement kataCalendar fuel ⟨⟨2025, 12, 8⟩, ⟨360⟩⟩ (-1 / 2) =
            some r' → r' = r) ∧
        r.time.to_duration = kataCalendar.stop_.to_duration -
          (kataCalendar.start_.to_duration -
            (clampStartTime (calculateTimeDuration (⟨360⟩ : Time) (-1 / 2)
                kataCalendar.start_ kataCalendar.stop_) +
              ⌊Machine.binary32
                (((kataCalendar.stop_.to_duration - kataCalendar.start_.to_duration : Int) :
                  ℚ) * (-1 / 2))⌋)) ∧
        sys_days r.date < sys_days (⟨2025, 12, 8⟩ : Date) ∧
        isWorkday kataCalendar.holidays r.date = true ∧
        ∀ z : Int, sys_days r.date < z → z < sys_days (⟨2025, 12, 8⟩ : Date) →
          isWorkday kataCalendar.holidays (Date.ofSysDays z) = false := by
  have hw : kataCalendar.stop_.to_duration - kataCalendar.start_.to_duration = 480 := by
    decide
  have hc : clampStartTime (calculateTimeDuration (⟨360⟩ : Time) (-1 / 2) kataCalendar.start_
      kataCalendar.stop_) = 480 := by
    unfold clampStartTime calculateTimeDuration
    decide
  have hm : ⌊Machine.binary32
      (((kataCalendar.stop_.to_duration - kataCalendar.start_.to_duration : Int) : ℚ) *
        (-1 / 2))⌋ = -240 := by
    rw [hw]; exact floor_product_neg_half
  have hlt : clampStartTime (calculateTimeDuration (⟨360⟩ : Time) (-1 / 2)
        kataCalendar.start_ kataCalendar.stop_) +
      ⌊Machine.binary32
        (((kataCalendar.stop_.to_duration - kataCalendar.start_.to_duration : Int) : ℚ) *
          (-1 / 2))⌋ < kataCalendar.start_.to_duration := by
    rw [hc, hm]; decide
  have habs : |(-1 / 2 : ℚ)| < 1 := by rw [abs_lt]; constructor <;> norm_num
  have hex : ∃ z : Int, z < sys_days (⟨2025, 12, 8⟩ : Date) ∧ Machine.firstDay ≤ z ∧
      isWorkday kataCalendar.holidays (Date.ofSysDays z) = true :=
    ⟨sys_days ⟨2025, 12, 5⟩, by decide, by decide, by decide⟩
  refine ⟨?_, ?_, ⟨by norm_num, by norm_num, binary32_neg_half, by rw [hw]; decide, by decide,
      by decide, hlt, hex⟩,
    C9_backward_carry kataCalendar ⟨⟨2025, 12, 8⟩, ⟨360⟩⟩ (-1 / 2) (by norm_num) (by norm_num)
      binary32_neg_half (by rw [hw]; decide) (by decide) (by decide) hlt hex⟩
  · rw [machine_getWorkdayIncrement_eq_incrementFrom _ _ _ _ (-1) 0 (-240)
      (calculateIncrement_of_neg _ (by norm_num)) (truncToInt_zero_of_abs_lt_one _ habs)
      (machine_increment_480 _ _ _ _ _ hw habs binary32_neg_half floor_product_neg_half)]
    decide
  · rw [machine_getWorkdayIncrement_eq_incrementFrom _ _ _ _ (-1) 0 (-240)
      (calculateIncrement_of_neg _ (by norm_num)) (truncToInt_zero_of_abs_lt_one _ habs)
      (machine_increment_480 _ _ _ _ _ hw habs binary32_neg_half floor_product_neg_half)]
    decide

/-- Witness of C10 (amended): the window 08:00 to 16:00 of the kata calendar, `w = +0.5` and
the start time 18:00 of the tests; Tuesday 2025-12-09 gives Wednesday 2025-12-10 12:00 and
Friday 2025-12-05 gives Monday 2025-12-08 12:00. The theorem is applied to the second
start, with Monday 2025-12-08 as the working day after it. -/
theorem C10_forward_carry_witness :
    Machine.getWorkdayIncrement kataCalendar 0 ⟨⟨2025, 12, 9⟩, ⟨1080⟩⟩ (1 / 2) =
        some ⟨⟨2025, 12, 10⟩, ⟨720⟩⟩ ∧
      Machine.getWorkdayIncrement kataCalendar 2 ⟨⟨2025, 12, 5⟩, ⟨1080⟩⟩ (1 / 2) =
        some ⟨⟨2025, 12, 8⟩, ⟨720⟩⟩ ∧
      ((0 : ℚ) < 1 / 2 ∧ (1 / 2 : ℚ) < 1 ∧ Machine.binary32 (1 / 2) = 1 / 2 ∧
        (kataCalendar.stop_.to_duration - kataCalendar.start_.to_duration).natAbs < 2 ^ 24 ∧
        (⟨1080⟩ : Time).ok = true ∧
        kataCalendar.start_.to_duration ≤ kataCalendar.stop_.to_duration ∧
        Machine.firstDay ≤ sys_days (⟨2025, 12, 5⟩ : Date) ∧
        kataCalendar.stop_.to_duration <
          clampStartTime (calculateTimeDuration (⟨1080⟩ : Time) (1 / 2) kataCalendar.start_
              kataCalendar.stop_) +
            ⌊Machine.binary32
              (((kataCalendar.stop_.to_duration - kataCalendar.start_.to_duration : Int) : ℚ) *
                (1 / 2))⌋ ∧
        (∃ z : Int, sys_days (⟨2025, 12, 5⟩ : Date) < z ∧ z ≤ Machine.lastDay ∧
          isWorkday kataCalendar.holidays (Date.ofSysDays z) = true)) ∧
      ∃ r : DateTime,
        (∃ fuel : Nat,
          Machine.getWorkdayIncrement kataCalendar fuel ⟨⟨2025, 12, 5⟩, ⟨1080⟩⟩ (1 / 2) =
            some r) ∧
        (∀ (fuel : Nat) (r' : DateTime),
          Machine.getWorkdayIncrement kataCalendar fuel ⟨⟨2025, 12, 5⟩, ⟨1080⟩⟩ (1 / 2) =
            some r' → r' = r) ∧
        r.time.to_duration = kataCalendar.start_.to_duration +
          (clampStartTime (calculateTimeDuration (⟨1080⟩ : Time) (1 / 2)
              kataCalendar.start_ kataCalendar.stop_) +
            ⌊Machine.binary32
              (((kataCalendar.stop_.to_duration - kataCalendar.start_.to_duration : Int) : ℚ) *
                (1 / 2))⌋ - kataCalendar.stop_.to_duration) ∧
        sys_days (⟨2025, 12, 5⟩ : Date) < sys_days r.date ∧
        isWorkday kataCalendar.holidays r.date = true ∧
        ∀ z : Int, sys_days (⟨2025, 12, 5⟩ : Date) < z → z < sys_days r.date →
          isWorkday kataCalendar.holidays (Date.ofSysDays z) = false := by
  have hw : kataCalendar.stop_.to_duration - kataCalendar.start_.to_duration = 480 := by
    decide
  have hc : clampStartTime (calculateTimeDuration (⟨1080⟩ : Time) (1 / 2) kataCalendar.start_
      kataCalendar.stop_) = 960 := by
    unfold clampStartTime calculateTimeDuration
    decide
  have hm : ⌊Machine.binary32
      (((kataCalendar.stop_.to_duration - kataCalendar.start_.to_duration : Int) : ℚ) *
        (1 / 2))⌋ = 240 := by
    rw [hw]; exact floor_product_half
  have hgt : kataCalendar.stop_.to_duration <
      clampStartTime (calculateTimeDuration (⟨1080⟩ : Time) (1 / 2)
        kataCalendar.start_ kataCalendar.stop_) +
      ⌊Machine.binary32
        (((kataCalendar.stop_.to_duration - kataCalendar.start_.to_duration : Int) : ℚ) *
          (1 / 2))⌋ := by
    rw [hc, hm]; decide
  have habs : |(1 / 2 : ℚ)| < 1 := by rw [abs_lt]; constructor <;> norm_num
  have hex : ∃ z : Int, sys_days (⟨2025, 12, 5⟩ : Date) < z ∧ z ≤ Machine.lastDay ∧
      isWorkday kataCalendar.holidays (Date.ofSysDays z) = true :=
    ⟨sys_days ⟨2025, 12, 8⟩, by decide, by decide, by decide⟩
  refine ⟨?_, ?_, ⟨by norm_num, by norm_num, binary32_half, by rw [hw]; decide, by decide,
      by decide, by decide, hgt, hex⟩,
    C10_forward_carry kataCalendar ⟨⟨2025, 12, 5⟩, ⟨1080⟩⟩ (1 / 2) (by norm_num) (by norm_num)
      binary32_half (by rw [hw]; decide) (by decide) (by decide) (by decide) hgt hex⟩
  · rw [machine_getWorkdayIncrement_eq_incrementFrom _ _ _ _ 1 0 240
      (calculateIncrement_of_nonneg _ (by norm_num)) (truncToInt_zero_of_abs_lt_one _ habs)
      (machine_increment_480 _ _ _ _ _ hw habs binary32_half floor_product_half)]
    decide
  · rw [machine_getWorkdayIncrement_eq_incrementFrom _ _ _ _ 1 0 240
      (calculateIncrement_of_nonneg _ (by norm_num)) (truncToInt_zero_of_abs_lt_one _ habs)
      (machine_increment_480 _ _ _ _ _ hw habs binary32_half floor_product_half)]
    decide

/-- Counterexample to C11 as stated: for the window 08:00 to 16:00 (`D = 480`) and
`w = 0.7f`, the binary32 value nearest to 0.7, the exact product `D * (w - truncate(w))` is
335.999994..., whose floor is 335; the `float` product rounds to 336 and the `increment`
field of `calculateTimeDuration` is 336. -/
theorem C11_counterexample :
    Machine.binary32 (11744051 / 16777216) = 11744051 / 16777216 ∧
      ⌊(((⟨960⟩ : Time).to_duration - (⟨480⟩ : Time).to_duration : Int) : ℚ) *
        ((11744051 / 16777216 : ℚ) - (truncToInt (11744051 / 16777216) : ℚ))⌋ = 335 ∧
      (Machine.calculateTimeDuration ⟨480⟩ (11744051 / 16777216) ⟨480⟩ ⟨960⟩).increment =
        336 := by
  have habs : |(11744051 / 16777216 : ℚ)| < 1 := by
    rw [abs_lt]; constructor <;> norm_num
  refine ⟨binary32_seven_tenths, ?_, ?_⟩
  · rw [truncToInt_zero_of_abs_lt_one _ habs, Int.floor_eq_iff]
    norm_num [Time.to_duration]
  · exact machine_increment_480 _ _ _ _ _ (by decide) habs binary32_seven_tenths
      floor_product_seven_tenths

/-- C11 (amended). The minute offset of the fractional part is
`floor(fl(D * (w - truncate(w))))`, where `D = workdayStop - workdayStart` in minutes, of
magnitude below 2^24, `w` is a binary32 value, `truncate(w)` is its integer part toward
zero and `fl` rounds the product to binary32 (the subtraction is exact). The offset lies
between the floor and the ceiling of the exact product, so it is never below the greatest
integer not above the product and never above the product's truncation when the product is
negative; it is the greatest integer not above the product whenever the product is a
binary32 value. -/
theorem C11_fraction_minutes (startTime startWorkday stopWorkday : Time) (w : ℚ)
    (hfloat : Machine.binary32 w = w)
    (hD : (stopWorkday.to_duration - startWorkday.to_duration).natAbs < 2 ^ 24) :
    (Machine.calculateTimeDuration startTime w startWorkday stopWorkday).increment =
        ⌊Machine.binary32 (((stopWorkday.to_duration - startWorkday.to_duration : Int) : ℚ) *
          (w - (truncToInt w : ℚ)))⌋ ∧
      ⌊((stopWorkday.to_duration - startWorkday.to_duration : Int) : ℚ) *
          (w - (truncToInt w : ℚ))⌋ ≤
        (Machine.calculateTimeDuration startTime w startWorkday stopWorkday).increment ∧
      (Machine.calculateTimeDuration startTime w startWorkday stopWorkday).increment ≤
        ⌈((stopWorkday.to_duration - startWorkday.to_duration : Int) : ℚ) *
          (w - (truncToInt w : ℚ))⌉ ∧
      ((0 ≤ w → (truncToInt w : ℚ) ≤ w ∧ w < (truncToInt w : ℚ) + 1) ∧
        (w < 0 → w ≤ (truncToInt w : ℚ) ∧ (truncToInt w : ℚ) - 1 < w)) ∧
      (((stopWorkday.to_duration - startWorkday.to_duration : Int) : ℚ) *
          (w - (truncToInt w : ℚ)) < 0 →
        (Machine.calculateTimeDuration startTime w startWorkday stopWorkday).increment ≤
          truncToInt (((stopWorkday.to_duration - startWorkday.to_duration : Int) : ℚ) *
            (w - (truncToInt w : ℚ)))) ∧
      (Machine.binary32 (((stopWorkday.to_duration - startWorkday.to_duration : Int) : ℚ) *
          (w - (truncToInt w : ℚ))) =
        ((stopWorkday.to_duration - startWorkday.to_duration : Int) : ℚ) *
          (w - (truncToInt w : ℚ)) →
        (Machine.calculateTimeDuration startTime w startWorkday stopWorkday).increment =
          ⌊((stopWorkday.to_duration - startWorkday.to_duration : Int) : ℚ) *
            (w - (truncToInt w : ℚ))⌋) := by
  have hdef : (Machine.calculateTimeDuration startTime w startWorkday stopWorkday).increment =
      ⌊Machine.binary32 (((stopWorkday.to_duration - startWorkday.to_duration : Int) : ℚ) *
        (w - (truncToInt w : ℚ)))⌋ := by
    rw [machine_increment_eq _ _ _ w hfloat, binary32_intCast _ (le_of_lt hD)]
  have hb := truncToInt_fract_bounds w
  have hfr : |w - (truncToInt w : ℚ)| ≤ 1 := by
    rw [abs_le]
    rcases le_or_lt 0 w with h | h
    · have := hb.1 h
      constructor <;> linarith
    · have := hb.2 h
      constructor <;> linarith
  have hx : |((stopWorkday.to_duration - startWorkday.to_duration : Int) : ℚ) *
      (w - (truncToInt w : ℚ))| < 2 ^ (24 : Int) := by
    have h1 : |((stopWorkday.to_duration - startWorkday.to_duration : Int) : ℚ)| <
        2 ^ (24 : Int) := by
      have h3 : |((stopWorkday.to_duration - startWorkday.to_duration : Int) : ℚ)| =
          (((stopWorkday.to_duration - startWorkday.to_duration).natAbs : Nat) : ℚ) := by
        rw [Nat.cast_natAbs, Int.cast_abs]
      have h24 : ((2 : ℚ) ^ (24 : Int)) = ((2 ^ 24 : Nat) : ℚ) := by norm_num
      rw [h3, h24]
      exact_mod_cast hD
    rw [abs_mul]
    calc |((stopWorkday.to_duration - startWorkday.to_duration : Int) : ℚ)| *
          |w - (truncToInt w : ℚ)|
        ≤ |((stopWorkday.to_duration - startWorkday.to_duration : Int) : ℚ)| * 1 :=
          mul_le_mul_of_nonneg_left hfr (abs_nonneg _)
      _ = |((stopWorkday.to_duration - startWorkday.to_duration : Int) : ℚ)| := mul_one _
      _ < 2 ^ (24 : Int) := h1
  obtain ⟨hlo, hhi⟩ := floor_binary32_bounds _ hx
  refine ⟨hdef, by rw [hdef]; exact hlo, by rw [hdef]; exact hhi, ⟨?_, ?_⟩, ?_, ?_⟩
  · intro h
    have := hb.1 h
    constructor <;> linarith
  · intro h
    have := hb.2 h
    constructor <;> linarith
  · intro hneg
    rw [hdef]
    have e : truncToInt (((stopWorkday.to_duration - startWorkday.to_duration : Int) : ℚ) *
        (w - (truncToInt w : ℚ))) =
        ⌈((stopWorkday.to_duration - startWorkday.to_duration : Int) : ℚ) *
          (w - (truncToInt w : ℚ))⌉ := by
      generalize ((stopWorkday.to_duration - startWorkday.to_duration : Int) : ℚ) *
        (w - (truncToInt w : ℚ)) = p at hneg
      unfold truncToInt
      rw [if_neg (not_le.2 hneg)]
    rw [e]
    exact hhi
  · intro hex
    rw [hdef, hex]

/-- Witness of C11 (amended): the two increments of the kata tests on the window 08:00 to
16:00, as the binary32 values nearest to -6.7470217 and 44.723656; the products are
binary32 values and the offsets are -359 and +347 minutes. The theorem is applied to the
first. -/
theorem C11_fraction_minutes_witness :
    (Machine.calculateTimeDuration ⟨960⟩ (-7074765 / 1048576) ⟨480⟩ ⟨960⟩).increment = -359 ∧
      (Machine.calculateTimeDuration ⟨480⟩ (5862019 / 131072) ⟨480⟩ ⟨960⟩).increment = 347 ∧
      (Machine.binary32 (-7074765 / 1048576) = -7074765 / 1048576 ∧
        ((⟨960⟩ : Time).to_duration - (⟨480⟩ : Time).to_duration).natAbs < 2 ^ 24) ∧
      ((Machine.calculateTimeDuration ⟨960⟩ (-7074765 / 1048576) ⟨480⟩ ⟨960⟩).increment =
        ⌊Machine.binary32 ((((⟨960⟩ : Time).to_duration - (⟨480⟩ : Time).to_duration : Int) :
          ℚ) * ((-7074765 / 1048576 : ℚ) - (truncToInt (-7074765 / 1048576) : ℚ)))⌋ ∧
      ⌊(((⟨960⟩ : Time).to_duration - (⟨480⟩ : Time).to_duration : Int) : ℚ) *
          ((-7074765 / 1048576 : ℚ) - (truncToInt (-7074765 / 1048576) : ℚ))⌋ ≤
        (Machine.calculateTimeDuration ⟨960⟩ (-7074765 / 1048576) ⟨480⟩ ⟨960⟩).increment ∧
      (Machine.calculateTimeDuration ⟨960⟩ (-7074765 / 1048576) ⟨480⟩ ⟨960⟩).increment ≤
        ⌈(((⟨960⟩ : Time).to_duration - (⟨480⟩ : Time).to_duration : Int) : ℚ) *
          ((-7074765 / 1048576 : ℚ) - (truncToInt (-7074765 / 1048576) : ℚ))⌉ ∧
      (((0 : ℚ) ≤ -7074765 / 1048576 →
          (truncToInt (-7074765 / 1048576) : ℚ) ≤ -7074765 / 1048576 ∧
          (-7074765 / 1048576 : ℚ) < (truncToInt (-7074765 / 1048576) : ℚ) + 1) ∧
        ((-7074765 / 1048576 : ℚ) < 0 →
          (-7074765 / 1048576 : ℚ) ≤ (truncToInt (-7074765 / 1048576) : ℚ) ∧
          (truncToInt (-7074765 / 1048576) : ℚ) - 1 < -7074765 / 1048576)) ∧
      ((((⟨960⟩ : Time).to_duration - (⟨480⟩ : Time).to_duration : Int) : ℚ) *
          ((-7074765 / 1048576 : ℚ) - (truncToInt (-7074765 / 1048576) : ℚ)) < 0 →
        (Machine.calculateTimeDuration ⟨960⟩ (-7074765 / 1048576) ⟨480⟩ ⟨960⟩).increment ≤
          truncToInt ((((⟨960⟩ : Time).to_duration - (⟨480⟩ : Time).to_duration : Int) : ℚ) *
            ((-7074765 / 1048576 : ℚ) - (truncToInt (-7074765 / 1048576) : ℚ)))) ∧
      (Machine.binary32 ((((⟨960⟩ : Time).to_duration - (⟨480⟩ : Time).to_duration : Int) :
          ℚ) * ((-7074765 / 1048576 : ℚ) - (truncToInt (-7074765 / 1048576) : ℚ))) =
        (((⟨960⟩ : Time).to_duration - (⟨480⟩ : Time).to_duration : Int) : ℚ) *
          ((-7074765 / 1048576 : ℚ) - (truncToInt (-7074765 / 1048576) : ℚ)) →
        (Machine.calculateTimeDuration ⟨960⟩ (-7074765 / 1048576) ⟨480⟩ ⟨960⟩).increment =
          ⌊(((⟨960⟩ : Time).to_duration - (⟨480⟩ : Time).to_duration : Int) : ℚ) *
            ((-7074765 / 1048576 : ℚ) - (truncToInt (-7074765 / 1048576) : ℚ))⌋)) := by
  have hf1 : Machine.binary32 (-7074765 / 1048576) = -7074765 / 1048576 :=
    binary32_of_scaled _ (-7074765) (-20) (by norm_num) (by norm_num) (by norm_num)
  have hf2 : Machine.binary32 (5862019 / 131072) = 5862019 / 131072 :=
    binary32_of_scaled _ 5862019 (-17) (by norm_num) (by norm_num) (by norm_num)
  have hD : (⟨960⟩ : Time).to_duration - (⟨480⟩ : Time).to_duration = 480 := by decide
  refine ⟨?_, ?_, ⟨hf1, by decide⟩,
    C11_fraction_minutes ⟨960⟩ ⟨480⟩ ⟨960⟩ (-7074765 / 1048576) hf1 (by decide)⟩
  · rw [machine_increment_eq _ _ _ _ hf1, hD, binary32_intCast 480 (by decide),
      truncToInt_of_neg (-7074765 / 1048576) (-6) (by norm_num) (by norm_num) (by norm_num),
      binary32_of_scaled _ (-11749635) (-15) (by norm_num) (by norm_num) (by norm_num),
      Int.floor_eq_iff]
    norm_num
  · rw [machine_increment_eq _ _ _ _ hf2, hD, binary32_intCast 480 (by decide),
      truncToInt_of_nonneg (5862019 / 131072) 44 (by norm_num) (by norm_num) (by norm_num),
      binary32_of_scaled _ 11382120 (-15) (by norm_num) (by norm_num) (by norm_num),
      Int.floor_eq_iff]
    norm_num

/-- Counterexample to C23 as stated: on the default calendar the start Saturday
32767-12-30 00:00 is a weekend day; the earliest working day after it is Monday
32768-01-01, whose year a 16-bit `year` stores as -32768, and with a zero increment the
function returns -32768-01-01, a date before the start date. -/
theorem C23_counterexample :
    ({} : WorkdayCalendar).start_.to_duration ≤ ({} : WorkdayCalendar).stop_.to_duration ∧
      (⟨32767, 12, 30⟩ : Date).ok = true ∧ (⟨0⟩ : Time).ok = true ∧
      weekday (⟨32767, 12, 30⟩ : Date) = Saturday ∧
      isWorkday ({} : WorkdayCalendar).holidays ⟨32767, 12, 30⟩ = false ∧
      Machine.getWorkdayIncrement {} 2 ⟨⟨32767, 12, 30⟩, ⟨0⟩⟩ 0 =
        some ⟨⟨-32768, 1, 1⟩, ⟨0⟩⟩ ∧
      sys_days (⟨-32768, 1, 1⟩ : Date) < sys_days (⟨32767, 12, 30⟩ : Date) := by
  refine ⟨by decide, by decide, by decide, by decide, by decide, ?_, by decide⟩
  rw [machine_eval_zero]
  decide

/-- C23 (amended). A zero increment is the identity exactly on normalised inputs: for every
calendar with `workdayStart <= workdayStop` and every start `x` (a valid date with its year
in -32768..32767 and a valid time of day), `getWorkdayIncrement(x, 0)` returns `x` if the
date of `x` is a working day and its time of day lies within `[workdayStart, workdayStop]`,
and only then. When the date of `x` is a weekend or holiday and some working day lies after
it and not after 32767-12-31, the function returns, and every result is the earliest working
day strictly after that date (zero is treated as a forward direction). -/
theorem C23_zero_increment (cfg : WorkdayCalendar) (start : DateTime)
    (hwin : cfg.start_.to_duration ≤ cfg.stop_.to_duration)
    (hdate : start.date.ok = true)
    (hy1 : -32768 ≤ start.date.year) (hy2 : start.date.year ≤ 32767)
    (htime : start.time.ok = true) :
    (isWorkday cfg.holidays start.date = true →
      cfg.start_.to_duration ≤ start.time.to_duration →
      start.time.to_duration ≤ cfg.stop_.to_duration →
      ∀ fuel : Nat, Machine.getWorkdayIncrement cfg fuel start 0 = some start) ∧
    (∀ fuel : Nat, Machine.getWorkdayIncrement cfg fuel start 0 = some start →
      isWorkday cfg.holidays start.date = true ∧
      cfg.start_.to_duration ≤ start.time.to_duration ∧
      start.time.to_duration ≤ cfg.stop_.to_duration) ∧
    (isWorkday cfg.holidays start.date = false →
      (∃ z : Int, sys_days start.date < z ∧ z ≤ Machine.lastDay ∧
        isWorkday cfg.holidays (Date.ofSysDays z) = true) →
      ∃ r : DateTime,
        (∃ fuel : Nat, Machine.getWorkdayIncrement cfg fuel start 0 = some r) ∧
        (∀ (fuel : Nat) (r' : DateTime),
          Machine.getWorkdayIncrement cfg fuel start 0 = some r' → r' = r) ∧
        sys_days start.date < sys_days r.date ∧
        isWorkday cfg.holidays r.date = true ∧
        ∀ z : Int, sys_days start.date < z → z < sys_days r.date →
          isWorkday cfg.holidays (Date.ofSysDays z) = false) := by
  obtain ⟨hs1, hs2⟩ := sys_days_range_of_ok start.date hdate hy1 hy2
  obtain ⟨e1, -, e3⟩ := zero_increment_exact cfg start hwin hdate htime
  have tt : ∀ (fuel : Nat) (r : DateTime), cfg.getWorkdayIncrement fuel start 0 = some r →
      Machine.firstDay ≤ sys_days r.date → sys_days r.date ≤ Machine.lastDay →
      Machine.getWorkdayIncrement cfg fuel start 0 = some r := by
    intro fuel r hres hr1 hr2
    have := machine_of_exact_intCast cfg fuel start 0 r (by decide) hwin htime hs1 hs2
      hr1 hr2 (by rw [Int.cast_zero]; exact hres)
    rw [Int.cast_zero] at this
    exact this
  refine ⟨?_, ?_, ?_⟩
  · intro hwork h1 h2 fuel
    exact tt fuel start (e1 hwork h1 h2 fuel) hs1 hs2
  · intro fuel h
    refine ⟨machine_getWorkdayIncrement_isWorkday cfg fuel start 0 start h, ?_⟩
    obtain ⟨k0, -, -, -, ht, -⟩ := (machine_getWorkdayIncrement_eq_some_iff cfg fuel start 0
      start).1 h
    have het := machine_endTime_of_intCast cfg start 0 (by decide)
    rw [Int.cast_zero] at het
    rw [het] at ht
    have hm := endTime_fst_mem cfg start 0 hwin
    rw [← ht] at hm
    exact hm
  · intro hnw hex
    obtain ⟨z, hz, hz2, hwz⟩ := hex
    obtain ⟨hall, hexr⟩ := e3 hnw
    obtain ⟨fuel, r, hres⟩ := hexr ⟨z, hz, hwz⟩
    obtain ⟨hlt, hwr, hno⟩ := hall fuel r hres
    have hle : sys_days r.date ≤ z := by
      by_contra hcon
      have := hno z hz (by omega)
      rw [hwz] at this
      cases this
    have hm := tt fuel r hres (by omega) (by omega)
    exact ⟨r, ⟨fuel, hm⟩, fun fuel' r' h' =>
      machine_getWorkdayIncrement_unique cfg fuel fuel' start _ _ r' hm h', hlt, hwr, hno⟩

/-- Witness of C23 (amended): on the kata calendar the start Saturday 2004-05-15 10:00 with
a zero increment gives Tuesday 2004-05-18 10:00, the Monday between them being the recurring
holiday 17 May; the theorem is applied to this start. -/
theorem C23_zero_increment_witness :
    Machine.getWorkdayIncrement kataCalendar 3 ⟨⟨2004, 5, 15⟩, ⟨600⟩⟩ 0 =
        some ⟨⟨2004, 5, 18⟩, ⟨600⟩⟩ ∧
    (kataCalendar.start_.to_duration ≤ kataCalendar.stop_.to_duration ∧
      (⟨2004, 5, 15⟩ : Date).ok = true ∧ (-32768 : Int) ≤ 2004 ∧ (2004 : Int) ≤ 32767 ∧
      (⟨600⟩ : Time).ok = true ∧
      isWorkday kataCalendar.holidays ⟨2004, 5, 15⟩ = false ∧
      (∃ z : Int, sys_days (⟨2004, 5, 15⟩ : Date) < z ∧ z ≤ Machine.lastDay ∧
        isWorkday kataCalendar.holidays (Date.ofSysDays z) = true)) ∧
    ((isWorkday kataCalendar.holidays ⟨2004, 5, 15⟩ = true →
      kataCalendar.start_.to_duration ≤ (⟨600⟩ : Time).to_duration →
      (⟨600⟩ : Time).to_duration ≤ kataCalendar.stop_.to_duration →
      ∀ fuel : Nat, Machine.getWorkdayIncrement kataCalendar fuel ⟨⟨2004, 5, 15⟩, ⟨600⟩⟩ 0 =
        some ⟨⟨2004, 5, 15⟩, ⟨600⟩⟩) ∧
    (∀ fuel : Nat, Machine.getWorkdayIncrement kataCalendar fuel ⟨⟨2004, 5, 15⟩, ⟨600⟩⟩ 0 =
        some ⟨⟨2004, 5, 15⟩, ⟨600⟩⟩ →
      isWorkday kataCalendar.holidays ⟨2004, 5, 15⟩ = true ∧
      kataCalendar.start_.to_duration ≤ (⟨600⟩ : Time).to_duration ∧
      (⟨600⟩ : Time).to_duration ≤ kataCalendar.stop_.to_duration) ∧
    (isWorkday kataCalendar.holidays ⟨2004, 5, 15⟩ = false →
      (∃ z : Int, sys_days (⟨2004, 5, 15⟩ : Date) < z ∧ z ≤ Machine.lastDay ∧
        isWorkday kataCalendar.holidays (Date.ofSysDays z) = true) →
      ∃ r : DateTime,
        (∃ fuel : Nat,
          Machine.getWorkdayIncrement kataCalendar fuel ⟨⟨2004, 5, 15⟩, ⟨600⟩⟩ 0 = some r) ∧
        (∀ (fuel : Nat) (r' : DateTime),
          Machine.getWorkdayIncrement kataCalendar fuel ⟨⟨2004, 5, 15⟩, ⟨600⟩⟩ 0 = some r' →
            r' = r) ∧
        sys_days (⟨2004, 5, 15⟩ : Date) < sys_days r.date ∧
        isWorkday kataCalendar.holidays r.date = true ∧
        ∀ z : Int, sys_days (⟨2004, 5, 15⟩ : Date) < z → z < sys_days r.date →
          isWorkday kataCalendar.holidays (Date.ofSysDays z) = false)) := by
  refine ⟨?_, ⟨by decide, by decide, by decide, by decide, by decide, by decide,
      ⟨sys_days ⟨2004, 5, 18⟩, by decide, by decide, by decide⟩⟩,
    C23_zero_increment kataCalendar ⟨⟨2004, 5, 15⟩, ⟨600⟩⟩ (by decide) (by decide)
      (by decide) (by decide) (by decide)⟩
  rw [machine_eval_zero]
  decide

/-- Round trip of whole days on the machine types, when the `|N|`-th working day from the
start lies within the dates a 16-bit year holds. -/
theorem machine_roundtrip (cfg : WorkdayCalendar) (start : DateTime) (N : Int) (K : Nat)
    (hdate : start.date.ok = true)
    (hy1 : -32768 ≤ start.date.year) (hy2 : start.date.year ≤ 32767)
    (htime : start.time.ok = true)
    (hwork : isWorkday cfg.holidays start.date = true)
    (h1 : cfg.start_.to_duration ≤ start.time.to_duration)
    (h2 : start.time.to_duration ≤ cfg.stop_.to_duration)
    (hN24 : N.natAbs ≤ 2 ^ 24)
    (hK1 : Machine.firstDay ≤ sys_days start.date + calculateIncrement (N : ℚ) * (K : Int))
    (hK2 : sys_days start.date + calculateIncrement (N : ℚ) * (K : Int) ≤ Machine.lastDay)
    (hKc : N.natAbs ≤
      countWorkdays cfg.holidays (sys_days start.date) (calculateIncrement (N : ℚ)) K) :
    ∃ (fuel : Nat) (r : DateTime),
      Machine.getWorkdayIncrement cfg fuel start (N : ℚ) = some r ∧
      Machine.getWorkdayIncrement cfg fuel r (-(N : ℚ)) = some start ∧
      (∀ (fuel' : Nat) (r' : DateTime),
        Machine.getWorkdayIncrement cfg fuel' start (N : ℚ) = some r' → r' = r) := by
  obtain ⟨hs1, hs2⟩ := sys_days_range_of_ok start.date hdate hy1 hy2
  have hwin : cfg.start_.to_duration ≤ cfg.stop_.to_duration := le_trans h1 h2
  have hneg : -(N : ℚ) = ((-N : Int) : ℚ) := by push_cast; rfl
  by_cases hN : N = 0
  · subst hN
    have hr := roundtrip_zero cfg start hdate htime hwork h1 h2
    have hm := machine_of_exact_intCast cfg 0 start 0 start (by decide) hwin htime hs1 hs2
      hs1 hs2 hr
    refine ⟨0, start, hm, ?_, fun fuel' r' h' =>
      machine_getWorkdayIncrement_unique cfg 0 fuel' start _ _ r' hm h'⟩
    rw [hneg]
    exact hm
  · have hinc := calculateIncrement_cases (N : ℚ)
    have hpos : 0 < N.natAbs := by omega
    obtain ⟨k, hk1, hkK, hwk, hcnt⟩ := countWorkdays_reaches cfg.holidays
      (sys_days start.date) (calculateIncrement (N : ℚ)) N.natAbs hpos K hKc
    obtain ⟨hf, hb⟩ := roundtrip_steps cfg start N hdate htime hwork h1 h2 hN k hk1 hwk hcnt
    have hrk := range_between (sys_days start.date) _ hinc K k hkK hs1 hs2 hK1 hK2
    have hsd : sys_days (Date.ofSysDays
        (sys_days start.date + calculateIncrement (N : ℚ) * (k : Int))) =
        sys_days start.date + calculateIncrement (N : ℚ) * (k : Int) := sys_days_ofSysDays _
    have hm1 := machine_of_exact_intCast cfg k start N _ hN24 hwin htime hs1 hs2
      (by rw [hsd]; exact hrk.1) (by rw [hsd]; exact hrk.2) hf
    have hm2 := machine_of_exact_intCast cfg k
      ⟨Date.ofSysDays (sys_days start.date + calculateIncrement (N : ℚ) * (k : Int)),
        start.time⟩ (-N) start (by omega) hwin htime
      (by rw [hsd]; exact hrk.1) (by rw [hsd]; exact hrk.2) hs1 hs2 hb
    refine ⟨k, _, hm1, ?_, fun fuel' r' h' =>
      machine_getWorkdayIncrement_unique cfg k fuel' start _ _ r' hm1 h'⟩
    rw [hneg]
    exact hm2

/-- Counterexample to C12 as stated: on the default calendar (no holidays, window 00:00 to
00:00) the start Saturday 2025-12-06 00:00 is a valid date at the window boundary. With
`N = 1` the start is first moved forward to Monday and the result is Tuesday 2025-12-09; from
there `-1` gives Monday 2025-12-08, not the Saturday. -/
theorem C12_counterexample :
    (⟨2025, 12, 6⟩ : Date).ok = true ∧ weekday (⟨2025, 12, 6⟩ : Date) = Saturday ∧
      Machine.getWorkdayIncrement {} 3 ⟨⟨2025, 12, 6⟩, ⟨0⟩⟩ ((1 : Int) : ℚ) =
        some ⟨⟨2025, 12, 9⟩, ⟨0⟩⟩ ∧
      Machine.getWorkdayIncrement {} 3 ⟨⟨2025, 12, 9⟩, ⟨0⟩⟩ (-((1 : Int) : ℚ)) =
        some ⟨⟨2025, 12, 8⟩, ⟨0⟩⟩ ∧
      (⟨⟨2025, 12, 8⟩, ⟨0⟩⟩ : DateTime) ≠ ⟨⟨2025, 12, 6⟩, ⟨0⟩⟩ := by
  refine ⟨by decide, by decide, ?_, ?_, by decide⟩
  · rw [machine_eval_intCast _ _ _ 1 (by decide),
      calculateIncrement_of_nonneg _ (by norm_num)]
    decide
  · have e : -((1 : Int) : ℚ) = ((-1 : Int) : ℚ) := by norm_num
    rw [e, machine_eval_intCast _ _ _ (-1) (by decide),
      calculateIncrement_of_neg _ (by norm_num)]
    decide

/-- C12 (amended). Round trip at window boundaries: with no holidays configured and
`workdayStart <= workdayStop`, for every valid start date that is a weekday (Monday to
Friday) with its year in -32768..32767, every integer `N` (positive, zero or negative) with
`|N| <= 2^24` such that at least `|N|` working days lie among the `K` days after the start
date (before it when `N < 0`), the last of which is not after 32767-12-31 (not before
-32768-01-01), and a valid start time of day equal to `workdayStart` or to `workdayStop`,
`getWorkdayIncrement(x, N)` returns a result `r` and `getWorkdayIncrement(r, -N)` returns
`x`, in date and time. -/
theorem C12_round_trip_at_boundaries (cfg : WorkdayCalendar) (start : DateTime) (N : Int)
    (K : Nat)
    (hn : cfg.nonRecurringHolidays_ = []) (hr : cfg.recurringHolidays_ = [])
    (hwin : cfg.start_.to_duration ≤ cfg.stop_.to_duration)
    (hdate : start.date.ok = true)
    (hy1 : -32768 ≤ start.date.year) (hy2 : start.date.year ≤ 32767)
    (htime : start.time.ok = true)
    (hwd : weekday start.date ≠ Saturday ∧ weekday start.date ≠ Sunday)
    (hb : start.time = cfg.start_ ∨ start.time = cfg.stop_)
    (hN24 : N.natAbs ≤ 2 ^ 24)
    (hK1 : Machine.firstDay ≤ sys_days start.date + calculateIncrement (N : ℚ) * (K : Int))
    (hK2 : sys_days start.date + calculateIncrement (N : ℚ) * (K : Int) ≤ Machine.lastDay)
    (hKc : N.natAbs ≤
      countWorkdays cfg.holidays (sys_days start.date) (calculateIncrement (N : ℚ)) K) :
    ∃ (fuel : Nat) (r : DateTime),
      Machine.getWorkdayIncrement cfg fuel start (N : ℚ) = some r ∧
      Machine.getWorkdayIncrement cfg fuel r (-(N : ℚ)) = some start := by
  have hwork : isWorkday cfg.holidays start.date = true := by
    rw [isWorkday_iff]
    refine ⟨hwd.1, hwd.2, ?_, ?_⟩
    · intro x hx
      simp [WorkdayCalendar.holidays, hn] at hx
    · intro x hx
      simp [WorkdayCalendar.holidays, hr] at hx
  rcases hb with e | e
  · obtain ⟨fuel, r, a, b, -⟩ := machine_roundtrip cfg start N K hdate hy1 hy2 htime hwork
      (by rw [e]) (by rw [e]; exact hwin) hN24 hK1 hK2 hKc
    exact ⟨fuel, r, a, b⟩
  · obtain ⟨fuel, r, a, b, -⟩ := machine_roundtrip cfg start N K hdate hy1 hy2 htime hwork
      (by rw [e]; exact hwin) (by rw [e]) hN24 hK1 hK2 hKc
    exact ⟨fuel, r, a, b⟩

/-- Witness of C12 (amended): the default calendar, Monday 2021-01-04 00:00, `N = 20` and
`K = 28`. -/
theorem C12_round_trip_at_boundaries_witness :
    (({} : WorkdayCalendar).nonRecurringHolidays_ = [] ∧
      ({} : WorkdayCalendar).recurringHolidays_ = [] ∧
      ({} : WorkdayCalendar).start_.to_duration ≤ ({} : WorkdayCalendar).stop_.to_duration ∧
      (⟨2021, 1, 4⟩ : Date).ok = true ∧ (⟨0⟩ : Time).ok = true ∧
      (weekday (⟨2021, 1, 4⟩ : Date) ≠ Saturday ∧ weekday (⟨2021, 1, 4⟩ : Date) ≠ Sunday) ∧
      ((⟨0⟩ : Time) = ({} : WorkdayCalendar).start_ ∨
        (⟨0⟩ : Time) = ({} : WorkdayCalendar).stop_) ∧
      (20 : Int).natAbs ≤ 2 ^ 24 ∧
      sys_days (⟨2021, 1, 4⟩ : Date) + 1 * ((28 : Nat) : Int) ≤ Machine.lastDay ∧
      (20 : Int).natAbs ≤
        countWorkdays ({} : WorkdayCalendar).holidays (sys_days ⟨2021, 1, 4⟩) 1 28) ∧
    ∃ (fuel : Nat) (r : DateTime),
      Machine.getWorkdayIncrement {} fuel ⟨⟨2021, 1, 4⟩, ⟨0⟩⟩ ((20 : Int) : ℚ) = some r ∧
      Machine.getWorkdayIncrement {} fuel r (-((20 : Int) : ℚ)) =
        some ⟨⟨2021, 1, 4⟩, ⟨0⟩⟩ := by
  have hi : calculateIncrement ((20 : Int) : ℚ) = 1 :=
    calculateIncrement_of_nonneg _ (by norm_num)
  exact ⟨⟨by decide, by decide, by decide, by decide, by decide, ⟨by decide, by decide⟩,
      Or.inl rfl, by decide, by decide, by decide⟩,
    C12_round_trip_at_boundaries {} ⟨⟨2021, 1, 4⟩, ⟨0⟩⟩ 20 28 (by decide) (by decide)
      (by decide) (by decide) (by decide) (by decide) (by decide) ⟨by decide, by decide⟩
      (Or.inl rfl) (by decide) (by rw [hi]; decide) (by rw [hi]; decide)
      (by rw [hi]; decide)⟩

/-- Counterexample to C21 as stated: the default calendar (no holidays, window 00:00 to
00:00), start Friday 32767-12-29 00:00, a working day with the time of day in the window,
and `N = 18000`. The dates `Date{floor<days>(timePoint)}` of the days after 32767-12-31
carry the year in 16 bits, -32768 onwards, and the 18000th working day among them is stored
as -32700-12-28: the leap day of the year 32836 is stored as -32700-02-29 and has the
weekday of -32700-03-01, as the day after it has. The walk back starts at the time point of
the date -32700-12-28 and meets no such day, so `getWorkdayIncrement(r, -N)` is Thursday
32767-12-28 and not the start. -/
theorem C21_counterexample :
    ({} : WorkdayCalendar).start_.to_duration ≤ ({} : WorkdayCalendar).stop_.to_duration ∧
      (⟨32767, 12, 29⟩ : Date).ok = true ∧
      isWorkday ({} : WorkdayCalendar).holidays ⟨32767, 12, 29⟩ = true ∧
      Machine.getWorkdayIncrement {} 25202 ⟨⟨32767, 12, 29⟩, ⟨0⟩⟩ ((18000 : Int) : ℚ) =
        some ⟨⟨-32700, 12, 28⟩, ⟨0⟩⟩ ∧
      Machine.getWorkdayIncrement {} 25202 ⟨⟨-32700, 12, 28⟩, ⟨0⟩⟩ (-((18000 : Int) : ℚ)) =
        some ⟨⟨32767, 12, 28⟩, ⟨0⟩⟩ ∧
      (⟨⟨32767, 12, 28⟩, ⟨0⟩⟩ : DateTime) ≠ ⟨⟨32767, 12, 29⟩, ⟨0⟩⟩ := by
  have hH : ({} : WorkdayCalendar).holidays = ⟨[], []⟩ := rfl
  have hi : calculateIncrement ((18000 : Int) : ℚ) = 1 :=
    calculateIncrement_of_nonneg _ (by norm_num)
  have hi' : calculateIncrement ((-18000 : Int) : ℚ) = -1 :=
    calculateIncrement_of_neg _ (by norm_num)
  have hz : sys_days (⟨32767, 12, 29⟩ : Date) = 11248735 := by decide
  have hz' : sys_days (⟨-32700, 12, 28⟩ : Date) = -12662596 := by decide
  have hn : (18000 : Int).natAbs = 18000 := rfl
  have hn' : (-18000 : Int).natAbs = 18000 := rfl
  have e : -((18000 : Int) : ℚ) = ((-18000 : Int) : ℚ) := by norm_num
  refine ⟨by decide, by decide, by decide, ?_, ?_, by decide⟩
  · have hr : Machine.ofSysDays (sys_days (⟨32767, 12, 29⟩ : Date) +
        calculateIncrement ((18000 : Int) : ℚ) * ((25202 : Nat) : Int)) =
        ⟨-32700, 12, 28⟩ := by
      rw [hi]
      decide
    have h := machine_whole_days {} ⟨⟨32767, 12, 29⟩, ⟨0⟩⟩ 18000 25202 (by decide)
      (by decide) (by decide) (by decide) (by decide) (by decide) (by decide)
      (by rw [hr]; decide) (by rw [hH, hi, hz, hn]; exact wrap_forward_count)
    rw [h, hr]
  · have hr : Machine.ofSysDays (sys_days (⟨-32700, 12, 28⟩ : Date) +
        calculateIncrement ((-18000 : Int) : ℚ) * ((25202 : Nat) : Int)) =
        ⟨32767, 12, 28⟩ := by
      rw [hi']
      decide
    have h := machine_whole_days {} ⟨⟨-32700, 12, 28⟩, ⟨0⟩⟩ (-18000) 25202 (by decide)
      (by decide) (by decide) (by decide) (by decide) (by decide) (by decide)
      (by rw [hr]; decide) (by rw [hH, hi', hz', hn']; exact wrap_backward_count)
    rw [e, h, hr]

/-- C21 (amended). Round trip from a working day: for every configuration (any fixed and
recurring holidays) with `workdayStart <= workdayStop`, every start `x` whose date is a
valid date with its year in -32768..32767 and a working day and whose valid time of day
lies within `[workdayStart, workdayStop]`, and every integer `N` with `|N| <= 2^24` such
that at least `|N|` working days lie among the `K` days after the start date (before it
when `N < 0`), the last of which is not after 32767-12-31 (not before -32768-01-01),
`getWorkdayIncrement(x, N)` returns a result `r` and `getWorkdayIncrement(r, -N)` returns
`x`, in date and time; `r` is the only result of the first call, whatever the bound on the
iterations. -/
theorem C21_round_trip_from_workday (cfg : WorkdayCalendar) (start : DateTime) (N : Int)
    (K : Nat)
    (hdate : start.date.ok = true)
    (hy1 : -32768 ≤ start.date.year) (hy2 : start.date.year ≤ 32767)
    (htime : start.time.ok = true)
    (hwork : isWorkday cfg.holidays start.date = true)
    (h1 : cfg.start_.to_duration ≤ start.time.to_duration)
    (h2 : start.time.to_duration ≤ cfg.stop_.to_duration)
    (hN24 : N.natAbs ≤ 2 ^ 24)
    (hK1 : Machine.firstDay ≤ sys_days start.date + calculateIncrement (N : ℚ) * (K : Int))
    (hK2 : sys_days start.date + calculateIncrement (N : ℚ) * (K : Int) ≤ Machine.lastDay)
    (hKc : N.natAbs ≤
      countWorkdays cfg.holidays (sys_days start.date) (calculateIncrement (N : ℚ)) K) :
    ∃ (fuel : Nat) (r : DateTime),
      Machine.getWorkdayIncrement cfg fuel start (N : ℚ) = some r ∧
      Machine.getWorkdayIncrement cfg fuel r (-(N : ℚ)) = some start ∧
      (∀ (fuel' : Nat) (r' : DateTime),
        Machine.getWorkdayIncrement cfg fuel' start (N : ℚ) = some r' → r' = r) :=
  machine_roundtrip cfg start N K hdate hy1 hy2 htime hwork h1 h2 hN24 hK1 hK2 hKc

/-- Witness of C21 (amended): the kata calendar, Monday 2004-05-24 12:00, `N = -5` and
`K = 10`: the five working days before the start lie among the ten days before it (the
recurring holiday 17 May and two weekends are skipped). -/
theorem C21_round_trip_from_workday_witness :
    ((⟨2004, 5, 24⟩ : Date).ok = true ∧ (⟨720⟩ : Time).ok = true ∧
      isWorkday kataCalendar.holidays ⟨2004, 5, 24⟩ = true ∧
      kataCalendar.start_.to_duration ≤ (⟨720⟩ : Time).to_duration ∧
      (⟨720⟩ : Time).to_duration ≤ kataCalendar.stop_.to_duration ∧
      (-5 : Int).natAbs ≤ 2 ^ 24 ∧
      Machine.firstDay ≤ sys_days (⟨2004, 5, 24⟩ : Date) + -1 * ((10 : Nat) : Int) ∧
      (-5 : Int).natAbs ≤ countWorkdays kataCalendar.holidays (sys_days ⟨2004, 5, 24⟩) (-1) 10) ∧
    ∃ (fuel : Nat) (r : DateTime),
      Machine.getWorkdayIncrement kataCalendar fuel ⟨⟨2004, 5, 24⟩, ⟨720⟩⟩ ((-5 : Int) : ℚ) =
        some r ∧
      Machine.getWorkdayIncrement kataCalendar fuel r (-((-5 : Int) : ℚ)) =
        some ⟨⟨2004, 5, 24⟩, ⟨720⟩⟩ ∧
      (∀ (fuel' : Nat) (r' : DateTime),
        Machine.getWorkdayIncrement kataCalendar fuel' ⟨⟨2004, 5, 24⟩, ⟨720⟩⟩
          ((-5 : Int) : ℚ) = some r' → r' = r) := by
  have hi : calculateIncrement ((-5 : Int) : ℚ) = -1 :=
    calculateIncrement_of_neg _ (by norm_num)
  exact ⟨⟨by decide, by decide, by decide, by decide, by decide, by decide, by decide,
      by decide⟩,
    C21_round_trip_from_workday kataCalendar ⟨⟨2004, 5, 24⟩, ⟨720⟩⟩ (-5) 10 (by decide)
      (by decide) (by decide) (by decide) (by decide) (by decide) (by decide) (by decide)
      (by rw [hi]; decide) (by rw [hi]; decide) (by rw [hi]; decide)⟩

end WorkdayCalendarSpec
